import Mathlib

/-!
# Sur-Pass: occupancy ledger, identity normalisation and evacuation

A shallow embedding of `src/funciones.js` (Google Apps Script). JavaScript strings are
lists of characters, spreadsheet sheets are lists of rows of cells, and the script's
global state (sheets, cell notes, outgoing mail, the simulation guard) is an explicit
record threaded through the functions that touch it.
-/

namespace SurPass

/-- JavaScript string, as the list of its characters. The regular expressions of the
script only ever accept ASCII characters (plus `É`/`é`), so counting code points instead
of UTF-16 code units never changes a match. -/
abbrev Str := List Char

/-! ## Character classes of the JavaScript regular expressions -/

/-- Members of `\s` (and what `String.prototype.trim` strips): ECMAScript WhiteSpace and
LineTerminator. -/
def esEspacio (c : Char) : Bool :=
  let n := c.toNat
  (9 ≤ n && n ≤ 13) || n == 0x20 || n == 0xA0 || n == 0x1680 ||
  (0x2000 ≤ n && n ≤ 0x200A) || n == 0x2028 || n == 0x2029 || n == 0x202F ||
  n == 0x205F || n == 0x3000 || n == 0xFEFF

/-- Members of `[0-9]`, which is also `\d`. -/
def esDigito (c : Char) : Bool := 48 ≤ c.toNat && c.toNat ≤ 57

/-- Members of `[A-Z]` without the `i` flag. -/
def esMayuscula (c : Char) : Bool := 65 ≤ c.toNat && c.toNat ≤ 90

/-- Members of `[a-z]`. -/
def esMinuscula (c : Char) : Bool := 97 ≤ c.toNat && c.toNat ≤ 122

/-- Members of `[A-Z]` under the `i` flag: the ASCII letters of either case (without the
`u` flag no character above U+007F canonicalises to an ASCII letter). -/
def esLetra (c : Char) : Bool := esMayuscula c || esMinuscula c

/-- Members of `\w`: `[A-Za-z0-9_]`. -/
def esPalabra (c : Char) : Bool := esLetra c || esDigito c || c == '_'

/-- Members of `[\w\-]`. -/
def esPalabraGuion (c : Char) : Bool := esPalabra c || c == '-'

/-- Members of `[A-Z0-9\-]` under the `i` flag. -/
def esAlfaGuion (c : Char) : Bool := esLetra c || esDigito c || c == '-'

/-- Members of `[0-9\-]`. -/
def esDigitoGuion (c : Char) : Bool := esDigito c || c == '-'

/-- Members of `[:=\s-]`. -/
def esSeparador (c : Char) : Bool := c == ':' || c == '=' || esEspacio c || c == '-'

/-- A literal ASCII letter under the `i` flag: the letter in either case (`l` is given in
lower case). -/
def letraCI (l : Char) (c : Char) : Bool := c == l || c.toNat + 32 == l.toNat

/-- Members of `[EeÉé]` (pattern for "cédula"). -/
def esEConTilde (c : Char) : Bool :=
  c == 'e' || c == 'E' || c.toNat == 0xC9 || c.toNat == 0xE9

/-- Members of `[VE]` under the `i` flag. -/
def esVE (c : Char) : Bool := letraCI 'v' c || letraCI 'e' c

/-- Implementation of `String.prototype.trim`. -/
def trim (s : Str) : Str :=
  ((s.dropWhile esEspacio).reverse.dropWhile esEspacio).reverse

/-- Implementation of `s.replace(/\s/g, '')` (and of `/\s+/g`, which removes the same
characters). -/
def sinEspacios (s : Str) : Str := s.filter (fun c => !esEspacio c)

/-- Implementation of `s.replace(/[^\w\-]/g, '')`. -/
def soloPalabraGuion (s : Str) : Str := s.filter esPalabraGuion

/-- The test `/^[A-Z0-9\-]{3,20}$/i`. -/
def formaRazonable (s : Str) : Bool := s.all esAlfaGuion && 3 ≤ s.length && s.length ≤ 20

/-- The test `/^[\w\-]{3,20}$/`. -/
def formaCampo (s : Str) : Bool := s.all esPalabraGuion && 3 ≤ s.length && s.length ≤ 20

/-! ## Regular expressions

The eleven extraction patterns use only literals, character classes, greedy quantifiers
over a character class, one optional literal group, `\b` and capture groups. The matcher
below is the backtracking matcher of ECMAScript restricted to that subset. -/

/-- Node of a pattern. `abre`/`cierra` delimit the capture group whose text the script
reads as `match[2] || match[1]`; `opcional` is the group `(UMENTO)?` of the fifth pattern
(its capture is `match[1]` there and is never read, because `match[2]` always holds at
least three characters). -/
inductive Nodo where
  | clase (p : Char → Bool)
  | rep (p : Char → Bool) (min : Nat) (max : Option Nat)
  | opcional (ps : List (Char → Bool))
  | borde
  | abre
  | cierra

/-- The assertion `\b` between the previous character and the rest of the input. -/
def esBorde (prev : Option Char) (s : Str) : Bool :=
  (match prev with | some c => esPalabra c | none => false) !=
  (match s with | c :: _ => esPalabra c | [] => false)

/-- Number of leading characters of `s` in the class `p`, at most `max`. -/
def tramo (p : Char → Bool) : Option Nat → Str → Nat
  | some 0, _ => 0
  | _, [] => 0
  | max, c :: cs => if p c then tramo p (max.map (· - 1)) cs + 1 else 0

/-- Backtracking of a greedy quantifier: tries `k`, `k - 1`, …, `min` repetitions. -/
def retroceder (f : Nat → Option Str) (min : Nat) : Nat → Option Str
  | 0 => f 0
  | k + 1 =>
    match f (k + 1) with
    | some r => some r
    | none => if min ≤ k then retroceder f min k else none

/-- Last character consumed after reading the prefix `t`. -/
def previoTras (prev : Option Char) (t : Str) : Option Char :=
  match t.getLast? with
  | some c => some c
  | none => prev

/-- Matches a literal, given as one class per character; returns what follows it. -/
def literal : List (Char → Bool) → Option Char → Str → Option (Option Char × Str)
  | [], prev, s => some (prev, s)
  | _ :: _, _, [] => none
  | p :: ps, _, c :: cs => if p c then literal ps (some c) cs else none

/-- Matches the nodes at the start of `s`; `prev` is the character before `s`, `dentro`
says whether the capture group is open and `acc` holds, reversed, what it has captured.
Returns the captured text of the first successful alternative in backtracking order. -/
def coincidir : List Nodo → Option Char → Str → Bool → Str → Option Str
  | [], _, _, _, acc => some acc.reverse
  | .clase p :: ns, _, s, dentro, acc =>
    match s with
    | [] => none
    | c :: cs => if p c then coincidir ns (some c) cs dentro (if dentro then c :: acc else acc)
                 else none
  | .rep p min max :: ns, prev, s, dentro, acc =>
    let n := tramo p max s
    if n < min then none
    else retroceder (fun k =>
      coincidir ns (previoTras prev (s.take k)) (s.drop k) dentro
        (if dentro then (s.take k).reverse ++ acc else acc)) min n
  | .opcional ps :: ns, prev, s, dentro, acc =>
    match literal ps prev s with
    | some (prev2, s2) =>
      match coincidir ns prev2 s2 dentro acc with
      | some r => some r
      | none => coincidir ns prev s dentro acc
    | none => coincidir ns prev s dentro acc
  | .borde :: ns, prev, s, dentro, acc =>
    if esBorde prev s then coincidir ns prev s dentro acc else none
  | .abre :: ns, prev, s, _, _ => coincidir ns prev s true []
  | .cierra :: ns, prev, s, _, acc => coincidir ns prev s false acc

/-- Leftmost match, as `String.prototype.match` with a non-global pattern: the start
positions are tried from left to right. -/
def buscarDesde (ns : List Nodo) : Option Char → Str → Option Str
  | prev, [] => coincidir ns prev [] false []
  | prev, c :: cs =>
    match coincidir ns prev (c :: cs) false [] with
    | some r => some r
    | none => buscarDesde ns (some c) cs

/-- The captured text of `s.match(patron)`, if the pattern matches. -/
def buscar (ns : List Nodo) (s : Str) : Option Str := buscarDesde ns none s

/-- A literal under the `i` flag, from its lower-case spelling. -/
def textoCI (s : String) : List Nodo := s.toList.map (fun l => Nodo.clase (letraCI l))

/-- The captured class `([A-Z0-9\-]{3,20})` that ends the labelled patterns. -/
def capturaEtiqueta : List Nodo :=
  [.rep esSeparador 0 none, .abre, .rep esAlfaGuion 3 (some 20), .cierra]

/-- The pattern `/Texto\s*-\s*([\w\-]+)/i` (Panama QR format). -/
def patronQR : List Nodo :=
  textoCI "texto" ++ [.rep esEspacio 0 none, .clase (· == '-'), .rep esEspacio 0 none,
    .abre, .rep esPalabraGuion 1 none, .cierra]

/-- The pattern `/\b[Cc][EeÉé][Dd][Uu][Ll][Aa][:=\s-]*([A-Z0-9\-]{3,20})/i`. -/
def patronCedula : List Nodo :=
  [.borde, .clase (letraCI 'c'), .clase esEConTilde] ++ textoCI "dula" ++ capturaEtiqueta

/-- The pattern `/\bID[:=\s-]*([A-Z0-9\-]{3,20})/i`. -/
def patronID : List Nodo := [.borde] ++ textoCI "id" ++ capturaEtiqueta

/-- The pattern `/\bDNI[:=\s-]*([A-Z0-9\-]{3,20})/i`. -/
def patronDNI : List Nodo := [.borde] ++ textoCI "dni" ++ capturaEtiqueta

/-- The pattern `/\bDOC(UMENTO)?[:=\s-]*([A-Z0-9\-]{3,20})/i`. -/
def patronDoc : List Nodo :=
  [.borde] ++ textoCI "doc" ++ [.opcional ("umento".toList.map letraCI)] ++ capturaEtiqueta

/-- The pattern `/\b[VE]-([0-9\-]{6,15})\b/i` (Venezuela, Ecuador). -/
def patronVE : List Nodo :=
  [.borde, .clase esVE, .clase (· == '-'), .abre, .rep esDigitoGuion 6 (some 15), .cierra,
    .borde]

/-- The pattern `/\b([0-9]{1,2}-[0-9]{3,4}-[0-9]{3,6})\b/` (Panama, with hyphens). -/
def patronPanama : List Nodo :=
  [.borde, .abre, .rep esDigito 1 (some 2), .clase (· == '-'), .rep esDigito 3 (some 4),
    .clase (· == '-'), .rep esDigito 3 (some 6), .cierra, .borde]

/-- The pattern `/\b([A-Z]?[\d]+-[\d]+-[\d]+)\b/`. -/
def patronGuiones : List Nodo :=
  [.borde, .abre, .rep esMayuscula 0 (some 1), .rep esDigito 1 none, .clase (· == '-'),
    .rep esDigito 1 none, .clase (· == '-'), .rep esDigito 1 none, .cierra, .borde]

/-- The pattern `/\b([A-Z]{1,3}[0-9]{6,12})\b/i` (alphanumeric). -/
def patronAlfanumerico : List Nodo :=
  [.borde, .abre, .rep esLetra 1 (some 3), .rep esDigito 6 (some 12), .cierra, .borde]

/-- The pattern `/\b([0-9]{7,15})\b/` (long number). -/
def patronNumerico : List Nodo :=
  [.borde, .abre, .rep esDigito 7 (some 15), .cierra, .borde]

/-- The pattern `/\b([A-Z0-9\-]{5,20})\b/i` (anything that looks like an ID). -/
def patronGenerico : List Nodo :=
  [.borde, .abre, .rep esAlfaGuion 5 (some 20), .cierra, .borde]

/-- The list `patronesCedula`, in the order of the source. -/
def patronesCedula : List (List Nodo) :=
  [patronQR, patronCedula, patronID, patronDNI, patronDoc, patronVE, patronPanama,
   patronGuiones, patronAlfanumerico, patronNumerico, patronGenerico]

/-- The loop over `patronesCedula`: the first pattern that matches with a non-empty
capture which, stripped of white space, passes `/^[A-Z0-9\-]{3,20}$/i`. -/
def extraerPorPatron : List (List Nodo) → Str → Option Str
  | [], _ => none
  | p :: ps, s =>
    match buscar p s with
    | some resultado =>
      if resultado ≠ [] ∧ formaRazonable (sinEspacios resultado) then
        some (sinEspacios resultado)
      else extraerPorPatron ps s
    | none => extraerPorPatron ps s

/-- All matches of `/\d{5,15}/g`, left to right: `cur` holds, reversed, the digits of the
match being read. A run of digits is cut into pieces of fifteen; a last piece shorter
than five is no match. -/
def tramosDigitos : Str → Str → List Str
  | [], cur => if 5 ≤ cur.length then [cur.reverse] else []
  | c :: cs, cur =>
    if esDigito c then
      if cur.length = 15 then cur.reverse :: tramosDigitos cs [c]
      else tramosDigitos cs (c :: cur)
    else if 5 ≤ cur.length then cur.reverse :: tramosDigitos cs []
    else tramosDigitos cs []

/-! ## JavaScript numbers

Numbers reach the script as spreadsheet cells and as JSON values, and the script only
tests them for truthiness and converts them to text. A number is kept as a binary
fraction and both conversions are computed exactly, in integer arithmetic. -/

/-- JavaScript Number: `finito neg m e` stands for the double nearest to
`(-1)^neg * m * 2^e`. -/
inductive Numero where
  | finito (neg : Bool) (m : Nat) (e : Int)
  | infinito (neg : Bool)
  | nan
  deriving DecidableEq, Repr

/-- Binary64 rounding (nearest, ties to even) of the rational `a / b`, `b > 0`: the pair
`(m, e)` with value `m * 2^e`, where `2^52 ≤ m < 2^53`, or `e = -1074` and `m < 2^52`;
`none` when the value overflows to Infinity. -/
def redondear (a b : Nat) : Option (Nat × Int) :=
  if a = 0 then some (0, -1074) else
  let e0 : Int := (Nat.log2 a : Int) - (Nat.log2 b : Int)
  let alcanza : Bool := if 0 ≤ e0 then b * 2 ^ e0.toNat ≤ a else b ≤ a * 2 ^ (-e0).toNat
  let e : Int := if alcanza then e0 else e0 - 1
  let ex : Int := max (e - 52) (-1074)
  let p : Nat := if 0 ≤ ex then a else a * 2 ^ (-ex).toNat
  let q : Nat := if 0 ≤ ex then b * 2 ^ ex.toNat else b
  let c := p / q
  let r := p % q
  let m := if q < 2 * r ∨ (2 * r = q ∧ c % 2 = 1) then c + 1 else c
  let m2 := if m = 2 ^ 53 then 2 ^ 52 else m
  let ex2 := if m = 2 ^ 53 then ex + 1 else ex
  if 971 < ex2 then none else some (m2, ex2)

/-- Numerator of `m * base^e` as a fraction. -/
def fracNum (m base : Nat) (e : Int) : Nat := if 0 ≤ e then m * base ^ e.toNat else m

/-- Denominator of `m * base^e` as a fraction. -/
def fracDen (base : Nat) (e : Int) : Nat := if 0 ≤ e then 1 else base ^ (-e).toNat

/-- Search upwards for the least `n ≥ 1` with `a / b < 10^n`. -/
def subir10 (a b : Nat) : Nat → Nat → Nat
  | 0, n => n
  | f + 1, n => if a < b * 10 ^ n then n else subir10 a b f (n + 1)

/-- Search for the greatest `j` with `a * 10^j < b`. -/
def bajar10 (a b : Nat) : Nat → Nat → Nat
  | 0, j => j
  | f + 1, j => if a * 10 ^ (j + 1) < b then bajar10 a b f (j + 1) else j

/-- The integer `n` with `10^(n-1) ≤ a / b < 10^n`, for `a / b > 0` in the range of the
doubles. -/
def exponente10 (a b : Nat) : Int :=
  if b ≤ a then (subir10 a b 400 1 : Nat) else -((bajar10 a b 400 0 : Nat) : Int)

/-- The `k`-digit decimal `s * 10^(n-k)` nearest to the double `a / b = m * 2^e` that
rounds back to it, if there is one; returned with its exponent `n`. -/
def candidato (a b : Nat) (d : Nat × Int) (n : Int) (k : Nat) : Option (Nat × Int) :=
  let t : Int := (k : Int) - n
  let p := fracNum a 10 t
  let q := b * fracDen 10 t
  let lo := p / q
  let hi := lo + 1
  let vale (s : Nat) : Bool := s ≠ 0 ∧ redondear (fracNum s 10 (-t)) (fracDen 10 (-t)) = some d
  let elegido : Option Nat :=
    match vale lo, vale hi with
    | true, true =>
      if 2 * p < (lo + hi) * q then some lo
      else if (lo + hi) * q < 2 * p then some hi
      else if lo % 2 = 0 then some lo else some hi
    | true, false => some lo
    | false, true => some hi
    | false, false => none
  elegido.map (fun s => if s = 10 ^ k then (10 ^ (k - 1), n + 1) else (s, n))

/-- First number of digits, from `k` upwards, for which `candidato` succeeds. -/
def digitosDesde (a b : Nat) (d : Nat × Int) (n : Int) : Nat → Nat → Option (Nat × Int)
  | 0, _ => none
  | f + 1, k =>
    match candidato a b d n k with
    | some r => some r
    | none => digitosDesde a b d n f (k + 1)

/-- Decimal digits of a natural number. -/
def decimal (n : Nat) : Str := Nat.toDigits 10 n

/-- Layout of Number::toString for the digits `ds` (`k` of them) and the exponent `n`. -/
def componerNumero (ds : Str) (n : Int) : Str :=
  let k : Int := ds.length
  if k ≤ n ∧ n ≤ 21 then ds ++ List.replicate (n - k).toNat '0'
  else if 0 < n ∧ n ≤ 21 then ds.take n.toNat ++ '.' :: ds.drop n.toNat
  else if -6 < n ∧ n ≤ 0 then '0' :: '.' :: List.replicate (-n).toNat '0' ++ ds
  else
    let cola := 'e' :: (if 0 ≤ n - 1 then '+' else '-') :: decimal (n - 1).natAbs
    match ds with
    | [] => cola
    | [c] => c :: cola
    | c :: resto => c :: '.' :: resto ++ cola

/-- Number::toString(10) of a JavaScript number. -/
def Numero.texto : Numero → Str
  | .nan => "NaN".toList
  | .infinito neg => (if neg then "-Infinity" else "Infinity").toList
  | .finito neg m e =>
    match redondear (fracNum m 2 e) (fracDen 2 e) with
    | none => (if neg then "-Infinity" else "Infinity").toList
    | some (0, _) => ['0']
    | some (m2, e2) =>
      let a := fracNum m2 2 e2
      let b := fracDen 2 e2
      let cuerpo :=
        match digitosDesde a b (m2, e2) (exponente10 a b) 17 1 with
        | some (s, n) => componerNumero (decimal s) n
        | none => []
      if neg then '-' :: cuerpo else cuerpo

/-- Truthiness of a number: neither zero nor NaN. -/
def Numero.veraz : Numero → Bool
  | .nan => false
  | .infinito _ => true
  | .finito _ m e => redondear (fracNum m 2 e) (fracDen 2 e) ≠ some (0, -1074)

/-- The Number value of the decimal literal `(-1)^neg * m * 10^e10`. Literals far outside
the range of the doubles are decided on their number of digits, without computing the
power of ten. -/
def numeroDecimal (neg : Bool) (m : Nat) (e10 : Int) : Numero :=
  if m = 0 then .finito neg 0 0
  else if 310 < ((decimal m).length : Int) + e10 then .infinito neg
  else if ((decimal m).length : Int) + e10 < -330 then .finito neg 0 0
  else
    match redondear (fracNum m 10 e10) (fracDen 10 e10) with
    | none => .infinito neg
    | some (m2, e2) => .finito neg m2 e2

/-! ## JSON.parse

Of a parsed value the script reads only own properties of a top-level object, their
truthiness and their `String(...)` text, so the parser keeps exactly that. `String(v)`
throws a TypeError for an object that has an own property named `toString` (a parsed value
is never callable, and the inherited `valueOf` returns the object itself), and for an array
one of whose elements has no text for that reason; every other parsed value has a text. -/

/-- Truthiness and `String(...)` text of a JSON value; the text is `none` when `String(v)`
throws a TypeError. -/
structure Dato where
  veraz : Bool
  texto : Option Str
  deriving DecidableEq, Repr

/-- JSON value, as far as the script can tell values apart: of an array its text (the
elements joined by commas; `none` when joining throws), of an object its properties in
source order. -/
inductive Json where
  | nulo
  | bool (b : Bool)
  | num (n : Numero)
  | str (s : Str)
  | arr (texto : Option Str)
  | obj (campos : List (Str × Dato))
  deriving DecidableEq, Repr

/-- The text `String(v)`; `none` when the conversion throws a TypeError. -/
def Json.texto : Json → Option Str
  | .nulo => some "null".toList
  | .bool b => some (if b then "true" else "false").toList
  | .num n => some n.texto
  | .str s => some s
  | .arr t => t
  | .obj campos =>
    if campos.any (fun kv => kv.1 == "toString".toList) then none
    else some "[object Object]".toList

/-- Truthiness of a JSON value. -/
def Json.veraz : Json → Bool
  | .nulo => false
  | .bool b => b
  | .num n => n.veraz
  | .str s => s ≠ []
  | .arr _ => true
  | .obj _ => true

/-- Text of a value as an element of `Array.prototype.join`: `null` gives the empty
string. -/
def Json.enArreglo : Json → Option Str
  | .nulo => some []
  | v => v.texto

/-- Truthiness and text of a property value. -/
def Json.dato (v : Json) : Dato := ⟨v.veraz, v.texto⟩

/-- JSON white space. -/
def esBlancoJson (c : Char) : Bool := c == ' ' || c == '\t' || c == '\n' || c == '\r'

/-- Skips JSON white space. -/
def saltar (s : Str) : Str := s.dropWhile esBlancoJson

/-- Value of a hexadecimal digit. -/
def hex (c : Char) : Option Nat :=
  if esDigito c then some (c.toNat - 48)
  else if 97 ≤ c.toNat ∧ c.toNat ≤ 102 then some (c.toNat - 87)
  else if 65 ≤ c.toNat ∧ c.toNat ≤ 70 then some (c.toNat - 55)
  else none

/-- The character of `\uXXXX`. A surrogate code unit has no character of its own and is
kept as U+FFFD: either way it is not white space, not in `[\w\-]` and in no candidate
field name. -/
def unidad (a b c d : Char) : Option Char :=
  match hex a, hex b, hex c, hex d with
  | some x, some y, some z, some w =>
    let n := ((x * 16 + y) * 16 + z) * 16 + w
    some (if 0xD800 ≤ n ∧ n ≤ 0xDFFF then Char.ofNat 0xFFFD else Char.ofNat n)
  | _, _, _, _ => none

/-- Reads a JSON string after its opening quote; `acc` holds, reversed, the characters
read so far. Returns the string and what follows the closing quote. -/
def pCadena : Str → Str → Option (Str × Str)
  | [], _ => none
  | '"' :: cs, acc => some (acc.reverse, cs)
  | '\\' :: 'u' :: a :: b :: c :: d :: cs, acc =>
    match unidad a b c d with
    | some x => pCadena cs (x :: acc)
    | none => none
  | '\\' :: e :: cs, acc =>
    if e = '"' then pCadena cs ('"' :: acc)
    else if e = '\\' then pCadena cs ('\\' :: acc)
    else if e = '/' then pCadena cs ('/' :: acc)
    else if e = 'b' then pCadena cs (Char.ofNat 8 :: acc)
    else if e = 'f' then pCadena cs (Char.ofNat 12 :: acc)
    else if e = 'n' then pCadena cs ('\n' :: acc)
    else if e = 'r' then pCadena cs ('\r' :: acc)
    else if e = 't' then pCadena cs ('\t' :: acc)
    else none
  | ['\\'], _ => none
  | c :: cs, acc => if c.toNat < 0x20 then none else pCadena cs (c :: acc)

/-- Value of a run of decimal digits. -/
def valorDigitos (ds : Str) : Nat := ds.foldl (fun n c => 10 * n + (c.toNat - 48)) 0

/-- Reads the exponent part `[eE][+-]?[0-9]+`, if present: its value and what follows
it; `none` when an `e` is not followed by digits. -/
def pExponente : Str → Option (Int × Str)
  | c :: cs =>
    if c = 'e' ∨ c = 'E' then
      let neg : Bool := match cs with | s :: _ => s == '-' | [] => false
      let r := match cs with | s :: r => if s = '+' ∨ s = '-' then r else cs | [] => cs
      let ds := r.takeWhile esDigito
      if ds = [] then none
      else some (if neg then -(valorDigitos ds : Int) else (valorDigitos ds : Int),
                 r.dropWhile esDigito)
    else some (0, c :: cs)
  | [] => some (0, [])

/-- Reads a JSON number `-?(0|[1-9][0-9]*)(\.[0-9]+)?([eE][+-]?[0-9]+)?`. -/
def pNumero (s : Str) : Option (Json × Str) :=
  let neg : Bool := match s with | c :: _ => c == '-' | [] => false
  let s1 := if neg then s.drop 1 else s
  let ent := s1.takeWhile esDigito
  let s2 := s1.dropWhile esDigito
  if ent = [] ∨ (2 ≤ ent.length ∧ ent.head? = some '0') then none
  else
    let conFrac : Bool := match s2 with | c :: _ => c == '.' | [] => false
    let frac := if conFrac then (s2.drop 1).takeWhile esDigito else []
    let s3 := if conFrac then (s2.drop 1).dropWhile esDigito else s2
    if conFrac ∧ frac = [] then none
    else
      match pExponente s3 with
      | none => none
      | some (e, s4) =>
        some (.num (numeroDecimal neg (valorDigitos (ent ++ frac)) (e - frac.length)), s4)

/-- Joins texts with commas, as `Array.prototype.join`. -/
def unir : List Str → Str
  | [] => []
  | [t] => t
  | t :: ts => t ++ ',' :: unir ts

/-- The texts of the elements of an array, when every element has one. -/
def textosDe : List (Option Str) → Option (List Str)
  | [] => some []
  | none :: _ => none
  | some t :: ts => (textosDe ts).map (t :: ·)

/-- The text of an array from the texts of its elements: joining throws when the
conversion of an element throws. -/
def unirElementos (ts : List (Option Str)) : Option Str := (textosDe ts).map unir

mutual
/-- Reads one JSON value at the start of `s` (after white space). The first argument is
fuel: a call chain spends one unit per call and reads at least one character in every
two calls (`[` before the elements, a value or a key before the next element), so twice
the length of the text is never used up. -/
def pValor : Nat → Str → Option (Json × Str)
  | 0, _ => none
  | f + 1, s =>
    match saltar s with
    | '{' :: r =>
      match saltar r with
      | '}' :: r2 => some (.obj [], r2)
      | _ => pMiembros f r []
    | '[' :: r =>
      match saltar r with
      | ']' :: r2 => some (.arr (some []), r2)
      | _ => pElementos f r []
    | '"' :: r => (pCadena r []).map (fun tr => (.str tr.1, tr.2))
    | 't' :: 'r' :: 'u' :: 'e' :: r => some (.bool true, r)
    | 'f' :: 'a' :: 'l' :: 's' :: 'e' :: r => some (.bool false, r)
    | 'n' :: 'u' :: 'l' :: 'l' :: r => some (.nulo, r)
    | c :: r => if c = '-' ∨ esDigito c then pNumero (c :: r) else none
    | [] => none
/-- Reads the elements of an array up to its closing bracket; `acc` holds the texts of
the elements read so far. -/
def pElementos : Nat → Str → List (Option Str) → Option (Json × Str)
  | 0, _, _ => none
  | f + 1, s, acc =>
    match pValor f s with
    | none => none
    | some (v, r) =>
      match saltar r with
      | ',' :: r2 => pElementos f r2 (acc ++ [v.enArreglo])
      | ']' :: r2 => some (.arr (unirElementos (acc ++ [v.enArreglo])), r2)
      | _ => none
/-- Reads the members of an object up to its closing brace; `acc` holds the members read
so far. -/
def pMiembros : Nat → Str → List (Str × Dato) → Option (Json × Str)
  | 0, _, _ => none
  | f + 1, s, acc =>
    match saltar s with
    | '"' :: r =>
      match pCadena r [] with
      | none => none
      | some (k, r2) =>
        match saltar r2 with
        | ':' :: r3 =>
          match pValor f r3 with
          | none => none
          | some (v, r4) =>
            match saltar r4 with
            | ',' :: r5 => pMiembros f r5 (acc ++ [(k, v.dato)])
            | '}' :: r5 => some (.obj (acc ++ [(k, v.dato)]), r5)
            | _ => none
        | _ => none
    | _ => none
end

/-- The call `JSON.parse(s)`: `none` stands for the SyntaxError it throws. -/
def jsonParse (s : Str) : Option Json :=
  match pValor (2 * s.length + 2) s with
  | some (v, r) => if saltar r = [] then some v else none
  | none => none

/-! ## normalizarCedula -/

/-- The list `campoPosibles`, in the order of the source. -/
def campoPosibles : List Str :=
  ["cedula", "cédula", "documento", "id", "identificacion", "identificación", "numero",
   "número", "dni", "doc", "num_doc", "no_doc", "nro_doc", "num", "no", "nro"].map
    String.toList

/-- The property `jsonData[campo]` of a parsed object: when a key is repeated the last
occurrence is the property; `none` is `undefined`. -/
def propiedad (campos : List (Str × Dato)) (campo : Str) : Option Dato :=
  (campos.reverse.find? (fun kv => kv.1 == campo)).map (·.2)

/-- Exceptions that the body of `normalizarCedula` can raise. -/
inductive Excepcion where
  | syntaxError
  | typeError
  deriving DecidableEq, Repr

/-- The loop over `campoPosibles`: a field that is falsy is skipped; of a truthy field
the text `String(jsonData[campo])` is taken, which throws when the value has no text;
the first truthy field whose trimmed text passes `/^[\w\-]{3,20}$/` is returned. -/
def probarCampos (campos : List (Str × Dato)) : List Str → Except Excepcion (Option Str)
  | [] => .ok none
  | campo :: resto =>
    match propiedad campos campo with
    | some d =>
      if d.veraz then
        match d.texto with
        | none => .error .typeError
        | some valor =>
          if formaCampo (trim valor) then .ok (some (trim valor))
          else probarCampos campos resto
      else probarCampos campos resto
    | none => probarCampos campos resto

/-- Body of the inner `try` (step 1): `JSON.parse` throws on text that is not JSON,
reading a property of `null` throws, and so does `String(...)` of a field value without
text; every other value that is not an object has none of the candidate properties.
`ok (some v)` is the `return valor`. -/
def intentoJson (cedulaLimpia : Str) : Except Excepcion (Option Str) :=
  match jsonParse cedulaLimpia with
  | none => .error .syntaxError
  | some .nulo => .error .typeError
  | some (.obj campos) => probarCampos campos campoPosibles
  | some _ => .ok none

/-- Steps 2 to 5 of `normalizarCedula`, on the trimmed input. -/
def pasosTexto (cedulaLimpia : Str) : Str :=
  match extraerPorPatron patronesCedula cedulaLimpia with
  | some cedulaFinal => cedulaFinal
  | none =>
    let cedulaDirecta := sinEspacios cedulaLimpia
    if formaRazonable cedulaDirecta then cedulaDirecta
    else
      let numerosEncontrados := tramosDigitos cedulaLimpia []
      match numerosEncontrados.filter (fun num => 8 ≤ num.length ∧ num.length ≤ 12) with
      | prioritario :: _ => prioritario
      | [] =>
        match numerosEncontrados with
        | primero :: _ => primero
        | [] => if cedulaDirecta ≠ [] then cedulaDirecta else cedulaLimpia

/-- Body of the outer `try` of `normalizarCedula`; the inner `catch` swallows what step 1
throws. -/
def cuerpoNormalizar (cedula : Str) : Except Excepcion Str :=
  if cedula = [] then .ok []
  else
    let cedulaLimpia := trim cedula
    let porJson : Option Str :=
      match intentoJson cedulaLimpia with
      | .ok r => r
      | .error _ => none
    match porJson with
    | some valor => .ok valor
    | none => .ok (pasosTexto cedulaLimpia)

/-- The function `normalizarCedula(cedula)` on a string: the outer `catch` returns
`String(cedula).trim()`. -/
def normalizarCedula (cedula : Str) : Str :=
  match cuerpoNormalizar cedula with
  | .ok r => r
  | .error _ => trim cedula

/-- The expression `normalizarCedula(c).replace(/[^\w\-]/g, '')` used to compare
identities. -/
def claveCedula (c : Str) : Str := soloPalabraGuion (normalizarCedula c)

/-! ## Spreadsheet cells and sheets -/

/-- Services of the Apps Script runtime that the script calls and does not define. -/
structure Entorno where
  /-- Offset in milliseconds of the script time zone from UTC at an instant. -/
  zona : Int → Int
  /-- The text `Date.prototype.toString()` of an instant. -/
  fechaTexto : Int → Str
  /-- The value of `Utilities.getUuid()`. -/
  uuid : Str
  /-- The time value of `new Date()`. -/
  ahora : Int
  /-- The text `new Date().toISOString()`. -/
  ahoraIso : Str
  /-- The result of `obtenerUsuarioActual()`. -/
  usuario : Str
  /-- The function `String.prototype.toUpperCase`. -/
  mayusculas : Str → Str
  /-- The recipients of notifications that the configuration holds, joined by `", "`;
  empty when none is configured. -/
  destinatarios : Str

/-- Value of a cell as `getValues()` returns it; the empty cell is the empty string. Dates
are time values in milliseconds. -/
inductive Celda where
  | texto (s : Str)
  | numero (n : Numero)
  | booleano (b : Bool)
  | fecha (ms : Int)
  deriving DecidableEq, Repr

/-- The empty cell `''`. Reading outside a row gives `undefined`, and a column that was
not found is read as `null`; the script only tests these for truthiness, for being a
Date and through `x || ''`, where they behave as `''`, so both are read as the empty
cell. -/
def vacia : Celda := .texto []

/-- Row of a sheet. -/
abbrev Fila := List Celda

/-- A sheet, as its data range: the header row (sheet row 1) and the rows below it, in
append order. A sheet is taken to hold content in row 1, as the sheets that the script
creates and reads do; a sheet without any cell is not described. -/
structure Hoja where
  encabezado : Fila
  filas : List Fila
  deriving DecidableEq, Repr

/-- JavaScript truthiness of a cell value. -/
def Celda.veraz : Celda → Bool
  | .texto s => s ≠ []
  | .numero n => n.veraz
  | .booleano b => b
  | .fecha _ => true

/-- The text `String(c)` (also `c.toString()`). -/
def Celda.aTexto (E : Entorno) : Celda → Str
  | .texto s => s
  | .numero n => n.texto
  | .booleano b => (if b then "true" else "false").toList
  | .fecha ms => E.fechaTexto ms

/-- The text `String(c || '')` (also `(c || '').toString()`). -/
def Celda.textoO (E : Entorno) (c : Celda) : Str := if c.veraz then c.aTexto E else []

/-- The test `c instanceof Date`. -/
def Celda.esFecha : Celda → Bool
  | .fecha _ => true
  | _ => false

/-- The read `row[idx]`, where `none` is the index `-1`. -/
def leer (row : Fila) : Option Nat → Celda
  | some j => row.getD j vacia
  | none => vacia

/-- The read `idx >= 0 ? row[idx] : null`; `null` is read as the empty cell. -/
def leerSi (row : Fila) (idx : Option Nat) : Celda := leer row idx

/-- Lower case of a character. Exact on ASCII, Latin-1 and the Kelvin sign; any other
character is left as it is, which like its true lower case occurs in none of the header
names the script compares with. -/
def minuscula (c : Char) : Char :=
  let n := c.toNat
  if (65 ≤ n ∧ n ≤ 90) ∨ (0xC0 ≤ n ∧ n ≤ 0xDE ∧ n ≠ 0xD7) then Char.ofNat (n + 32)
  else if n = 0x212A then 'k'
  else c

/-- The text `s.toLowerCase()`, for comparison with header names. -/
def aMinusculas (s : Str) : Str := s.map minuscula

/-- Two-digit decimal of a number below one hundred. -/
def dosDigitos (n : Nat) : Str := [Char.ofNat (48 + n / 10 % 10), Char.ofNat (48 + n % 10)]

/-- The text `Utilities.formatDate(d, Session.getScriptTimeZone(), 'HH:mm')`. -/
def formatoHHmm (E : Entorno) (ms : Int) : Str :=
  let loc := ms + E.zona ms
  dosDigitos ((loc / 3600000) % 24).toNat ++ ':' :: dosDigitos ((loc / 60000) % 60).toNat

/-- Decimal text of an integer, as a template literal prints it. -/
def entero (n : Int) : Str := if n < 0 then '-' :: decimal n.natAbs else decimal n.natAbs

/-- The index `list.findIndex(p)`; `none` is `-1`. -/
def indice {α : Type} (p : α → Bool) : List α → Option Nat
  | [] => none
  | x :: xs => if p x then some 0 else (indice p xs).map (· + 1)

/-- The helper `findIndex(nombres)` of `mapearIndicesColumnas`: for the first name, in
order, that some header equals (header truthy, lower-cased and trimmed), the position of
the first such header. -/
def findIndex (E : Entorno) (headers : Fila) : List String → Option Nat
  | [] => none
  | nombre :: resto =>
    match indice (fun h => h.veraz && trim (aMinusculas (h.aTexto E)) == nombre.toList)
        headers with
    | some j => some j
    | none => findIndex E headers resto

/-- Column positions found by `mapearIndicesColumnas`; `none` is `-1`. -/
structure Indices where
  fecha : Option Nat
  cedula : Option Nat
  nombre : Option Nat
  empresa : Option Nat
  entrada : Option Nat
  salida : Option Nat
  estado : Option Nat
  duracion : Option Nat
  deriving DecidableEq, Repr

/-- The function `mapearIndicesColumnas(headers)`. -/
def mapearIndicesColumnas (E : Entorno) (headers : Fila) : Indices :=
  { fecha := findIndex E headers ["fecha", "fecha y hora", "marca de tiempo"]
    cedula := findIndex E headers ["cédula", "cedula", "id"]
    nombre := findIndex E headers ["nombre", "nombres"]
    empresa := findIndex E headers ["empresa", "compania", "organización"]
    entrada := findIndex E headers ["entrada", "hora entrada", "hora_entrada"]
    salida := findIndex E headers ["salida", "hora salida", "hora_salida"]
    estado := findIndex E headers ["estado del acceso", "estado", "acceso"]
    duracion := findIndex E headers ["duración", "duracion", "tiempo"] }

/-- The text `x || porDefecto` for a string `x`. -/
def oPorDefecto (x : Str) (porDefecto : String) : Str := if x ≠ [] then x else porDefecto.toList

/-- The text `String(row[indices.cedula] || '').trim()` of a row. -/
def cedulaDeFila (E : Entorno) (ind : Indices) (row : Fila) : Str :=
  trim ((leer row ind.cedula).textoO E)

/-- The test `entrada && entrada !== '' && (!salida || salida === '')` on a row: the row
has an entry and no exit. -/
def filaAbierta (ind : Indices) (row : Fila) : Bool :=
  (leerSi row ind.entrada).veraz && !(leerSi row ind.salida).veraz

/-! ## Occupancy: getEvacuacionDataForClient -/

/-- Element of `personasDentro`. -/
structure PersonaDentro where
  cedula : Str
  nombre : Str
  empresa : Str
  horaEntrada : Str
  deriving DecidableEq, Repr

/-- The object `respuesta` of `getEvacuacionDataForClient` (without its `timestamp` and
`debug` texts). -/
structure Respuesta where
  success : Bool
  message : Str
  totalDentro : Nat
  personasDentro : List PersonaDentro
  deriving DecidableEq, Repr

/-- The record that the scan stores for an open row. -/
def registroDentro (E : Entorno) (ind : Indices) (fila : Fila) : PersonaDentro :=
  { cedula := cedulaDeFila E ind fila
    nombre := oPorDefecto (trim ((leer fila ind.nombre).textoO E)) "Sin nombre"
    empresa := oPorDefecto (trim ((leer fila ind.empresa).textoO E)) "Sin empresa"
    horaEntrada :=
      match leerSi fila ind.entrada with
      | .fecha ms => formatoHHmm E ms
      | entrada => trim (entrada.textoO E) }

/-- One iteration of the backward scan; `mapa` is `personasAdentroMap` as the list of its
values in insertion order (the key of a value is its `cedula`). -/
def pasoDentro (E : Entorno) (ind : Indices) (mapa : List PersonaDentro) (fila : Fila) :
    List PersonaDentro :=
  let cedula := cedulaDeFila E ind fila
  if cedula = [] then mapa
  else if mapa.any (fun p => p.cedula == cedula) then mapa
  else if filaAbierta ind fila then mapa ++ [registroDentro E ind fila]
  else mapa

/-- The loop `for (let i = data.length - 1; i >= 1; i--)` of the scan, over the data
rows. -/
def escanearDentro (E : Entorno) (ind : Indices) (filas : List Fila) : List PersonaDentro :=
  filas.reverse.foldl (pasoDentro E ind) []

/-- The function `getEvacuacionDataForClient()`, on the sheet `Historial` if it exists.
The test `getLastRow() <= 1` holds exactly when the data range has no row below the
header. -/
def getEvacuacionDataForClient (E : Entorno) (historial : Option Hoja) : Respuesta :=
  match historial with
  | none => ⟨true, "Hoja Historial no encontrada".toList, 0, []⟩
  | some h =>
    if h.filas = [] then ⟨true, "Historial vacío - edificio vacío".toList, 0, []⟩
    else
      let indices := mapearIndicesColumnas E h.encabezado
      let personasDentro := escanearDentro E indices h.filas
      ⟨true, decimal personasDentro.length ++ " personas dentro".toList,
        personasDentro.length, personasDentro⟩

/-! ## Personnel directory: buscarPersonaEnBD -/

/-- Tells whether `s` starts with `t`. -/
def empiezaCon (t : Str) : Str → Bool
  | s => t == s.take t.length

/-- The test `s.includes(t)`. -/
def contiene (t : Str) : Str → Bool
  | [] => t == []
  | c :: cs => empiezaCon t (c :: cs) || contiene t cs

/-- The object that `buscarPersonaEnBD` returns. -/
structure PersonaBD where
  cedula : Str
  nombre : Str
  empresa : Str
  deriving DecidableEq, Repr

/-- The comparison of identities used by every scan: the cédula of the row equals the
one looked for, or both are equal after `normalizarCedula` and removal of the characters
outside `[\w\-]`. -/
def mismaCedula (cedulaRow cedula : Str) : Bool :=
  cedulaRow == cedula || claveCedula cedulaRow == claveCedula cedula

/-- The function `buscarPersonaEnBD(bdSheet, cedula)` on an existing sheet; `none` is
`null`, also when the identity column is missing (the error is caught inside). -/
def buscarPersonaEnBD (E : Entorno) (bd : Hoja) (cedula : Str) : Option PersonaBD :=
  if bd.filas = [] then none
  else
    let enMinusculas (h : Celda) : Str := aMinusculas (h.aTexto E)
    let iCedula := indice (fun h => h.veraz &&
      ["cédula".toList, "cedula".toList, "id".toList].contains (enMinusculas h)) bd.encabezado
    let iNombre := indice (fun h => h.veraz && contiene "nombre".toList (enMinusculas h))
      bd.encabezado
    let iEmpresa := indice (fun h => h.veraz && contiene "empresa".toList (enMinusculas h))
      bd.encabezado
    match iCedula with
    | none => none
    | some _ =>
      (bd.filas.find? (fun row => mismaCedula (trim ((leer row iCedula).textoO E)) cedula)).map
        (fun row =>
          { cedula := trim ((leer row iCedula).textoO E)
            nombre := trim (if (leer row iNombre).veraz then (leer row iNombre).aTexto E
                            else "Sin nombre".toList)
            empresa := trim (if (leer row iEmpresa).veraz then (leer row iEmpresa).aTexto E
                             else "No especificada".toList) })

/-! ## Evacuation: the two scans -/

/-- Element of `personasEvacuadas`; the real scan fills `horaSalida`, the simulated one
`horaSalidaSimulada`, `tipoEvento` and `notas`. -/
structure PersonaEvacuada where
  cedula : Str
  nombre : Str
  empresa : Str
  horaEntrada : Celda
  horaSalida : Option Int
  horaSalidaSimulada : Option Int
  filaHistorial : Nat
  tipoEvento : Option Str
  notas : Option Str
  deriving DecidableEq, Repr

/-- Result object of `procesarEvacuacionRealUnificada` and `procesarSimulacroUnificado`. -/
structure Procesamiento where
  success : Bool
  message : Str
  totalEvacuadas : Nat
  personasEvacuadas : List PersonaEvacuada
  tipoEvento : Option Str
  notas : Option Str
  sessionId : Option Str
  deriving DecidableEq, Repr

/-- The inner loop `for (let i = data.length - 1; i >= 1; i--)` of both scans, on the
data rows listed from the last one backwards: the first row that belongs to `cedula` and
is open, with its index `i` in `data`. -/
def buscarAbierta (E : Entorno) (ind : Indices) (cedula : Str) : List Fila → Option (Nat × Fila)
  | [] => none
  | row :: anteriores =>
    if mismaCedula (cedulaDeFila E ind row) cedula && filaAbierta ind row then
      some (anteriores.length + 1, row)
    else buscarAbierta E ind cedula anteriores

/-- Name and company of a resolved row, improved from the personnel directory when the
row has no usable name. -/
def nombreEmpresa (E : Entorno) (ind : Indices) (bd : Option Hoja) (row : Fila) : Str × Str :=
  let nombre := oPorDefecto (trim ((leer row ind.nombre).textoO E)) "Sin nombre"
  let empresa := oPorDefecto (trim ((leer row ind.empresa).textoO E)) "Sin empresa"
  if nombre = "Sin nombre".toList ∨ nombre = "DENEGADO".toList then
    match bd with
    | some b =>
      match buscarPersonaEnBD E b (cedulaDeFila E ind row) with
      | some personaBD => (personaBD.nombre, personaBD.empresa)
      | none => (nombre, empresa)
    | none => (nombre, empresa)
  else (nombre, empresa)

/-- The duration label: `horas = Math.floor(ms / 3600000)`,
`minutos = Math.floor((ms % 3600000) / 60000)`, printed as `{horas}h {minutos}m`. The
remainder `%` has the sign of the dividend. -/
def duracionTexto (duracionMs : Int) : Str :=
  let horas := duracionMs / 3600000
  let minutos := (Int.tmod duracionMs 3600000) / 60000
  entero horas ++ "h ".toList ++ entero minutos ++ "m".toList

/-- Writes `v` at position `j` of a row; cells missing before `j` are empty. -/
def ponerCelda (row : Fila) (j : Nat) (v : Celda) : Fila :=
  if j < row.length then row.set j v
  else row ++ List.replicate (j - row.length) vacia ++ [v]

/-- Applies `f` to the element at position `i`, if there is one. -/
def modificar {α : Type} (f : α → α) : Nat → List α → List α
  | _, [] => []
  | 0, x :: xs => f x :: xs
  | i + 1, x :: xs => x :: modificar f i xs

/-- The write `hoja.getRange(rowIndex, col).setValue(v)`, with both positions counted from
one; row one is the header. -/
def Hoja.setValue (h : Hoja) (rowIndex col : Nat) (v : Celda) : Hoja :=
  if rowIndex = 1 then { h with encabezado := ponerCelda h.encabezado (col - 1) v }
  else { h with filas := modificar (fun row => ponerCelda row (col - 1) v) (rowIndex - 2) h.filas }

/-- A cell note: sheet row, column and text. -/
structure Nota where
  fila : Nat
  columna : Nat
  texto : Str
  deriving DecidableEq, Repr

/-- State that the real scan updates: the sheet `Historial`, its cell notes and the list
`personasEvacuadas`. -/
structure Avance where
  hoja : Hoja
  notas : List Nota
  personas : List PersonaEvacuada
  deriving DecidableEq, Repr

/-- One call of the `forEach` callback of `procesarEvacuacionRealUnificada`. The rows are
searched in `data`, the values read before the loop; the writes go to the sheet. -/
def evacuarUna (E : Entorno) (data : Hoja) (ind : Indices) (bd : Option Hoja)
    (timestamp : Int) (sessionId : Str) (a : Avance) (cedula : Str) : Avance :=
  match buscarAbierta E ind cedula data.filas.reverse with
  | none => a
  | some (i, row) =>
    let rowIndex := i + 1
    let h1 :=
      match ind.salida with
      | some j => a.hoja.setValue rowIndex (j + 1) (.fecha timestamp)
      | none => a.hoja
    let h2 :=
      match leerSi row ind.entrada, ind.duracion with
      | .fecha entrada, some j =>
        h1.setValue rowIndex (j + 1) (.texto (duracionTexto (timestamp - entrada)))
      | _, _ => h1
    let comentario := "EVACUACIÓN EMERGENCIA - ".toList ++ formatoHHmm E timestamp ++
      " - Session: ".toList ++ sessionId
    let notas :=
      match ind.salida with
      | some j => a.notas ++ [⟨rowIndex, j + 1, comentario⟩]
      | none => a.notas
    let ne := nombreEmpresa E ind bd row
    { hoja := h2
      notas := notas
      personas := a.personas ++
        [{ cedula := cedulaDeFila E ind row, nombre := ne.1, empresa := ne.2
           horaEntrada := leerSi row ind.entrada, horaSalida := some timestamp
           horaSalidaSimulada := none, filaHistorial := rowIndex
           tipoEvento := none, notas := none }] }

/-- The function `procesarEvacuacionRealUnificada`: its result and the sheet and notes
it leaves. -/
def procesarEvacuacionRealUnificada (E : Entorno) (historialSheet : Hoja) (notas0 : List Nota)
    (bdSheet : Option Hoja) (cedulas : List Str) (timestamp : Int) (sessionId : Str) :
    Procesamiento × Hoja × List Nota :=
  let indices := mapearIndicesColumnas E historialSheet.encabezado
  let fin := cedulas.foldl (evacuarUna E historialSheet indices bdSheet timestamp sessionId)
    ⟨historialSheet, notas0, []⟩
  ({ success := true
     message := "Evacuación real completada: ".toList ++ decimal fin.personas.length ++
       " persona(s) evacuadas".toList
     totalEvacuadas := fin.personas.length
     personasEvacuadas := fin.personas
     tipoEvento := none, notas := none, sessionId := none }, fin.hoja, fin.notas)

/-- One call of the `forEach` callback of `procesarSimulacroUnificado`: it only reads. -/
def simularUna (E : Entorno) (data : Hoja) (ind : Indices) (bd : Option Hoja)
    (timestamp : Int) (notas : Str) (personas : List PersonaEvacuada) (cedula : Str) :
    List PersonaEvacuada :=
  match buscarAbierta E ind cedula data.filas.reverse with
  | none => personas
  | some (i, row) =>
    let ne := nombreEmpresa E ind bd row
    personas ++
      [{ cedula := cedulaDeFila E ind row, nombre := ne.1, empresa := ne.2
         horaEntrada := leerSi row ind.entrada, horaSalida := none
         horaSalidaSimulada := some timestamp, filaHistorial := i + 1
         tipoEvento := some "SIMULACRO".toList, notas := some notas }]

/-- The function `procesarSimulacroUnificado`. Its body calls no write on the sheet, so
its result is all it produces. -/
def procesarSimulacroUnificado (E : Entorno) (historialSheet : Hoja) (bdSheet : Option Hoja)
    (cedulas : List Str) (timestamp : Int) (sessionId : Str) (notas : Str) : Procesamiento :=
  let indices := mapearIndicesColumnas E historialSheet.encabezado
  let personasEvacuadas :=
    cedulas.foldl (simularUna E historialSheet indices bdSheet timestamp notas) []
  { success := true
    message := "Simulacro completado: ".toList ++ decimal personasEvacuadas.length ++
      " persona(s) participaron en el simulacro".toList
    totalEvacuadas := personasEvacuadas.length
    personasEvacuadas := personasEvacuadas
    tipoEvento := some "SIMULACRO".toList, notas := some notas, sessionId := some sessionId }

/-! ## The spreadsheet and the unified entry point -/

/-- State of the script: the sheets of the active spreadsheet that the evacuation code
touches, the notes on `Historial`, the number of notification mails handed to the mail
service, and the global `SIMULACRO_EN_CURSO`. Cell formats and colours are not kept. -/
structure Mundo where
  historial : Option Hoja
  baseDatos : Option Hoja
  logSimulacros : Option Hoja
  logEmergencias : Option Hoja
  logErrores : Option Hoja
  notasHistorial : List Nota
  notificaciones : Nat
  simulacroEnCurso : Bool
  deriving DecidableEq, Repr

/-- The header row that `registrarLogEvacuacionUnificado` gives a new log sheet. -/
def encabezadoLog : Fila :=
  ["Session_ID", "Fecha_Hora", "Tipo_Evento", "Operador", "Personas_Afectadas",
   "Detalle_Personas", "Estado", "Observaciones", "Notas_Adicionales"].map
    (fun t => Celda.texto t.toList)

/-- Joins texts with `"; "`, as `join('; ')`. -/
def unirPuntoComa : List Str → Str
  | [] => []
  | [t] => t
  | t :: ts => t ++ "; ".toList ++ unirPuntoComa ts

/-- The text `detalles` of the audit row. -/
def detallesLog (personasEvacuadas : List PersonaEvacuada) : Str :=
  if personasEvacuadas = [] then "Sin personas específicas".toList
  else
    let detalles := unirPuntoComa (personasEvacuadas.map (fun persona =>
      oPorDefecto persona.cedula "SIN_CEDULA" ++ '-' :: oPorDefecto persona.nombre "SIN_NOMBRE"))
    if detalles = [] then
      decimal personasEvacuadas.length ++ " persona(s) con datos incompletos".toList
    else detalles

/-- The array `registro` that is appended to the log sheet. -/
def registroLog (E : Entorno) (personasEvacuadas : List PersonaEvacuada) (timestamp : Int)
    (tipo sessionId notas : Str) : Fila :=
  [ .texto sessionId,
    .fecha timestamp,
    .texto (if tipo = "simulacro".toList then "SIMULACRO_EVACUACION".toList
            else "EVACUACIÓN_EMERGENCIA".toList),
    .texto E.usuario,
    .numero (.finito false personasEvacuadas.length 0),
    .texto (detallesLog personasEvacuadas),
    .texto "COMPLETADO".toList,
    .texto (E.mayusculas tipo ++ " ejecutado vía Sistema SurPass - ".toList ++ E.ahoraIso),
    .texto (oPorDefecto notas "Sin notas adicionales") ]

/-- The call `hoja.appendRow(row)` on a sheet that holds content in row 1: the row goes
below the last row. -/
def Hoja.appendRow (h : Hoja) (row : Fila) : Hoja := { h with filas := h.filas ++ [row] }

/-- The log sheet after the row is appended; a missing sheet is created with the header
row first. -/
def conRegistro (hoja : Option Hoja) (registro : Fila) : Hoja :=
  match hoja with
  | some h => h.appendRow registro
  | none => (Hoja.mk encabezadoLog []).appendRow registro

/-- The function `registrarLogEvacuacionUnificado`: the audit row goes to `Log_Simulacros`
when `tipo` is `'simulacro'` and to `Log_Emergencias` otherwise. The sheet operations of
its `try` block do not fail here, so its fallback to `Log_Errores` is not taken. -/
def registrarLogEvacuacionUnificado (E : Entorno) (w : Mundo)
    (personasEvacuadas : List PersonaEvacuada) (timestamp : Int) (tipo sessionId notas : Str) :
    Mundo :=
  let registro := registroLog E personasEvacuadas timestamp tipo sessionId notas
  if tipo = "simulacro".toList then
    { w with logSimulacros := some (conRegistro w.logSimulacros registro) }
  else
    { w with logEmergencias := some (conRegistro w.logEmergencias registro) }

/-- The function `enviarNotificacionEvacuacionUnificada`: it changes no sheet and hands
one mail to the mail service, unless no recipient is configured (it returns before) or
`Utilities.formatDate` throws while the message is built, which it does on the entry of a
person that is truthy and not a Date (the `catch` block then only logs). -/
def enviarNotificacionEvacuacionUnificada (E : Entorno) (w : Mundo)
    (personasEvacuadas : List PersonaEvacuada) : Mundo :=
  if E.destinatarios = [] then w
  else if personasEvacuadas.all (fun persona =>
      !persona.horaEntrada.veraz || persona.horaEntrada.esFecha) then
    { w with notificaciones := w.notificaciones + 1 }
  else w

/-- The field `cedulas` of the request. -/
inductive ArgCedulas where
  | ausente
  | noArreglo
  | arreglo (cedulas : List Str)
  deriving DecidableEq, Repr

/-- The object `parametros`; `none` in a field is `undefined`. -/
structure Parametros where
  cedulas : ArgCedulas
  tipo : Option Str
  operador : Option Str
  timestamp : Option Int
  notas : Option Str
  deriving DecidableEq, Repr

/-- The object that `procesarEvacuacionUnificada` returns (without `tiempoMs`). -/
structure Resultado where
  success : Bool
  message : Str
  totalEvacuadas : Nat
  personasEvacuadas : List PersonaEvacuada
  tipoEvento : Option Str
  notas : Option Str
  sessionId : Str
  tipo : Str
  personasDentroActualizadas : List PersonaDentro
  deriving DecidableEq, Repr

/-- The `catch` block of `procesarEvacuacionUnificada`. -/
def resultadoError (E : Entorno) (w : Mundo) (mensaje : String) (tipo : Option Str) :
    Resultado :=
  { success := false
    message := "Error procesando evacuación: ".toList ++ mensaje.toList
    totalEvacuadas := 0
    personasEvacuadas := []
    tipoEvento := none, notas := none
    sessionId := E.uuid
    tipo := match tipo with
      | some t => oPorDefecto t "desconocido"
      | none => "desconocido".toList
    personasDentroActualizadas := (getEvacuacionDataForClient E w.historial).personasDentro }

/-- The dispatch on `tipo` of `procesarEvacuacionUnificada`: the simulated scan for
exactly `'simulacro'`, the real scan, whose writes reach `Historial` and its notes, for
any other value. -/
def despachar (E : Entorno) (w : Mundo) (historialSheet : Hoja) (tipo : Str)
    (cedulas : List Str) (timestamp : Int) (sessionId notas : Str) : Procesamiento × Mundo :=
  if tipo = "simulacro".toList then
    (procesarSimulacroUnificado E historialSheet w.baseDatos cedulas timestamp sessionId notas,
      w)
  else
    let r := procesarEvacuacionRealUnificada E historialSheet w.notasHistorial w.baseDatos
      cedulas timestamp sessionId
    (r.1, { w with historial := some r.2.1, notasHistorial := r.2.2 })

/-- The block "logging y notificaciones" of `procesarEvacuacionUnificada`: when at least
one person was resolved the audit row is written, and the notification is sent only for
`tipo === 'real'`. -/
def registrarYNotificar (E : Entorno) (w : Mundo) (r : Procesamiento) (timestamp : Int)
    (tipo sessionId notas : Str) : Mundo :=
  if r.success ∧ 0 < r.personasEvacuadas.length then
    let w1 := registrarLogEvacuacionUnificado E w r.personasEvacuadas timestamp tipo sessionId
      notas
    if tipo = "real".toList then
      enviarNotificacionEvacuacionUnificada E w1 r.personasEvacuadas
    else w1
  else w

/-- The object returned at the end of the `try` block: the processing result, extended
with the session, the type and the occupancy read again after the operation. -/
def resultadoFinal (E : Entorno) (w : Mundo) (r : Procesamiento) (tipo : Str) : Resultado :=
  { success := r.success
    message := r.message
    totalEvacuadas := r.totalEvacuadas
    personasEvacuadas := r.personasEvacuadas
    tipoEvento := r.tipoEvento
    notas := r.notas
    sessionId := E.uuid
    tipo := tipo
    personasDentroActualizadas := (getEvacuacionDataForClient E w.historial).personasDentro }

/-- The function `procesarEvacuacionUnificada(parametros)`; `none` is a call without the
parameter object. Every `throw` of the `try` block is shown with the `catch` result it
leads to. -/
def procesarEvacuacionUnificada (E : Entorno) (w : Mundo) (parametros : Option Parametros) :
    Resultado × Mundo :=
  match parametros with
  | none =>
    (resultadoError E w "Cannot read properties of undefined (reading 'tipo')" none, w)
  | some p =>
    match p.cedulas with
    | .ausente =>
      (resultadoError E w
        "Parámetros de evacuación inválidos: se requiere un array de cédulas." p.tipo, w)
    | .noArreglo =>
      (resultadoError E w
        "Parámetros de evacuación inválidos: se requiere un array de cédulas." p.tipo, w)
    | .arreglo [] =>
      (resultadoError E w "No hay personas seleccionadas para evacuar/simular." p.tipo, w)
    | .arreglo (c :: cs) =>
      let tipo := p.tipo.getD "real".toList
      let timestamp := p.timestamp.getD E.ahora
      let notas := p.notas.getD []
      match w.historial with
      | none =>
        (resultadoError E w
          "Hoja \"Historial\" no encontrada. Verifique la configuración del sistema." p.tipo, w)
      | some historialSheet =>
        let paso := despachar E w historialSheet tipo (c :: cs) timestamp E.uuid notas
        let w2 := registrarYNotificar E paso.2 paso.1 timestamp tipo E.uuid notas
        (resultadoFinal E w2 paso.1 tipo, w2)

/-- The function `procesarSimulacroEvacuacion(cedulas, notas)`: sets the guard, runs the
unified entry point with `tipo: 'simulacro'` and clears the guard in `finally`. -/
def procesarSimulacroEvacuacion (E : Entorno) (w : Mundo) (cedulas : ArgCedulas)
    (notas : Str) : Resultado × Mundo :=
  let w1 := { w with simulacroEnCurso := true }
  let r := procesarEvacuacionUnificada E w1
    (some { cedulas := cedulas, tipo := some "simulacro".toList, operador := none,
            timestamp := none, notas := some notas })
  (r.1, { r.2 with simulacroEnCurso := false })

/-! ## Example data

A time zone at UTC and a ledger in the column layout that `registrarEnHistorial` writes,
used to evaluate the functions on concrete inputs. -/

/-- An environment whose script time zone is UTC. -/
def entornoUTC : Entorno :=
  { zona := fun _ => 0
    fechaTexto := fun _ => "Thu Jan 01 1970 00:00:00 GMT+0000 (UTC)".toList
    uuid := "sesion-1".toList
    ahora := 61200000
    ahoraIso := "1970-01-01T17:00:00.000Z".toList
    usuario := "guardia@surpass.test".toList
    mayusculas := fun s => s.map Char.toUpper
    destinatarios := "seguridad@surpass.test".toList }

/-- A text cell. -/
def tx (s : String) : Celda := .texto s.toList

/-- The time value of `h:00` on 1970-01-01 UTC. -/
def hora (h : Int) : Int := h * 3600000

/-- The header row of `Historial`. -/
def encabezadoHistorial : Fila :=
  [tx "Fecha", tx "Cédula", tx "Nombre", tx "Estado del Acceso", tx "Entrada", tx "Salida",
   tx "Duración", tx "Empresa"]

/-- A ledger row that is an entry without exit. -/
def filaEntrada (cedula nombre : String) (h : Int) : Fila :=
  [.fecha (hora h), tx cedula, tx nombre, tx "Acceso Permitido", .fecha (hora h), tx "", tx "",
   tx "ACME"]

/-- A ledger row with entry and exit. -/
def filaCerrada (cedula nombre : String) (h1 h2 : Int) : Fila :=
  [.fecha (hora h1), tx cedula, tx nombre, tx "Acceso Permitido", .fecha (hora h1),
   .fecha (hora h2), .texto (duracionTexto (hora h2 - hora h1)), tx "ACME"]

/-- A state with the given ledger and no other sheet. -/
def mundoCon (h : Hoja) : Mundo :=
  { historial := some h, baseDatos := none, logSimulacros := none, logEmergencias := none
    logErrores := none, notasHistorial := [], notificaciones := 0, simulacroEnCurso := false }

/-- The ledger of the end-to-end scenario: `8-1-1` entered at 08:00 and is inside, `8-2-2`
entered at 09:00 and left at 10:00. -/
def ledgerEscenario : Hoja :=
  ⟨encabezadoHistorial, [filaEntrada "8-1-1" "Ana" 8, filaCerrada "8-2-2" "Luis" 9 10]⟩

/-! ## Comparison of the two scans -/

/-- What the two result lists have in common: cédula, name, company, entry time and
ledger row number of a resolved person. -/
def resumen (p : PersonaEvacuada) : Str × Str × Str × Celda × Nat :=
  (p.cedula, p.nombre, p.empresa, p.horaEntrada, p.filaHistorial)

/-- Two open rows whose cédula texts differ but have the same normalised form `123`. -/
def ledgerDosEscrituras : Hoja :=
  ⟨encabezadoHistorial, [filaEntrada "ID:123" "Ana" 8, filaEntrada "id 123" "Ana" 9]⟩

/-- An identity with an older open row and a more recent row that has entry and exit. -/
def ledgerAbiertaLuegoCerrada : Hoja :=
  ⟨encabezadoHistorial, [filaEntrada "8-1-1" "Ana" 8, filaCerrada "8-1-1" "Ana" 9 10]⟩

/-! ## The writes of the real scan, row by row -/

/-- The two writes of one resolved target of the real scan, seen on the row they reach:
`timestamp` into the exit cell and, when the entry read from `data` is a Date and there
is a duration column, the label into the duration cell. -/
def escribir (ind : Indices) (timestamp : Int) (js : Nat) (row cur : Fila) : Fila :=
  match leerSi row ind.entrada, ind.duracion with
  | .fecha entrada, some jd =>
    ponerCelda (ponerCelda cur js (.fecha timestamp)) jd
      (.texto (duracionTexto (timestamp - entrada)))
  | _, _ => ponerCelda cur js (.fecha timestamp)

/-- A row `cur` of the sheet carries the writes of the real scan for the row `orig` of
`data`: the exit cell holds `timestamp` and, if `orig` has a Date entry and there is a
duration column, the duration cell holds the label. -/
def Escrita (ind : Indices) (timestamp : Int) (js : Nat) (orig cur : Fila) : Prop :=
  leer cur (some js) = .fecha timestamp ∧
  ∀ (entrada : Int) (jd : Nat), leerSi orig ind.entrada = .fecha entrada →
    ind.duracion = some jd →
    leer cur (some jd) = .texto (duracionTexto (timestamp - entrada))

/-- Invariant of the real scan: the sheet keeps the header and the number of rows of
`data`, and each row is the row of `data` or carries the writes for it. -/
def Conserva (ind : Indices) (timestamp : Int) (js : Nat) (data hoja : Hoja) : Prop :=
  hoja.encabezado = data.encabezado ∧ hoja.filas.length = data.filas.length ∧
  ∀ (k : Nat) (orig cur : Fila), data.filas[k]? = some orig → hoja.filas[k]? = some cur →
    cur = orig ∨ Escrita ind timestamp js orig cur

/-- The data row at position `k` has been written. -/
def Hecha (ind : Indices) (timestamp : Int) (js : Nat) (data hoja : Hoja) (k : Nat) : Prop :=
  ∀ (orig cur : Fila), data.filas[k]? = some orig → hoja.filas[k]? = some cur →
    Escrita ind timestamp js orig cur

/-- An identity with two open rows: `8-1-1` entered at 08:00 and again at 09:00 and never
left. -/
def ledgerDosAbiertas : Hoja :=
  ⟨encabezadoHistorial, [filaEntrada "8-1-1" "Ana" 8, filaEntrada "8-1-1" "Ana" 9]⟩

/-- A ledger without an exit column, with one entry of `8-1-1` at 08:00. -/
def ledgerSinSalida : Hoja :=
  ⟨[tx "Fecha", tx "Cédula", tx "Nombre", tx "Entrada"],
   [[.fecha (hora 8), tx "8-1-1", tx "Ana", .fecha (hora 8)]]⟩

/-- The request of a real evacuation of `cedulas` at 17:00. -/
def peticionReal (cedulas : List String) : Option Parametros :=
  some ⟨.arreglo (cedulas.map String.toList), some "real".toList, none, some (hora 17), none⟩

/-! ## Patterns that cannot match -/

/-- The pattern `ns` has a node that must consume a character outside the class `q`: a
character class disjoint from `q`, or such a class repeated at least once. On a text
whose characters are all in `q` it has no match. -/
def sinSalida (q : Char → Bool) : List Nodo → Prop
  | [] => False
  | .clase p :: ns => (∀ c, q c = true → p c = false) ∨ sinSalida q ns
  | .rep p min _ :: ns => (0 < min ∧ ∀ c, q c = true → p c = false) ∨ sinSalida q ns
  | .opcional _ :: ns => sinSalida q ns
  | .borde :: ns => sinSalida q ns
  | .abre :: ns => sinSalida q ns
  | .cierra :: ns => sinSalida q ns

/-! ## Other entry points and registrarEnHistorial -/

/-- The function `procesarEvacuacionConTipo(datosEvacuacion)`: it passes the request on
as it is. -/
def procesarEvacuacionConTipo (E : Entorno) (w : Mundo) (datosEvacuacion : Option Parametros) :
    Resultado × Mundo :=
  procesarEvacuacionUnificada E w datosEvacuacion

/-- The function `confirmarSalidasEvacuacion(cedulas, tipo)`; `none` is the default
`'real'`. A simulation is redirected to `procesarSimulacroEvacuacion`. -/
def confirmarSalidasEvacuacion (E : Entorno) (w : Mundo) (cedulas : ArgCedulas)
    (tipo : Option Str) : Resultado × Mundo :=
  if tipo.getD "real".toList = "simulacro".toList then
    procesarSimulacroEvacuacion E w cedulas
      "Simulacro ejecutado desde interfaz de evacuación".toList
  else
    procesarEvacuacionUnificada E w
      (some { cedulas := cedulas, tipo := some "real".toList, operador := none,
              timestamp := none, notas := none })

/-- The `try`/`catch`/`finally` frame of `procesarSimulacroEvacuacion` around an arbitrary
body: the guard is set, the body runs, a thrown error becomes the failure object of the
`catch` block, and `finally` clears the guard. The body returns its result or the message
of the error it throws, with the state it leaves. -/
def conProteccionSimulacro (E : Entorno) (cuerpo : Mundo → Except Str Resultado × Mundo)
    (w : Mundo) : Resultado × Mundo :=
  let r := cuerpo { w with simulacroEnCurso := true }
  (match r.1 with
    | .ok resultado => resultado
    | .error mensaje =>
      { success := false, message := "Error en simulacro: ".toList ++ mensaje
        totalEvacuadas := 0, personasEvacuadas := [], tipoEvento := none, notas := none
        sessionId := E.uuid, tipo := "simulacro".toList, personasDentroActualizadas := [] },
   { r.2 with simulacroEnCurso := false })

/-- The argument `resultado` of `registrarEnHistorial`, as far as it is read. -/
structure ResultadoAcceso where
  cedula : Str
  nombre : Str
  estadoAcceso : Str
  empresa : Str
  deriving DecidableEq, Repr

/-- What `registrarEnHistorial` returns; an absent `bloqueadoPorSimulacro` is `false`.
`duracion` is the text it stores in `resultado.duracion`. -/
structure RegistroHistorial where
  sinEntradaPrevia : Bool
  bloqueadoPorSimulacro : Bool
  mensaje : Option Str
  duracion : Option Str
  deriving DecidableEq, Repr

/-- The loop of the `'salida'` branch of `registrarEnHistorial`, on the data rows listed
from the last one backwards: the first row of the identity with an entry in column 5 and
no exit in column 6, with its index in `data`. The columns are fixed positions. -/
def buscarEntradaAbierta (E : Entorno) (cedula : Str) : List Fila → Option (Nat × Fila)
  | [] => none
  | row :: anteriores =>
    if mismaCedula (trim ((leer row (some 1)).textoO E)) cedula &&
        (leer row (some 4)).veraz && !(leer row (some 5)).veraz then
      some (anteriores.length + 1, row)
    else buscarEntradaAbierta E cedula anteriores

/-- The function `registrarEnHistorial(historialSheet, fecha, resultado, tipo)`: its
result and the sheet it leaves. It reads the guard `SIMULACRO_EN_CURSO` first. -/
def registrarEnHistorial (E : Entorno) (w : Mundo) (historialSheet : Hoja) (fecha : Int)
    (resultado : ResultadoAcceso) (tipo : Str) : RegistroHistorial × Hoja :=
  if w.simulacroEnCurso then
    ({ sinEntradaPrevia := false, bloqueadoPorSimulacro := true
       mensaje := some "Modificación bloqueada: simulacro en curso".toList
       duracion := none }, historialSheet)
  else if tipo = "entrada".toList then
    ({ sinEntradaPrevia := false, bloqueadoPorSimulacro := false, mensaje := none
       duracion := none },
     historialSheet.appendRow
       [.fecha fecha, .texto resultado.cedula, .texto resultado.nombre,
        .texto resultado.estadoAcceso, .fecha fecha, vacia, vacia, .texto resultado.empresa])
  else if tipo = "salida".toList then
    match buscarEntradaAbierta E resultado.cedula historialSheet.filas.reverse with
    | some (i, row) =>
      let rowIndex := i + 1
      let h1 := (historialSheet.setValue rowIndex 6 (.fecha fecha)).setValue rowIndex 8
        (.texto resultado.empresa)
      match leer row (some 4) with
      | .fecha entrada =>
        ({ sinEntradaPrevia := false, bloqueadoPorSimulacro := false, mensaje := none
           duracion := some (duracionTexto (fecha - entrada)) },
         h1.setValue rowIndex 7 (.texto (duracionTexto (fecha - entrada))))
      | _ =>
        ({ sinEntradaPrevia := false, bloqueadoPorSimulacro := false, mensaje := none
           duracion := none }, h1)
    | none =>
      ({ sinEntradaPrevia := true, bloqueadoPorSimulacro := false, mensaje := none
         duracion := none },
       historialSheet.appendRow
         [.fecha fecha, .texto resultado.cedula, .texto resultado.nombre,
          .texto resultado.estadoAcceso, vacia, .fecha fecha, .texto "Sin entrada".toList,
          .texto resultado.empresa])
  else
    ({ sinEntradaPrevia := false, bloqueadoPorSimulacro := false, mensaje := none
       duracion := none }, historialSheet)

/-! ## Statements of the specification used for comparison -/

/-- The value that step 1 returns, if it returns one: `none` when the loop ends without a
field or an exception leaves the `try` block. -/
def valorDevuelto : Except Excepcion (Option Str) → Option Str
  | .ok (some valor) => some valor
  | _ => none

/-- The candidate fields of a parsed object that are present with a truthy value, in the
candidate order. -/
def camposVerdaderos (campos : List (Str × Dato)) : List Dato :=
  campoPosibles.filterMap (fun campo =>
    match propiedad campos campo with
    | some d => if d.veraz then some d else none
    | none => none)

/-- A truthy field value ends step 1: its trimmed text matches `[\w-]{3,20}`, or it has
no text and `String(...)` throws. -/
def decideCampo (d : Dato) : Bool :=
  match d.texto with
  | some valor => formaCampo (trim valor)
  | none => true

/-- Step 1 of the normaliser with the guards of the code: among the candidate fields with
a truthy value, in order, the first one that has no text or whose trimmed text matches
`[\w-]{3,20}` decides; the result is its trimmed text, and `none` (the text steps run)
when it has no text or when no field decides. -/
def primerCampoValido (campos : List (Str × Dato)) : Option Str :=
  match (camposVerdaderos campos).find? decideCampo with
  | some d => d.texto.map trim
  | none => none

/-- Step 1 of the normaliser as the specification words it: the trimmed text of the first
candidate field, in order, that is present and matches `[\w-]{3,20}`. -/
def primerCampoPresente (campos : List (Str × Dato)) : Option Str :=
  (campoPosibles.filterMap (fun campo =>
    match propiedad campos campo with
    | some d =>
      match d.texto with
      | some valor => if formaCampo (trim valor) then some (trim valor) else none
      | none => none
    | none => none)).head?

/-- The data rows of a log sheet; a sheet that does not exist has none. -/
def filasLog : Option Hoja → List Fila
  | some h => h.filas
  | none => []

/-- The text `{cédula}-{name}` of a resolved person, as the specification words the
detail of the audit row. -/
def cedulaNombre (p : PersonaEvacuada) : Str := p.cedula ++ '-' :: p.nombre

/-- The text of a resolved person in the detail of the audit row as the code builds it:
an empty cédula is written `SIN_CEDULA` and an empty name `SIN_NOMBRE`. -/
def cedulaNombreLog (p : PersonaEvacuada) : Str :=
  oPorDefecto p.cedula "SIN_CEDULA" ++ '-' :: oPorDefecto p.nombre "SIN_NOMBRE"

/-- A target has an open row in the ledger: some data row of its identity has an entry and
no exit. -/
def tieneAbierta (E : Entorno) (h : Hoja) (cedula : Str) : Bool :=
  h.filas.any (fun r =>
    mismaCedula (cedulaDeFila E (mapearIndicesColumnas E h.encabezado) r) cedula &&
      filaAbierta (mapearIndicesColumnas E h.encabezado) r)

/-- A resolved person with the given cédula and name, for the examples of the audit
row. -/
def personaDe (cedula nombre : String) : PersonaEvacuada :=
  { cedula := cedula.toList, nombre := nombre.toList, empresa := "ACME".toList
    horaEntrada := .fecha (hora 8), horaSalida := some (hora 17), horaSalidaSimulada := none
    filaHistorial := 2, tipoEvento := none, notas := none }

/-- A ledger whose only row is an entry without exit and with an empty cédula cell. -/
def ledgerSinCedula : Hoja := ⟨encabezadoHistorial, [filaEntrada "" "Ana" 8]⟩

/-! ## Data for the guard, the fixed layout and the ledger invariant -/

/-- The column positions that `registrarEnHistorial` uses, counted from zero: the row it
appends is `[fecha, cédula, nombre, estado, entrada, salida, duración, empresa]`, it reads
`row[1]`, `row[4]` and `row[5]` and writes columns 6, 7 and 8. -/
def indicesFijos : Indices :=
  { fecha := some 0, cedula := some 1, nombre := some 2, empresa := some 7
    entrada := some 4, salida := some 5, estado := some 3, duracion := some 6 }

/-- A state with the given ledger in which `SIMULACRO_EN_CURSO` is true. -/
def mundoEnSimulacro (h : Hoja) : Mundo := { mundoCon h with simulacroEnCurso := true }

/-- The scenario ledger after the open row of `8-1-1` is closed at 17:00. -/
def ledgerEscenarioCerrado : Hoja :=
  ⟨encabezadoHistorial, [filaCerrada "8-1-1" "Ana" 8 17, filaCerrada "8-2-2" "Luis" 9 10]⟩

/-- A request of one target `8-1-1` at 17:00 with the given `tipo`. -/
def peticionTipo (tipo : Option String) : Option Parametros :=
  some ⟨.arreglo ["8-1-1".toList], tipo.map String.toList, none, some (hora 17), none⟩

/-! ## Statements about occupancy used for comparison -/

/-- The ledger without the rows that carry an exit: the rows whose exit cell is truthy are
removed, the header stays. -/
def sinFilasConSalida (E : Entorno) (h : Hoja) : Hoja :=
  ⟨h.encabezado,
    h.filas.filter (fun r => !(leerSi r (mapearIndicesColumnas E h.encabezado).salida).veraz)⟩

/-- Keeps, of the records of each cédula text, the first one of the list. -/
def unaPorCedula (ps : List PersonaDentro) : List PersonaDentro :=
  ps.foldl (fun vistos p => if vistos.any (fun q => q.cedula == p.cedula) then vistos
    else vistos ++ [p]) []

/-- Occupancy as the specification words it: of the rows with a non-blank cédula, an entry
and an empty exit, listed from the most recent one backwards, the first one of each
trimmed cédula text, as records. -/
def abiertasRecientes (E : Entorno) (ind : Indices) (filas : List Fila) : List PersonaDentro :=
  unaPorCedula ((filas.reverse.filter (fun r =>
    decide (cedulaDeFila E ind r ≠ []) && filaAbierta ind r)).map (registroDentro E ind))

/-- The writes of the `'salida'` branch of `registrarEnHistorial` on the row they reach:
the event time into column 6, the company into column 8 and, when the entry read from
`data` is a Date, the duration label into column 7. -/
def cerrarFila (fecha : Int) (resultado : ResultadoAcceso) (row cur : Fila) : Fila :=
  match leer row (some 4) with
  | .fecha entrada =>
    ponerCelda (ponerCelda (ponerCelda cur 5 (.fecha fecha)) 7 (.texto resultado.empresa)) 6
      (.texto (duracionTexto (fecha - entrada)))
  | _ => ponerCelda (ponerCelda cur 5 (.fecha fecha)) 7 (.texto resultado.empresa)

/-- The row that the `'salida'` branch appends when it finds no open entry. -/
def filaSinEntrada (fecha : Int) (resultado : ResultadoAcceso) : Fila :=
  [.fecha fecha, .texto resultado.cedula, .texto resultado.nombre,
   .texto resultado.estadoAcceso, vacia, .fecha fecha, .texto "Sin entrada".toList,
   .texto resultado.empresa]

/-- The row that the `'entrada'` branch appends. -/
def filaDeEntrada (fecha : Int) (resultado : ResultadoAcceso) : Fila :=
  [.fecha fecha, .texto resultado.cedula, .texto resultado.nombre,
   .texto resultado.estadoAcceso, .fecha fecha, vacia, vacia, .texto resultado.empresa]

/-- The access result of `8-1-1`, Ana. -/
def accesoAna : ResultadoAcceso :=
  ⟨"8-1-1".toList, "Ana".toList, "Acceso Permitido".toList, "ACME".toList⟩

/-- The access result of `8-3-3`, Eva, who has no row in the scenario ledger. -/
def accesoEva : ResultadoAcceso :=
  ⟨"8-3-3".toList, "Eva".toList, "Acceso Permitido".toList, "ACME".toList⟩

/-! ## The ledger invariant and the frame of the real scan -/

/-- The ledger invariant of the specification, for the columns `ind`: no two rows of the
same normalised identity both have an entry and no exit. -/
def unaAbiertaPorIdentidad (E : Entorno) (ind : Indices) (filas : List Fila) : Prop :=
  filas.Pairwise (fun r1 r2 => ¬ (filaAbierta ind r1 = true ∧ filaAbierta ind r2 = true ∧
    claveCedula (cedulaDeFila E ind r1) = claveCedula (cedulaDeFila E ind r2)))

/-- A row `cur` of the sheet differs from the row `orig` of `data` at most in the exit and
duration cells, and its exit cell is the one of `orig` or holds `timestamp`. -/
def SoloSalidaYDuracion (ind : Indices) (timestamp : Int) (orig cur : Fila) : Prop :=
  (∀ j : Nat, some j ≠ ind.salida → some j ≠ ind.duracion →
    leer cur (some j) = leer orig (some j)) ∧
  (leer cur ind.salida = leer orig ind.salida ∨ leer cur ind.salida = .fecha timestamp)

/-- Frame invariant of the real scan: header and number of rows are those of `data`, the
rows listed in the resolved list are data rows, every row differs from its row of `data` at
most in the exit and duration cells, a row that is not listed is the row of `data`, and a
listed row was open in `data` and holds `timestamp` in its exit cell. -/
def Marco (ind : Indices) (timestamp : Int) (data : Hoja) (a : Avance) : Prop :=
  a.hoja.encabezado = data.encabezado ∧ a.hoja.filas.length = data.filas.length ∧
  (∀ p ∈ a.personas, 2 ≤ p.filaHistorial ∧ p.filaHistorial ≤ data.filas.length + 1) ∧
  ∀ (k : Nat) (orig cur : Fila), data.filas[k]? = some orig → a.hoja.filas[k]? = some cur →
    SoloSalidaYDuracion ind timestamp orig cur ∧
    ((∀ p ∈ a.personas, p.filaHistorial ≠ k + 2) → cur = orig) ∧
    ((∃ p ∈ a.personas, p.filaHistorial = k + 2) → filaAbierta ind orig = true ∧
      ∀ js, ind.salida = some js → leer cur (some js) = .fecha timestamp)

/-! ## Column permutations -/

/-- The row with its columns rearranged: position `k` of the result holds the cell that
was at position `σ[k]`. -/
def permutarFila (σ : List Nat) (row : Fila) : Fila := σ.map (fun j => row.getD j vacia)

/-- The sheet with the columns of the header and of every row rearranged alike. -/
def permutarHoja (σ : List Nat) (h : Hoja) : Hoja :=
  ⟨permutarFila σ h.encabezado, h.filas.map (permutarFila σ)⟩

/-- The name of a header cell as `mapearIndicesColumnas` compares it. -/
def nombreColumna (E : Entorno) (celda : Celda) : Str := trim (aMinusculas (celda.aTexto E))

/-- No two non-empty header cells have the same name. -/
def EncabezadosDistintos (E : Entorno) (headers : Fila) : Prop :=
  headers.Pairwise (fun c1 c2 => ¬ (c1.veraz = true ∧ c2.veraz = true ∧
    nombreColumna E c1 = nombreColumna E c2))

/-- The column found in the rearranged header is the one found in the header: both are
missing, or the position `j2` found after rearranging holds the column `j` found before. -/
def Corresponde (σ : List Nat) (o2 o : Option Nat) : Prop :=
  (o2 = none ∧ o = none) ∨ ∃ j2 j : Nat, o2 = some j2 ∧ o = some j ∧ σ[j2]? = some j

/-- The rearrangement that exchanges the first two of eight columns. -/
def intercambio : List Nat := [1, 0, 2, 3, 4, 5, 6, 7]

/-- The columns that the scans read and write are found alike in the rearranged header
and in the header. -/
def IndicesCorresponden (σ : List Nat) (ind2 ind : Indices) : Prop :=
  Corresponde σ ind2.cedula ind.cedula ∧ Corresponde σ ind2.nombre ind.nombre ∧
  Corresponde σ ind2.empresa ind.empresa ∧ Corresponde σ ind2.entrada ind.entrada ∧
  Corresponde σ ind2.salida ind.salida ∧ Corresponde σ ind2.duracion ind.duracion

/-- A second pass of `normalizarCedula` finds nothing to take out of the text `y`: `y` is
empty, or step 1 returns no field of it and either the pattern loop extracts `y` whole, or
the pattern loop extracts nothing and `y` has the accepted shape `[A-Z0-9-]{3,20}` or
holds no run of five or more digits. -/
def segundaPasadaNeutra (y : Str) : Prop :=
  y = [] ∨ (valorDevuelto (intentoJson y) = none ∧
    (extraerPorPatron patronesCedula y = some y ∨
      (extraerPorPatron patronesCedula y = none ∧
        (formaRazonable y = true ∨ tramosDigitos y [] = []))))

/-! # Properties

Lemmas shared by the claims come first in each section; each claim is one theorem whose
doc comment starts with its number. -/

/-! ## Lemmas on the unified entry point -/

theorem registrarYNotificar_historial (E : Entorno) (w : Mundo) (r : Procesamiento)
    (timestamp : Int) (tipo sessionId notas : Str) :
    (registrarYNotificar E w r timestamp tipo sessionId notas).historial = w.historial := by
  unfold registrarYNotificar registrarLogEvacuacionUnificado
    enviarNotificacionEvacuacionUnificada
  split_ifs <;> rfl

theorem registrarYNotificar_vacio (E : Entorno) (w : Mundo) (r : Procesamiento)
    (timestamp : Int) (tipo sessionId notas : Str) (hr : r.personasEvacuadas = []) :
    registrarYNotificar E w r timestamp tipo sessionId notas = w := by
  unfold registrarYNotificar
  simp [hr]

theorem unificada_exito (E : Entorno) (w : Mundo) (p : Parametros) (c : Str) (cs : List Str)
    (h : Hoja) (hc : p.cedulas = .arreglo (c :: cs)) (hh : w.historial = some h) :
    procesarEvacuacionUnificada E w (some p) =
      (resultadoFinal E
        (registrarYNotificar E
          (despachar E w h (p.tipo.getD "real".toList) (c :: cs) (p.timestamp.getD E.ahora)
            E.uuid (p.notas.getD [])).2
          (despachar E w h (p.tipo.getD "real".toList) (c :: cs) (p.timestamp.getD E.ahora)
            E.uuid (p.notas.getD [])).1
          (p.timestamp.getD E.ahora) (p.tipo.getD "real".toList) E.uuid (p.notas.getD []))
        (despachar E w h (p.tipo.getD "real".toList) (c :: cs) (p.timestamp.getD E.ahora)
            E.uuid (p.notas.getD [])).1 (p.tipo.getD "real".toList),
       registrarYNotificar E
          (despachar E w h (p.tipo.getD "real".toList) (c :: cs) (p.timestamp.getD E.ahora)
            E.uuid (p.notas.getD [])).2
          (despachar E w h (p.tipo.getD "real".toList) (c :: cs) (p.timestamp.getD E.ahora)
            E.uuid (p.notas.getD [])).1
          (p.timestamp.getD E.ahora) (p.tipo.getD "real".toList) E.uuid (p.notas.getD [])) := by
  simp only [procesarEvacuacionUnificada, hc, hh]

theorem unificada_rechazo (E : Entorno) (w : Mundo) (p : Option Parametros)
    (hp : ∀ q, p = some q → w.historial = none ∨ ∀ c cs, q.cedulas ≠ .arreglo (c :: cs)) :
    (procesarEvacuacionUnificada E w p).2 = w := by
  cases p with
  | none => rfl
  | some q =>
    simp only [procesarEvacuacionUnificada]
    cases hc : q.cedulas with
    | ausente => rfl
    | noArreglo => rfl
    | arreglo l =>
      cases l with
      | nil => rfl
      | cons c cs =>
        rcases hp q rfl with h | h
        · simp only [h]
        · exact absurd hc (h c cs)

theorem unificada_simulacro_historial (E : Entorno) (w : Mundo) (p : Parametros)
    (hp : p.tipo = some "simulacro".toList) :
    (procesarEvacuacionUnificada E w (some p)).2.historial = w.historial := by
  cases hh : w.historial with
  | none => rw [unificada_rechazo E w (some p) (fun _ _ => Or.inl hh), hh]
  | some h =>
    cases hc : p.cedulas with
    | ausente =>
      rw [unificada_rechazo E w (some p) (fun q hq => Or.inr (fun c cs => by
        cases hq; rw [hc]; exact ArgCedulas.noConfusion)), hh]
    | noArreglo =>
      rw [unificada_rechazo E w (some p) (fun q hq => Or.inr (fun c cs => by
        cases hq; rw [hc]; exact ArgCedulas.noConfusion)), hh]
    | arreglo l =>
      cases l with
      | nil =>
        rw [unificada_rechazo E w (some p) (fun q hq => Or.inr (fun c cs => by
          cases hq; rw [hc]; intro h; cases h)), hh]
      | cons c cs =>
        rw [unificada_exito E w p c cs h hc hh]
        simp only [registrarYNotificar_historial, despachar, hp, Option.getD_some, if_true, hh]

/-! ## C1: a simulated evacuation leaves the ledger as it was -/

/-- C1. A simulated evacuation, through `procesarSimulacroEvacuacion` or through
`procesarEvacuacionUnificada` with `tipo: 'simulacro'`, leaves the sheet `Historial`
identical, for every state and every target list (the same rows with the same cells,
exit and duration cells of the targets included) and clears the guard. -/
theorem simulacro_deja_historial_intacto (E : Entorno) (w : Mundo) (cedulas : List Str)
    (notas : Str) (operador : Option Str) (timestamp : Option Int) :
    (procesarSimulacroEvacuacion E w (.arreglo cedulas) notas).2.historial = w.historial ∧
    (procesarSimulacroEvacuacion E w (.arreglo cedulas) notas).2.simulacroEnCurso = false ∧
    (procesarEvacuacionUnificada E w (some ⟨.arreglo cedulas, some "simulacro".toList,
        operador, timestamp, some notas⟩)).2.historial = w.historial :=
  ⟨unificada_simulacro_historial E _ _ rfl, rfl, unificada_simulacro_historial E _ _ rfl⟩

/-! ## C10: normalizarCedula never throws -/

/-- C10. The body of `normalizarCedula` completes on every string (what step 1 throws on
text that is not JSON is caught and the later steps run), so the function returns a
string for every input; the empty string and a string of blanks both give the empty
string. -/
theorem normalizarCedula_total :
    (∀ x : Str, cuerpoNormalizar x = .ok (normalizarCedula x)) ∧
    (∀ x : Str, x ≠ [] → (∀ e, intentoJson (trim x) = .error e →
      normalizarCedula x = pasosTexto (trim x))) ∧
    normalizarCedula [] = [] ∧
    normalizarCedula "   ".toList = [] := by
  refine ⟨?_, ?_, by decide, by decide⟩
  · intro x
    have hr : ∃ r, cuerpoNormalizar x = .ok r := by
      unfold cuerpoNormalizar
      split_ifs
      · exact ⟨_, rfl⟩
      · dsimp only
        split <;> exact ⟨_, rfl⟩
    obtain ⟨r, hr⟩ := hr
    simp only [normalizarCedula, hr]
  · intro x hx e he
    simp only [normalizarCedula, cuerpoNormalizar, hx, if_false, he]

/-! ## C7: a real evacuation that resolves nobody -/

theorem buscarAbierta_none (E : Entorno) (ind : Indices) (cedula : Str) (rows : List Fila)
    (h : ∀ r ∈ rows, ¬ (mismaCedula (cedulaDeFila E ind r) cedula = true ∧
      filaAbierta ind r = true)) :
    buscarAbierta E ind cedula rows = none := by
  induction rows with
  | nil => rfl
  | cons r rs ih =>
    have h1 := h r (List.mem_cons_self _ _)
    have h2 : (mismaCedula (cedulaDeFila E ind r) cedula && filaAbierta ind r) = false := by
      cases hm : mismaCedula (cedulaDeFila E ind r) cedula <;>
        cases ha : filaAbierta ind r <;> simp_all
    simp only [buscarAbierta, h2]
    exact ih (fun r2 hr2 => h r2 (List.mem_cons_of_mem _ hr2))

theorem evacuar_sin_abiertas (E : Entorno) (data : Hoja) (ind : Indices) (bd : Option Hoja)
    (timestamp : Int) (sessionId : Str) (cedulas : List Str) (a : Avance)
    (h : ∀ c ∈ cedulas, ∀ r ∈ data.filas, ¬ (mismaCedula (cedulaDeFila E ind r) c = true ∧
      filaAbierta ind r = true)) :
    cedulas.foldl (evacuarUna E data ind bd timestamp sessionId) a = a := by
  induction cedulas generalizing a with
  | nil => rfl
  | cons c cs ih =>
    have hc : evacuarUna E data ind bd timestamp sessionId a c = a := by
      unfold evacuarUna
      rw [buscarAbierta_none E ind c data.filas.reverse
        (fun r hr => h c (List.mem_cons_self _ _) r (List.mem_reverse.mp hr))]
    rw [List.foldl_cons, hc]
    exact ih a (fun c2 hc2 => h c2 (List.mem_cons_of_mem _ hc2))

/-- C7. When no target has an open row (no row of its identity with an entry and without
exit), a real evacuation of a non-empty target list succeeds with an empty
`personasEvacuadas` and `totalEvacuadas = 0`, and nothing is written: the scan leaves the
ledger and its notes as they were, and the whole call leaves the state unchanged. -/
theorem real_sin_sesion_abierta (E : Entorno) (w : Mundo) (h : Hoja) (cedulas : List Str)
    (operador : Option Str) (timestamp : Option Int) (notas : Option Str)
    (hw : w.historial = some h) (hne : cedulas ≠ [])
    (hno : ∀ c ∈ cedulas, ∀ r ∈ h.filas,
      ¬ (mismaCedula (cedulaDeFila E (mapearIndicesColumnas E h.encabezado) r) c = true ∧
         filaAbierta (mapearIndicesColumnas E h.encabezado) r = true)) :
    (procesarEvacuacionRealUnificada E h w.notasHistorial w.baseDatos cedulas
        (timestamp.getD E.ahora) E.uuid).1.success = true ∧
    (procesarEvacuacionRealUnificada E h w.notasHistorial w.baseDatos cedulas
        (timestamp.getD E.ahora) E.uuid).1.personasEvacuadas = [] ∧
    (procesarEvacuacionRealUnificada E h w.notasHistorial w.baseDatos cedulas
        (timestamp.getD E.ahora) E.uuid).1.totalEvacuadas = 0 ∧
    (procesarEvacuacionRealUnificada E h w.notasHistorial w.baseDatos cedulas
        (timestamp.getD E.ahora) E.uuid).2 = (h, w.notasHistorial) ∧
    (procesarEvacuacionUnificada E w (some ⟨.arreglo cedulas, some "real".toList, operador,
        timestamp, notas⟩)).1.success = true ∧
    (procesarEvacuacionUnificada E w (some ⟨.arreglo cedulas, some "real".toList, operador,
        timestamp, notas⟩)).1.personasEvacuadas = [] ∧
    (procesarEvacuacionUnificada E w (some ⟨.arreglo cedulas, some "real".toList, operador,
        timestamp, notas⟩)).1.totalEvacuadas = 0 ∧
    (procesarEvacuacionUnificada E w (some ⟨.arreglo cedulas, some "real".toList, operador,
        timestamp, notas⟩)).2 = w := by
  have hreal : ∀ (n0 : List Nota) (bd : Option Hoja) (t : Int) (sid : Str),
      procesarEvacuacionRealUnificada E h n0 bd cedulas t sid =
        ({ success := true
           message := "Evacuación real completada: ".toList ++ decimal 0 ++
             " persona(s) evacuadas".toList
           totalEvacuadas := 0, personasEvacuadas := []
           tipoEvento := none, notas := none, sessionId := none }, h, n0) := by
    intro n0 bd t sid
    unfold procesarEvacuacionRealUnificada
    simp only [evacuar_sin_abiertas E h _ bd t sid cedulas ⟨h, n0, []⟩ hno, List.length_nil]
  obtain ⟨c, cs, rfl⟩ := List.exists_cons_of_ne_nil hne
  have hw' : w = { w with historial := some h, notasHistorial := w.notasHistorial } := by
    cases w; simp_all
  have hd : ∀ (t : Int) (n : Str), despachar E w h "real".toList (c :: cs) t E.uuid n =
      (({ success := true
          message := "Evacuación real completada: ".toList ++ decimal 0 ++
            " persona(s) evacuadas".toList
          totalEvacuadas := 0, personasEvacuadas := []
          tipoEvento := none, notas := none, sessionId := none } : Procesamiento), w) := by
    intro t n
    have hsim : ¬ ("real".toList = "simulacro".toList) := by decide
    simp only [despachar, hsim, if_false, hreal]
    rw [← hw']
  refine ⟨by rw [hreal], by rw [hreal], by rw [hreal], by rw [hreal], ?_, ?_, ?_, ?_⟩ <;>
    rw [unificada_exito E w _ c cs h rfl hw] <;>
    simp only [Option.getD_some, hd]
  · rfl
  · rfl
  · rfl
  · exact registrarYNotificar_vacio E w _ _ _ _ _ rfl

/-- C7 at a concrete input: in the scenario ledger `8-2-2` has left and `9-9-9` never
entered, so evacuating both resolves nobody and changes nothing. -/
theorem real_sin_sesion_abierta_witness :
    (mundoCon ledgerEscenario).historial = some ledgerEscenario ∧
    ["8-2-2".toList, "9-9-9".toList] ≠ [] ∧
    (∀ c ∈ ["8-2-2".toList, "9-9-9".toList], ∀ r ∈ ledgerEscenario.filas,
      ¬ (mismaCedula (cedulaDeFila entornoUTC
            (mapearIndicesColumnas entornoUTC ledgerEscenario.encabezado) r) c = true ∧
         filaAbierta (mapearIndicesColumnas entornoUTC ledgerEscenario.encabezado) r = true)) ∧
    (procesarEvacuacionUnificada entornoUTC (mundoCon ledgerEscenario)
      (some ⟨.arreglo ["8-2-2".toList, "9-9-9".toList], some "real".toList, none,
        some (hora 17), none⟩)).1.success = true ∧
    (procesarEvacuacionUnificada entornoUTC (mundoCon ledgerEscenario)
      (some ⟨.arreglo ["8-2-2".toList, "9-9-9".toList], some "real".toList, none,
        some (hora 17), none⟩)).1.personasEvacuadas = [] ∧
    (procesarEvacuacionUnificada entornoUTC (mundoCon ledgerEscenario)
      (some ⟨.arreglo ["8-2-2".toList, "9-9-9".toList], some "real".toList, none,
        some (hora 17), none⟩)).2 = mundoCon ledgerEscenario :=
  have hno : ∀ c ∈ ["8-2-2".toList, "9-9-9".toList], ∀ r ∈ ledgerEscenario.filas,
      ¬ (mismaCedula (cedulaDeFila entornoUTC
            (mapearIndicesColumnas entornoUTC ledgerEscenario.encabezado) r) c = true ∧
         filaAbierta (mapearIndicesColumnas entornoUTC ledgerEscenario.encabezado) r = true) := by
    decide
  have t := real_sin_sesion_abierta entornoUTC (mundoCon ledgerEscenario) ledgerEscenario
    ["8-2-2".toList, "9-9-9".toList] none (some (hora 17)) none rfl (by decide) hno
  ⟨rfl, by decide, hno, t.2.2.2.2.1, t.2.2.2.2.2.1, t.2.2.2.2.2.2.2⟩

/-! ## C8: the simulated scan resolves what the real scan resolves -/

theorem scans_mismo_resumen (E : Entorno) (data : Hoja) (ind : Indices) (bd : Option Hoja)
    (timestamp : Int) (sessionId notas : Str) (cedulas : List Str) (a : Avance)
    (ps : List PersonaEvacuada) (h : a.personas.map resumen = ps.map resumen) :
    (cedulas.foldl (evacuarUna E data ind bd timestamp sessionId) a).personas.map resumen =
      (cedulas.foldl (simularUna E data ind bd timestamp notas) ps).map resumen := by
  induction cedulas generalizing a ps with
  | nil => exact h
  | cons c cs ih =>
    rw [List.foldl_cons, List.foldl_cons]
    apply ih
    unfold evacuarUna simularUna
    cases buscarAbierta E ind c data.filas.reverse with
    | none => exact h
    | some ir =>
      obtain ⟨i, row⟩ := ir
      simp only [List.map_append, h, List.map_cons, List.map_nil, resumen]

/-- C8. On the same ledger and targets, `procesarSimulacroUnificado` and
`procesarEvacuacionRealUnificada` both succeed and resolve the same persons in the same
order: the lists have the same length, corresponding entries agree on cédula, name,
company, entry time and ledger row number, and `totalEvacuadas` is the same. -/
theorem simulacro_resuelve_como_real (E : Entorno) (h : Hoja) (notas0 : List Nota)
    (bd : Option Hoja) (cedulas : List Str) (timestamp : Int) (sessionId notas : Str) :
    (procesarSimulacroUnificado E h bd cedulas timestamp sessionId notas).personasEvacuadas.map
        resumen =
      (procesarEvacuacionRealUnificada E h notas0 bd cedulas timestamp
        sessionId).1.personasEvacuadas.map resumen ∧
    (procesarSimulacroUnificado E h bd cedulas timestamp sessionId
        notas).personasEvacuadas.length =
      (procesarEvacuacionRealUnificada E h notas0 bd cedulas timestamp
        sessionId).1.personasEvacuadas.length ∧
    (procesarSimulacroUnificado E h bd cedulas timestamp sessionId notas).totalEvacuadas =
      (procesarEvacuacionRealUnificada E h notas0 bd cedulas timestamp
        sessionId).1.totalEvacuadas ∧
    (procesarSimulacroUnificado E h bd cedulas timestamp sessionId notas).success = true ∧
    (procesarEvacuacionRealUnificada E h notas0 bd cedulas timestamp sessionId).1.success =
      true := by
  have key := scans_mismo_resumen E h (mapearIndicesColumnas E h.encabezado) bd timestamp
    sessionId notas cedulas ⟨h, notas0, []⟩ [] rfl
  have hlen := congrArg List.length key
  simp only [List.length_map] at hlen
  exact ⟨key.symm, hlen.symm, hlen.symm, rfl, rfl⟩

/-! ## C4, C2, C3: the occupancy scan -/

theorem pasoDentro_mem (E : Entorno) (ind : Indices) (mapa : List PersonaDentro) (fila : Fila)
    (p : PersonaDentro) (hp : p ∈ pasoDentro E ind mapa fila) :
    p ∈ mapa ∨ (filaAbierta ind fila = true ∧ cedulaDeFila E ind fila ≠ [] ∧
      p = registroDentro E ind fila) := by
  unfold pasoDentro at hp
  dsimp only at hp
  split_ifs at hp with h1 h2 h3
  · exact Or.inl hp
  · exact Or.inl hp
  · rcases List.mem_append.mp hp with h | h
    · exact Or.inl h
    · exact Or.inr ⟨h3, h1, List.mem_singleton.mp h⟩
  · exact Or.inl hp

theorem foldl_pasoDentro_mem (E : Entorno) (ind : Indices) (rows : List Fila)
    (mapa : List PersonaDentro) (p : PersonaDentro)
    (hp : p ∈ rows.foldl (pasoDentro E ind) mapa) :
    p ∈ mapa ∨ ∃ fila ∈ rows, filaAbierta ind fila = true ∧ cedulaDeFila E ind fila ≠ [] ∧
      p = registroDentro E ind fila := by
  induction rows generalizing mapa with
  | nil => exact Or.inl hp
  | cons r rs ih =>
    rw [List.foldl_cons] at hp
    rcases ih _ hp with h | ⟨fila, hf, hrest⟩
    · rcases pasoDentro_mem E ind mapa r p h with h2 | h2
      · exact Or.inl h2
      · exact Or.inr ⟨r, List.mem_cons_self _ _, h2⟩
    · exact Or.inr ⟨fila, List.mem_cons_of_mem _ hf, hrest⟩

theorem pasoDentro_sub (E : Entorno) (ind : Indices) (mapa : List PersonaDentro) (fila : Fila)
    (p : PersonaDentro) (hp : p ∈ mapa) : p ∈ pasoDentro E ind mapa fila := by
  unfold pasoDentro
  dsimp only
  split_ifs
  · exact hp
  · exact hp
  · exact List.mem_append_left _ hp
  · exact hp

theorem foldl_pasoDentro_sub (E : Entorno) (ind : Indices) (rows : List Fila)
    (mapa : List PersonaDentro) (p : PersonaDentro) (hp : p ∈ mapa) :
    p ∈ rows.foldl (pasoDentro E ind) mapa := by
  induction rows generalizing mapa with
  | nil => exact hp
  | cons r rs ih => exact ih _ (pasoDentro_sub E ind mapa r p hp)

theorem registroDentro_cedula (E : Entorno) (ind : Indices) (fila : Fila) :
    (registroDentro E ind fila).cedula = cedulaDeFila E ind fila := rfl

theorem pasoDentro_nodup (E : Entorno) (ind : Indices) (mapa : List PersonaDentro) (fila : Fila)
    (hn : (mapa.map (·.cedula)).Nodup) :
    ((pasoDentro E ind mapa fila).map (·.cedula)).Nodup := by
  unfold pasoDentro
  dsimp only
  split_ifs with h1 h2 h3
  · exact hn
  · exact hn
  · rw [List.map_append, List.map_singleton, registroDentro_cedula]
    refine List.Nodup.append hn (List.nodup_singleton _) ?_
    rw [List.disjoint_singleton]
    intro hmem
    apply h2
    obtain ⟨q, hq, hqc⟩ := List.mem_map.mp hmem
    exact List.any_eq_true.mpr ⟨q, hq, by simpa using hqc⟩
  · exact hn

theorem foldl_pasoDentro_nodup (E : Entorno) (ind : Indices) (rows : List Fila)
    (mapa : List PersonaDentro) (hn : (mapa.map (·.cedula)).Nodup) :
    ((rows.foldl (pasoDentro E ind) mapa).map (·.cedula)).Nodup := by
  induction rows generalizing mapa with
  | nil => exact hn
  | cons r rs ih => exact ih _ (pasoDentro_nodup E ind mapa r hn)

theorem pasoDentro_registra (E : Entorno) (ind : Indices) (mapa : List PersonaDentro)
    (fila : Fila) (hc : cedulaDeFila E ind fila ≠ []) (ha : filaAbierta ind fila = true) :
    ∃ p ∈ pasoDentro E ind mapa fila, p.cedula = cedulaDeFila E ind fila := by
  unfold pasoDentro
  dsimp only
  rw [if_neg hc]
  split_ifs with h2
  · obtain ⟨q, hq, hqc⟩ := List.any_eq_true.mp h2
    exact ⟨q, hq, by simpa using hqc⟩
  · exact ⟨_, List.mem_append_right _ (List.mem_singleton_self _), rfl⟩

theorem foldl_pasoDentro_registra (E : Entorno) (ind : Indices) (rows : List Fila)
    (mapa : List PersonaDentro) (fila : Fila) (hf : fila ∈ rows)
    (hc : cedulaDeFila E ind fila ≠ []) (ha : filaAbierta ind fila = true) :
    ∃ p ∈ rows.foldl (pasoDentro E ind) mapa, p.cedula = cedulaDeFila E ind fila := by
  induction rows generalizing mapa with
  | nil => cases hf
  | cons r rs ih =>
    rw [List.foldl_cons]
    rcases List.mem_cons.mp hf with h | h
    · subst h
      obtain ⟨p, hp, hpc⟩ := pasoDentro_registra E ind mapa fila hc ha
      exact ⟨p, foldl_pasoDentro_sub E ind rs _ p hp, hpc⟩
    · exact ih _ h

theorem filter_length_uno {α β : Type} [DecidableEq β] (f : α → β) (c : β) (l : List α)
    (hn : (l.map f).Nodup) (hex : ∃ p ∈ l, f p = c) :
    (l.filter (fun p => f p = c)).length = 1 := by
  induction l with
  | nil => obtain ⟨p, hp, _⟩ := hex; cases hp
  | cons x xs ih =>
    rw [List.map_cons, List.nodup_cons] at hn
    by_cases hx : f x = c
    · have hnone : xs.filter (fun p => f p = c) = [] := by
        rw [List.filter_eq_nil_iff]
        intro q hq hqc
        apply hn.1
        rw [hx]
        exact List.mem_map.mpr ⟨q, hq, by simpa using hqc⟩
      simp [List.filter_cons, hx, hnone]
    · obtain ⟨p, hp, hpc⟩ := hex
      rcases List.mem_cons.mp hp with h | h
      · exact absurd (h ▸ hpc) hx
      · simp only [List.filter_cons, hx, decide_False, Bool.false_eq_true, if_false]
        exact ih hn.2 ⟨p, h, hpc⟩

theorem escanearDentro_mem (E : Entorno) (ind : Indices) (filas : List Fila)
    (p : PersonaDentro) (hp : p ∈ escanearDentro E ind filas) :
    ∃ fila ∈ filas, filaAbierta ind fila = true ∧ cedulaDeFila E ind fila ≠ [] ∧
      p = registroDentro E ind fila := by
  rcases foldl_pasoDentro_mem E ind filas.reverse [] p hp with h | ⟨fila, hf, hrest⟩
  · cases h
  · exact ⟨fila, List.mem_reverse.mp hf, hrest⟩

theorem personasDentro_mem (E : Entorno) (h : Hoja) (p : PersonaDentro)
    (hp : p ∈ (getEvacuacionDataForClient E (some h)).personasDentro) :
    p ∈ escanearDentro E (mapearIndicesColumnas E h.encabezado) h.filas := by
  unfold getEvacuacionDataForClient at hp
  dsimp only at hp
  split_ifs at hp
  · cases hp
  · exact hp

/-- C4. Every record of `personasDentro` is built (cédula, name, company, entry time) from
a ledger row that has an entry and an empty exit; an identity all of whose rows carry an
exit is not listed; `totalDentro` is the number of records; and for the ledger
`[ENTRY 8-1-1 08:00], [ENTRY 8-2-2 09:00, EXIT 10:00]` the result is the one record of
`8-1-1` with entry `08:00`, `totalDentro = 1`. -/
theorem ocupacion_desde_filas_abiertas (E : Entorno) (historial : Option Hoja) (h : Hoja) :
    (∀ p ∈ (getEvacuacionDataForClient E (some h)).personasDentro, ∃ fila ∈ h.filas,
      (leerSi fila (mapearIndicesColumnas E h.encabezado).entrada).veraz = true ∧
      (leerSi fila (mapearIndicesColumnas E h.encabezado).salida).veraz = false ∧
      p = registroDentro E (mapearIndicesColumnas E h.encabezado) fila) ∧
    (∀ c : Str, (∀ fila ∈ h.filas,
        cedulaDeFila E (mapearIndicesColumnas E h.encabezado) fila = c →
        (leerSi fila (mapearIndicesColumnas E h.encabezado).salida).veraz = true) →
      ∀ p ∈ (getEvacuacionDataForClient E (some h)).personasDentro, p.cedula ≠ c) ∧
    (getEvacuacionDataForClient E historial).totalDentro =
      (getEvacuacionDataForClient E historial).personasDentro.length ∧
    (getEvacuacionDataForClient entornoUTC (some ledgerEscenario)).personasDentro =
      [⟨"8-1-1".toList, "Ana".toList, "ACME".toList, "08:00".toList⟩] ∧
    (getEvacuacionDataForClient entornoUTC (some ledgerEscenario)).totalDentro = 1 := by
  have hmem : ∀ p ∈ (getEvacuacionDataForClient E (some h)).personasDentro, ∃ fila ∈ h.filas,
      (leerSi fila (mapearIndicesColumnas E h.encabezado).entrada).veraz = true ∧
      (leerSi fila (mapearIndicesColumnas E h.encabezado).salida).veraz = false ∧
      p = registroDentro E (mapearIndicesColumnas E h.encabezado) fila := by
    intro p hp
    obtain ⟨fila, hf, ha, _, hpe⟩ := escanearDentro_mem E _ h.filas p (personasDentro_mem E h p hp)
    unfold filaAbierta at ha
    simp only [Bool.and_eq_true, Bool.not_eq_true'] at ha
    exact ⟨fila, hf, ha.1, ha.2, hpe⟩
  refine ⟨hmem, ?_, ?_, by decide, by decide⟩
  · intro c hc p hp hpc
    obtain ⟨fila, hf, _, hs, hpe⟩ := hmem p hp
    have := hc fila hf (by rw [← hpc, hpe, registroDentro_cedula])
    rw [hs] at this
    cases this
  · unfold getEvacuacionDataForClient
    cases historial with
    | none => rfl
    | some h2 =>
      dsimp only
      split_ifs <;> rfl

/-- C2, counterexample. The rows `ID:123` and `id 123` are both open and both normalise to
`123`: the result lists that normalised identity twice, and no record has the key `123`. -/
theorem ocupacion_no_normaliza :
    normalizarCedula "ID:123".toList = "123".toList ∧
    normalizarCedula "id 123".toList = "123".toList ∧
    ((getEvacuacionDataForClient entornoUTC (some ledgerDosEscrituras)).personasDentro.filter
      (fun p => normalizarCedula p.cedula = "123".toList)).length = 2 ∧
    ((getEvacuacionDataForClient entornoUTC (some ledgerDosEscrituras)).personasDentro.map
      (·.cedula)) = ["id 123".toList, "ID:123".toList] := by
  decide

/-- C2, amended. Every non-blank trimmed cédula text that has at least one row with an
entry and no exit is the key of exactly one record of `personasDentro`: the result is
keyed by the trimmed text of the cédula cell, not by `normalizarCedula`. -/
theorem ocupacion_una_vez_por_cedula (E : Entorno) (h : Hoja) (c : Str) (hc : c ≠ [])
    (hopen : ∃ fila ∈ h.filas,
      cedulaDeFila E (mapearIndicesColumnas E h.encabezado) fila = c ∧
      filaAbierta (mapearIndicesColumnas E h.encabezado) fila = true) :
    ((getEvacuacionDataForClient E (some h)).personasDentro.filter
      (fun p => p.cedula = c)).length = 1 := by
  obtain ⟨fila, hf, hfc, ha⟩ := hopen
  have hne : h.filas ≠ [] := List.ne_nil_of_mem hf
  have hres : (getEvacuacionDataForClient E (some h)).personasDentro =
      escanearDentro E (mapearIndicesColumnas E h.encabezado) h.filas := by
    unfold getEvacuacionDataForClient
    dsimp only
    rw [if_neg hne]
  rw [hres]
  refine filter_length_uno (fun p : PersonaDentro => p.cedula) c _ ?_ ?_
  · exact foldl_pasoDentro_nodup E _ h.filas.reverse [] List.nodup_nil
  · obtain ⟨p, hp, hpc⟩ := foldl_pasoDentro_registra E (mapearIndicesColumnas E h.encabezado)
      h.filas.reverse [] fila (List.mem_reverse.mpr hf) (by rw [hfc]; exact hc) ha
    exact ⟨p, hp, hpc.trans hfc⟩

/-- C2, amended, at a concrete input: `8-1-1` in the scenario ledger. -/
theorem ocupacion_una_vez_por_cedula_witness :
    "8-1-1".toList ≠ [] ∧
    (∃ fila ∈ ledgerEscenario.filas,
      cedulaDeFila entornoUTC (mapearIndicesColumnas entornoUTC ledgerEscenario.encabezado)
        fila = "8-1-1".toList ∧
      filaAbierta (mapearIndicesColumnas entornoUTC ledgerEscenario.encabezado) fila = true) ∧
    ((getEvacuacionDataForClient entornoUTC (some ledgerEscenario)).personasDentro.filter
      (fun p => p.cedula = "8-1-1".toList)).length = 1 :=
  have hopen : ∃ fila ∈ ledgerEscenario.filas,
      cedulaDeFila entornoUTC (mapearIndicesColumnas entornoUTC ledgerEscenario.encabezado)
        fila = "8-1-1".toList ∧
      filaAbierta (mapearIndicesColumnas entornoUTC ledgerEscenario.encabezado) fila = true :=
    ⟨filaEntrada "8-1-1" "Ana" 8, by decide, by decide, by decide⟩
  ⟨by decide, hopen,
    ocupacion_una_vez_por_cedula entornoUTC ledgerEscenario "8-1-1".toList (by decide) hopen⟩

/-- C3, the code at the failing input. The most recent row of `8-1-1` has entry 09:00 and
exit 10:00, an older row of the same cédula has entry 08:00 and no exit: the scan does not
mark the identity as seen at the closed row, goes on to the older row and reports the
person as inside since 08:00. -/
theorem ocupacion_reconsidera_filas_anteriores :
    ledgerAbiertaLuegoCerrada.filas.getLast? = some (filaCerrada "8-1-1" "Ana" 9 10) ∧
    filaAbierta (mapearIndicesColumnas entornoUTC ledgerAbiertaLuegoCerrada.encabezado)
      (filaCerrada "8-1-1" "Ana" 9 10) = false ∧
    (getEvacuacionDataForClient entornoUTC (some ledgerAbiertaLuegoCerrada)).personasDentro =
      [⟨"8-1-1".toList, "Ana".toList, "ACME".toList, "08:00".toList⟩] := by
  decide

/-! ## Lemmas on cells, rows and column positions -/

theorem leer_ponerCelda_mismo (row : Fila) (j : Nat) (v : Celda) :
    leer (ponerCelda row j v) (some j) = v := by
  unfold leer ponerCelda
  split_ifs with h
  · simp [List.getD_eq_getElem?_getD, List.getElem?_set, h]
  · have h2 : row.length ≤ j := Nat.le_of_not_lt h
    simp [List.getD_eq_getElem?_getD, List.getElem?_append_right, h2]

theorem leer_ponerCelda_otro (row : Fila) (j k : Nat) (v : Celda) (hk : k ≠ j) :
    leer (ponerCelda row j v) (some k) = leer row (some k) := by
  unfold leer ponerCelda
  split_ifs with h
  · simp [List.getD_eq_getElem?_getD, List.getElem?_set, Ne.symm hk]
  · have h2 : row.length ≤ j := Nat.le_of_not_lt h
    simp only [List.getD_eq_getElem?_getD]
    by_cases h3 : k < row.length
    · rw [List.append_assoc, List.getElem?_append_left h3]
    · have h4 : row.length ≤ k := Nat.le_of_not_lt h3
      rw [List.append_assoc, List.getElem?_append_right h4, List.getElem?_eq_none h4]
      by_cases h5 : k - row.length < j - row.length
      · rw [List.getElem?_append_left (by simpa using h5)]
        simp [List.getElem?_replicate, h5, vacia]
      · have h6 : j - row.length ≤ k - row.length := Nat.le_of_not_lt h5
        rw [List.getElem?_append_right (by simpa using h6)]
        have h7 : k - row.length - (List.replicate (j - row.length) vacia).length ≠ 0 := by
          simp only [List.length_replicate]
          omega
        obtain ⟨m, hm⟩ := Nat.exists_eq_succ_of_ne_zero h7
        rw [hm]
        simp

theorem modificar_length {α : Type} (f : α → α) (i : Nat) (l : List α) :
    (modificar f i l).length = l.length := by
  induction l generalizing i with
  | nil => cases i <;> rfl
  | cons x xs ih =>
    cases i with
    | zero => rfl
    | succ i => simp [modificar, ih]

theorem modificar_getElem? {α : Type} (f : α → α) (i k : Nat) (l : List α) :
    (modificar f i l)[k]? = if k = i then (l[k]?).map f else l[k]? := by
  induction l generalizing i k with
  | nil => cases i <;> simp [modificar]
  | cons x xs ih =>
    cases i with
    | zero =>
      cases k with
      | zero => simp [modificar]
      | succ k => simp [modificar]
    | succ i =>
      cases k with
      | zero => simp [modificar]
      | succ k => simp [modificar, ih]

theorem indice_some {α : Type} (p : α → Bool) (l : List α) (j : Nat)
    (h : indice p l = some j) : ∃ x, l[j]? = some x ∧ p x = true := by
  induction l generalizing j with
  | nil => cases h
  | cons x xs ih =>
    unfold indice at h
    split_ifs at h with hx
    · cases h
      exact ⟨x, by simp, hx⟩
    · cases hi : indice p xs with
      | none => rw [hi] at h; cases h
      | some m =>
        rw [hi] at h
        cases h
        obtain ⟨y, hy, hpy⟩ := ih m hi
        exact ⟨y, by simpa using hy, hpy⟩

theorem findIndex_some (E : Entorno) (headers : Fila) (nombres : List String) (j : Nat)
    (h : findIndex E headers nombres = some j) :
    ∃ nombre ∈ nombres, ∃ celda, headers[j]? = some celda ∧
      trim (aMinusculas (celda.aTexto E)) = nombre.toList := by
  induction nombres with
  | nil => cases h
  | cons n ns ih =>
    unfold findIndex at h
    split at h
    · rename_i m hm
      cases h
      obtain ⟨x, hx, hpx⟩ := indice_some _ headers _ hm
      simp only [Bool.and_eq_true, beq_iff_eq] at hpx
      exact ⟨n, List.mem_cons_self _ _, x, hx, hpx.2⟩
    · obtain ⟨nombre, hn, rest⟩ := ih h
      exact ⟨nombre, List.mem_cons_of_mem _ hn, rest⟩

theorem findIndex_distintos (E : Entorno) (headers : Fila) (n1 n2 : List String)
    (hdisj : ∀ a ∈ n1, ∀ b ∈ n2, a.toList ≠ b.toList) (j1 j2 : Nat)
    (h1 : findIndex E headers n1 = some j1) (h2 : findIndex E headers n2 = some j2) :
    j1 ≠ j2 := by
  intro heq
  subst heq
  obtain ⟨a, ha, x, hx, hxa⟩ := findIndex_some E headers n1 j1 h1
  obtain ⟨b, hb, y, hy, hyb⟩ := findIndex_some E headers n2 j1 h2
  rw [hx] at hy
  cases hy
  exact hdisj a ha b hb (hxa.symm.trans hyb)

theorem salida_ne_duracion (E : Entorno) (headers : Fila) (js jd : Nat)
    (hs : (mapearIndicesColumnas E headers).salida = some js)
    (hd : (mapearIndicesColumnas E headers).duracion = some jd) : js ≠ jd :=
  findIndex_distintos E headers _ _ (by decide) js jd hs hd

/-! ## Lemmas on the real scan -/

theorem buscarAbierta_some (E : Entorno) (ind : Indices) (cedula : Str) (rows : List Fila)
    (i : Nat) (row : Fila) (h : buscarAbierta E ind cedula rows = some (i, row)) :
    1 ≤ i ∧ rows.reverse[i - 1]? = some row ∧
      mismaCedula (cedulaDeFila E ind row) cedula = true ∧ filaAbierta ind row = true := by
  induction rows with
  | nil => cases h
  | cons r rs ih =>
    unfold buscarAbierta at h
    split_ifs at h with hc
    · cases h
      simp only [Bool.and_eq_true] at hc
      refine ⟨Nat.le_add_left _ _, ?_, hc.1, hc.2⟩
      simp [List.getElem?_append_right]
    · obtain ⟨h1, h2, h3⟩ := ih h
      refine ⟨h1, ?_, h3⟩
      rw [List.reverse_cons]
      have hlt : i - 1 < rs.reverse.length := by
        by_contra hge
        rw [List.getElem?_eq_none (Nat.le_of_not_lt hge)] at h2
        cases h2
      rw [List.getElem?_append_left hlt]
      exact h2

theorem buscarAbierta_ultima (E : Entorno) (ind : Indices) (cedula : Str) (rows : List Fila)
    (i : Nat) (row : Fila) (hrow : rows.reverse[i]? = some row)
    (hm : mismaCedula (cedulaDeFila E ind row) cedula = true) (ha : filaAbierta ind row = true)
    (hlast : ∀ k row2, i < k → rows.reverse[k]? = some row2 →
      ¬ (mismaCedula (cedulaDeFila E ind row2) cedula = true ∧ filaAbierta ind row2 = true)) :
    buscarAbierta E ind cedula rows = some (i + 1, row) := by
  induction rows with
  | nil => simp at hrow
  | cons r rs ih =>
    rw [List.reverse_cons] at hrow
    unfold buscarAbierta
    by_cases hi : i < rs.reverse.length
    · rw [List.getElem?_append_left hi] at hrow
      have hr : ¬ (mismaCedula (cedulaDeFila E ind r) cedula = true ∧
          filaAbierta ind r = true) := by
        apply hlast rs.length r (by simpa using hi)
        rw [List.reverse_cons]
        simp [List.getElem?_append_right]
      have hr2 : (mismaCedula (cedulaDeFila E ind r) cedula && filaAbierta ind r) = false := by
        cases h1 : mismaCedula (cedulaDeFila E ind r) cedula <;>
          cases h2 : filaAbierta ind r <;> simp_all
      rw [hr2]
      simp only [Bool.false_eq_true, if_false]
      apply ih hrow
      intro k row2 hk hk2
      apply hlast k row2 hk
      rw [List.reverse_cons]
      have hklt : k < rs.reverse.length := by
        by_contra hge
        rw [List.getElem?_eq_none (Nat.le_of_not_lt hge)] at hk2
        cases hk2
      rw [List.getElem?_append_left hklt]
      exact hk2
    · have hge : rs.reverse.length ≤ i := Nat.le_of_not_lt hi
      rw [List.getElem?_append_right hge] at hrow
      have hi0 : i - rs.reverse.length = 0 := by
        by_contra hne
        obtain ⟨m, hm2⟩ := Nat.exists_eq_succ_of_ne_zero hne
        rw [hm2] at hrow
        simp at hrow
      rw [hi0] at hrow
      simp only [List.getElem?_cons_zero, Option.some.injEq] at hrow
      subst hrow
      have hieq : i = rs.length := by
        simp only [List.length_reverse] at hge hi0
        omega
      simp [hm, ha, hieq]

theorem setValue_filas (h : Hoja) (i col : Nat) (v : Celda) (hi : 1 ≤ i) :
    (h.setValue (i + 1) col v).encabezado = h.encabezado ∧
    (h.setValue (i + 1) col v).filas =
      modificar (fun row => ponerCelda row (col - 1) v) (i - 1) h.filas := by
  unfold Hoja.setValue
  have h1 : ¬ (i + 1 = 1) := by omega
  have h2 : i + 1 - 2 = i - 1 := by omega
  simp only [h1, if_false, h2, and_self]

theorem evacuarUna_hoja (E : Entorno) (data : Hoja) (ind : Indices) (bd : Option Hoja)
    (timestamp : Int) (sessionId : Str) (a : Avance) (cedula : Str) (js i : Nat) (row : Fila)
    (hs : ind.salida = some js)
    (hb : buscarAbierta E ind cedula data.filas.reverse = some (i, row)) :
    (evacuarUna E data ind bd timestamp sessionId a cedula).hoja.encabezado =
      a.hoja.encabezado ∧
    (evacuarUna E data ind bd timestamp sessionId a cedula).hoja.filas =
      modificar (escribir ind timestamp js row) (i - 1) a.hoja.filas := by
  have hi := (buscarAbierta_some E ind cedula _ i row hb).1
  unfold evacuarUna
  simp only [hb, hs]
  unfold escribir
  cases he : leerSi row ind.entrada with
  | fecha e =>
    cases hd : ind.duracion with
    | none =>
      refine ⟨(setValue_filas _ i _ _ hi).1, ?_⟩
      rw [(setValue_filas _ i _ _ hi).2]
      rfl
    | some jd =>
      dsimp only
      refine ⟨by rw [(setValue_filas _ i _ _ hi).1, (setValue_filas _ i _ _ hi).1], ?_⟩
      rw [(setValue_filas _ i _ _ hi).2, (setValue_filas _ i _ _ hi).2]
      apply List.ext_getElem?
      intro k
      simp only [modificar_getElem?, Nat.add_sub_cancel]
      split_ifs
      · cases a.hoja.filas[k]? <;> rfl
      · rfl
  | texto s =>
    refine ⟨(setValue_filas _ i _ _ hi).1, ?_⟩
    rw [(setValue_filas _ i _ _ hi).2]
    rfl
  | numero n =>
    refine ⟨(setValue_filas _ i _ _ hi).1, ?_⟩
    rw [(setValue_filas _ i _ _ hi).2]
    rfl
  | booleano b =>
    refine ⟨(setValue_filas _ i _ _ hi).1, ?_⟩
    rw [(setValue_filas _ i _ _ hi).2]
    rfl

theorem escribir_escrita (ind : Indices) (timestamp : Int) (js : Nat) (row cur : Fila)
    (hne : ∀ jd, ind.duracion = some jd → js ≠ jd) :
    Escrita ind timestamp js row (escribir ind timestamp js row cur) := by
  unfold Escrita escribir
  cases he : leerSi row ind.entrada with
  | fecha e =>
    cases hd : ind.duracion with
    | none =>
      exact ⟨leer_ponerCelda_mismo _ _ _, fun _ _ _ h => by cases h⟩
    | some jd =>
      dsimp only
      refine ⟨?_, ?_⟩
      · rw [leer_ponerCelda_otro _ _ _ _ (hne jd hd), leer_ponerCelda_mismo]
      · intro e2 jd2 h1 h2
        cases h1
        cases h2
        exact leer_ponerCelda_mismo _ _ _
  | texto s => exact ⟨leer_ponerCelda_mismo _ _ _, fun _ _ h _ => by cases h⟩
  | numero n => exact ⟨leer_ponerCelda_mismo _ _ _, fun _ _ h _ => by cases h⟩
  | booleano b => exact ⟨leer_ponerCelda_mismo _ _ _, fun _ _ h _ => by cases h⟩

theorem evacuarUna_conserva (E : Entorno) (data : Hoja) (ind : Indices) (bd : Option Hoja)
    (timestamp : Int) (sessionId : Str) (js : Nat) (hs : ind.salida = some js)
    (hne : ∀ jd, ind.duracion = some jd → js ≠ jd) (a : Avance) (cedula : Str)
    (hinv : Conserva ind timestamp js data a.hoja) :
    Conserva ind timestamp js data (evacuarUna E data ind bd timestamp sessionId a cedula).hoja ∧
    (∀ k, Hecha ind timestamp js data a.hoja k →
      Hecha ind timestamp js data (evacuarUna E data ind bd timestamp sessionId a cedula).hoja k) ∧
    (∀ i row, buscarAbierta E ind cedula data.filas.reverse = some (i, row) →
      Hecha ind timestamp js data
        (evacuarUna E data ind bd timestamp sessionId a cedula).hoja (i - 1)) := by
  cases hb : buscarAbierta E ind cedula data.filas.reverse with
  | none =>
    have hsame : evacuarUna E data ind bd timestamp sessionId a cedula = a := by
      unfold evacuarUna
      rw [hb]
    rw [hsame]
    exact ⟨hinv, fun _ h => h, fun _ _ h => by cases h⟩
  | some ir =>
    obtain ⟨i, row⟩ := ir
    obtain ⟨henc, hfil⟩ := evacuarUna_hoja E data ind bd timestamp sessionId a cedula js i row hs hb
    obtain ⟨hi, hrow, _, _⟩ := buscarAbierta_some E ind cedula _ i row hb
    rw [List.reverse_reverse] at hrow
    have hrowk : ∀ k orig cur, data.filas[k]? = some orig →
        (evacuarUna E data ind bd timestamp sessionId a cedula).hoja.filas[k]? = some cur →
        (k = i - 1 ∧ Escrita ind timestamp js orig cur) ∨
        (k ≠ i - 1 ∧ a.hoja.filas[k]? = some cur) := by
      intro k orig cur ho hc
      rw [hfil, modificar_getElem?] at hc
      split_ifs at hc with hk
      · left
        refine ⟨hk, ?_⟩
        subst hk
        rw [hrow] at ho
        cases ho
        cases hcur : a.hoja.filas[i - 1]? with
        | none => rw [hcur] at hc; cases hc
        | some c0 =>
          rw [hcur] at hc
          cases hc
          exact escribir_escrita ind timestamp js _ c0 hne
      · exact Or.inr ⟨hk, hc⟩
    refine ⟨⟨henc.trans hinv.1, ?_, ?_⟩, ?_, ?_⟩
    · rw [hfil, modificar_length]
      exact hinv.2.1
    · intro k orig cur ho hc
      rcases hrowk k orig cur ho hc with ⟨_, h⟩ | ⟨_, h⟩
      · exact Or.inr h
      · exact hinv.2.2 k orig cur ho h
    · intro k hk orig cur ho hc
      rcases hrowk k orig cur ho hc with ⟨_, h⟩ | ⟨_, h⟩
      · exact h
      · exact hk orig cur ho h
    · intro i2 row2 h2 orig cur ho hc
      cases h2
      rcases hrowk (i - 1) orig cur ho hc with ⟨_, h⟩ | ⟨h, _⟩
      · exact h
      · exact absurd rfl h

theorem foldl_evacuar_conserva (E : Entorno) (data : Hoja) (ind : Indices) (bd : Option Hoja)
    (timestamp : Int) (sessionId : Str) (js : Nat) (hs : ind.salida = some js)
    (hne : ∀ jd, ind.duracion = some jd → js ≠ jd) (cedulas : List Str) (a : Avance)
    (hinv : Conserva ind timestamp js data a.hoja) :
    Conserva ind timestamp js data
      (cedulas.foldl (evacuarUna E data ind bd timestamp sessionId) a).hoja ∧
    (∀ k, Hecha ind timestamp js data a.hoja k → Hecha ind timestamp js data
      (cedulas.foldl (evacuarUna E data ind bd timestamp sessionId) a).hoja k) ∧
    (∀ c ∈ cedulas, ∀ i row, buscarAbierta E ind c data.filas.reverse = some (i, row) →
      Hecha ind timestamp js data
        (cedulas.foldl (evacuarUna E data ind bd timestamp sessionId) a).hoja (i - 1)) := by
  induction cedulas generalizing a with
  | nil => exact ⟨hinv, fun _ h => h, fun _ hc => by cases hc⟩
  | cons c cs ih =>
    obtain ⟨h1, h2, h3⟩ := evacuarUna_conserva E data ind bd timestamp sessionId js hs hne a c hinv
    obtain ⟨g1, g2, g3⟩ := ih (evacuarUna E data ind bd timestamp sessionId a c) h1
    rw [List.foldl_cons]
    refine ⟨g1, fun k hk => g2 k (h2 k hk), ?_⟩
    intro c2 hc2 i row hb
    rcases List.mem_cons.mp hc2 with h | h
    · subst h
      exact g2 _ (h3 i row hb)
    · exact g3 c2 h i row hb

theorem conserva_inicial (ind : Indices) (timestamp : Int) (js : Nat) (data : Hoja) :
    Conserva ind timestamp js data data :=
  ⟨rfl, rfl, fun _ _ _ ho hc => Or.inl (by rw [ho] at hc; cases hc; rfl)⟩

/-! ## C5: what a real evacuation writes -/

/-- C5. In a ledger with exit and duration columns, let `row` be the open row of a target
`c` (the most recent row of its identity with an entry and no exit) and let its entry be
the Date `e`. After a real evacuation at time `t` of a target list that contains `c`,
that row holds `t` in its exit cell and the label `{H}h {M}m` in its duration cell, where
`d = t - e`, `H = floor(d / 3600000)` and `M = floor((d % 3600000) / 60000)`; for `d ≥ 0`,
`0 ≤ M ≤ 59` and `60 * H + M = floor(d / 60000)`. From 08:00 to 17:00 the label is
`9h 0m`. -/
theorem real_escribe_salida_y_duracion (E : Entorno) (h : Hoja) (notas0 : List Nota)
    (bd : Option Hoja) (cedulas : List Str) (t : Int) (sessionId : Str) (c : Str) (i : Nat)
    (row : Fila) (e : Int) (js jd : Nat)
    (hs : (mapearIndicesColumnas E h.encabezado).salida = some js)
    (hd : (mapearIndicesColumnas E h.encabezado).duracion = some jd)
    (hc : c ∈ cedulas)
    (hrow : h.filas[i]? = some row)
    (hm : mismaCedula (cedulaDeFila E (mapearIndicesColumnas E h.encabezado) row) c = true)
    (ha : filaAbierta (mapearIndicesColumnas E h.encabezado) row = true)
    (hlast : ∀ (k : Nat) (row2 : Fila), i < k → h.filas[k]? = some row2 →
      ¬ (mismaCedula (cedulaDeFila E (mapearIndicesColumnas E h.encabezado) row2) c = true ∧
         filaAbierta (mapearIndicesColumnas E h.encabezado) row2 = true))
    (he : leerSi row (mapearIndicesColumnas E h.encabezado).entrada = .fecha e) :
    (∃ cur, (procesarEvacuacionRealUnificada E h notas0 bd cedulas t sessionId).2.1.filas[i]? =
        some cur ∧
      leer cur (some js) = .fecha t ∧
      leer cur (some jd) = .texto (entero ((t - e) / 3600000) ++ "h ".toList ++
        entero (Int.tmod (t - e) 3600000 / 60000) ++ "m".toList)) ∧
    (0 ≤ t - e →
      0 ≤ Int.tmod (t - e) 3600000 / 60000 ∧ Int.tmod (t - e) 3600000 / 60000 ≤ 59 ∧
      60 * ((t - e) / 3600000) + Int.tmod (t - e) 3600000 / 60000 = (t - e) / 60000) ∧
    duracionTexto (hora 17 - hora 8) = "9h 0m".toList := by
  refine ⟨?_, ?_, by decide⟩
  · have hne : ∀ jd2, (mapearIndicesColumnas E h.encabezado).duracion = some jd2 → js ≠ jd2 :=
      fun jd2 h2 => salida_ne_duracion E h.encabezado js jd2 hs h2
    obtain ⟨hcons, _, hdone⟩ := foldl_evacuar_conserva E h (mapearIndicesColumnas E h.encabezado)
      bd t sessionId js hs hne cedulas ⟨h, notas0, []⟩ (conserva_inicial _ t js h)
    have hb := buscarAbierta_ultima E (mapearIndicesColumnas E h.encabezado) c h.filas.reverse
      i row (by rw [List.reverse_reverse]; exact hrow) hm ha
      (by rw [List.reverse_reverse]; exact hlast)
    have hfin := hdone c hc (i + 1) row hb
    rw [Nat.add_sub_cancel] at hfin
    have hlen : i < (cedulas.foldl (evacuarUna E h (mapearIndicesColumnas E h.encabezado) bd t
        sessionId) ⟨h, notas0, []⟩).hoja.filas.length := by
      rw [hcons.2.1]
      by_contra hge
      rw [List.getElem?_eq_none (Nat.le_of_not_lt hge)] at hrow
      cases hrow
    obtain ⟨hx, hy⟩ := hfin row _ hrow (List.getElem?_eq_getElem hlen)
    exact ⟨_, List.getElem?_eq_getElem hlen, hx, hy e jd he hd⟩
  · intro hpos
    rw [Int.tmod_eq_emod hpos (by decide)]
    omega

/-- C5 at a concrete input: `8-1-1`, in since 08:00, evacuated at 17:00. -/
theorem real_escribe_salida_y_duracion_witness :
    (mapearIndicesColumnas entornoUTC ledgerEscenario.encabezado).salida = some 5 ∧
    (mapearIndicesColumnas entornoUTC ledgerEscenario.encabezado).duracion = some 6 ∧
    ledgerEscenario.filas[0]? = some (filaEntrada "8-1-1" "Ana" 8) ∧
    leerSi (filaEntrada "8-1-1" "Ana" 8)
      (mapearIndicesColumnas entornoUTC ledgerEscenario.encabezado).entrada = .fecha (hora 8) ∧
    (∃ cur, (procesarEvacuacionRealUnificada entornoUTC ledgerEscenario [] none
        ["8-1-1".toList] (hora 17) "s".toList).2.1.filas[0]? = some cur ∧
      leer cur (some 5) = .fecha (hora 17) ∧
      leer cur (some 6) = .texto (entero ((hora 17 - hora 8) / 3600000) ++ "h ".toList ++
        entero (Int.tmod (hora 17 - hora 8) 3600000 / 60000) ++ "m".toList)) :=
  have hlast : ∀ (k : Nat) (row2 : Fila), 0 < k → ledgerEscenario.filas[k]? = some row2 →
      ¬ (mismaCedula (cedulaDeFila entornoUTC
            (mapearIndicesColumnas entornoUTC ledgerEscenario.encabezado) row2)
          "8-1-1".toList = true ∧
         filaAbierta (mapearIndicesColumnas entornoUTC ledgerEscenario.encabezado) row2 = true) := by
    intro k row2 hk hk2
    match k, hk, hk2 with
    | 1, _, hk2 =>
      have hr : row2 = filaCerrada "8-2-2" "Luis" 9 10 := by
        have h1 : ledgerEscenario.filas[1]? = some (filaCerrada "8-2-2" "Luis" 9 10) := rfl
        rw [h1] at hk2
        exact (Option.some.inj hk2).symm
      rw [hr]
      decide
    | k + 2, _, hk2 =>
      have h2 : ledgerEscenario.filas[k + 2]? = none := rfl
      rw [h2] at hk2
      cases hk2
  ⟨by decide, by decide, rfl, by decide,
    (real_escribe_salida_y_duracion entornoUTC ledgerEscenario [] none ["8-1-1".toList]
      (hora 17) "s".toList "8-1-1".toList 0 (filaEntrada "8-1-1" "Ana" 8) (hora 8) 5 6
      (by decide) (by decide) (by decide) rfl (by decide) (by decide) hlast (by decide)).1⟩

/-! ## C6: the occupancy after a real evacuation -/

theorem escrita_no_abierta (ind : Indices) (t : Int) (js : Nat) (orig cur : Fila)
    (hs : ind.salida = some js) (he : Escrita ind t js orig cur) :
    filaAbierta ind cur = false := by
  unfold filaAbierta leerSi
  rw [hs, he.1]
  simp [Celda.veraz]

/-- C6, counterexample. The target `8-1-1` has an open entry in both ledgers and is still
listed in `personasDentroActualizadas` after its real evacuation: in the first ledger it
has two open rows and only the most recent one is closed, in the second there is no exit
column and nothing is written. -/
theorem real_deja_identidad_dentro :
    (procesarEvacuacionUnificada entornoUTC (mundoCon ledgerDosAbiertas)
      (peticionReal ["8-1-1"])).1.personasEvacuadas.map (·.cedula) = ["8-1-1".toList] ∧
    (procesarEvacuacionUnificada entornoUTC (mundoCon ledgerDosAbiertas)
      (peticionReal ["8-1-1"])).1.personasDentroActualizadas =
        [⟨"8-1-1".toList, "Ana".toList, "ACME".toList, "08:00".toList⟩] ∧
    (procesarEvacuacionUnificada entornoUTC (mundoCon ledgerSinSalida)
      (peticionReal ["8-1-1"])).1.personasEvacuadas.map (·.cedula) = ["8-1-1".toList] ∧
    (procesarEvacuacionUnificada entornoUTC (mundoCon ledgerSinSalida)
      (peticionReal ["8-1-1"])).1.personasDentroActualizadas =
        [⟨"8-1-1".toList, "Ana".toList, "Sin empresa".toList, "08:00".toList⟩] := by
  decide

/-- C6, amended. In a ledger that has an exit column, if a target `c` has exactly one open
row (one row of its identity with an entry and no exit), then after a real evacuation of a
target list that contains `c` no record of `personasDentroActualizadas` belongs to the
identity of `c`, neither by equal cédula nor by equal normalised cédula. -/
theorem real_quita_de_ocupacion (E : Entorno) (w : Mundo) (h : Hoja) (cedulas : List Str)
    (operador : Option Str) (timestamp : Option Int) (notas : Option Str) (c : Str) (i : Nat)
    (row : Fila) (js : Nat)
    (hw : w.historial = some h)
    (hs : (mapearIndicesColumnas E h.encabezado).salida = some js)
    (hc : c ∈ cedulas)
    (hrow : h.filas[i]? = some row)
    (hm : mismaCedula (cedulaDeFila E (mapearIndicesColumnas E h.encabezado) row) c = true)
    (ha : filaAbierta (mapearIndicesColumnas E h.encabezado) row = true)
    (huniq : ∀ (k : Nat) (row2 : Fila), k ≠ i → h.filas[k]? = some row2 →
      ¬ (mismaCedula (cedulaDeFila E (mapearIndicesColumnas E h.encabezado) row2) c = true ∧
         filaAbierta (mapearIndicesColumnas E h.encabezado) row2 = true)) :
    ∀ p ∈ (procesarEvacuacionUnificada E w (some ⟨.arreglo cedulas, some "real".toList,
        operador, timestamp, notas⟩)).1.personasDentroActualizadas,
      mismaCedula p.cedula c = false := by
  obtain ⟨c0, cs, rfl⟩ := List.exists_cons_of_ne_nil (List.ne_nil_of_mem hc)
  have hsim : ¬ ("real".toList = "simulacro".toList) := by decide
  have hne : ∀ jd2, (mapearIndicesColumnas E h.encabezado).duracion = some jd2 → js ≠ jd2 :=
    fun jd2 h2 => salida_ne_duracion E h.encabezado js jd2 hs h2
  obtain ⟨hcons, _, hdone⟩ := foldl_evacuar_conserva E h (mapearIndicesColumnas E h.encabezado)
    w.baseDatos (timestamp.getD E.ahora) E.uuid js hs hne (c0 :: cs) ⟨h, w.notasHistorial, []⟩
    (conserva_inicial _ _ js h)
  have hb := buscarAbierta_ultima E (mapearIndicesColumnas E h.encabezado) c h.filas.reverse
    i row (by rw [List.reverse_reverse]; exact hrow) hm ha
    (by rw [List.reverse_reverse]; exact fun k row2 hk => huniq k row2 (Nat.ne_of_gt hk))
  have hfin := hdone c hc (i + 1) row hb
  rw [Nat.add_sub_cancel] at hfin
  intro p hp
  rw [unificada_exito E w _ c0 cs h rfl hw] at hp
  simp only [resultadoFinal, registrarYNotificar_historial, despachar, Option.getD_some, hsim,
    if_false, procesarEvacuacionRealUnificada] at hp
  obtain ⟨fila, hf, hab, _, hpe⟩ := escanearDentro_mem E _ _ p (personasDentro_mem E _ p hp)
  rw [hcons.1] at hab hpe
  obtain ⟨k, hk⟩ := List.mem_iff_getElem?.mp hf
  have hklt : k < h.filas.length := by
    rw [← hcons.2.1]
    by_contra hge
    rw [List.getElem?_eq_none (Nat.le_of_not_lt hge)] at hk
    cases hk
  have horig : h.filas[k]? = some (h.filas[k]) := List.getElem?_eq_getElem hklt
  rcases hcons.2.2 k _ fila horig hk with heq | hesc
  · by_cases hki : k = i
    · subst hki
      have := escrita_no_abierta _ _ js _ fila hs (hfin _ fila horig hk)
      rw [this] at hab
      cases hab
    · have hno := huniq k _ hki horig
      rw [hpe, registroDentro_cedula, heq]
      rw [heq] at hab
      cases hmc : mismaCedula (cedulaDeFila E (mapearIndicesColumnas E h.encabezado)
        h.filas[k]) c with
      | false => rfl
      | true => exact absurd ⟨hmc, hab⟩ hno
  · have := escrita_no_abierta _ _ js _ fila hs hesc
    rw [this] at hab
    cases hab

/-- C6, amended, at a concrete input: `8-1-1` has one open row in the scenario ledger. -/
theorem real_quita_de_ocupacion_witness :
    (mundoCon ledgerEscenario).historial = some ledgerEscenario ∧
    (mapearIndicesColumnas entornoUTC ledgerEscenario.encabezado).salida = some 5 ∧
    ledgerEscenario.filas[0]? = some (filaEntrada "8-1-1" "Ana" 8) ∧
    filaAbierta (mapearIndicesColumnas entornoUTC ledgerEscenario.encabezado)
      (filaEntrada "8-1-1" "Ana" 8) = true ∧
    (∀ p ∈ (procesarEvacuacionUnificada entornoUTC (mundoCon ledgerEscenario)
        (some ⟨.arreglo ["8-1-1".toList], some "real".toList, none, some (hora 17),
          none⟩)).1.personasDentroActualizadas,
      mismaCedula p.cedula "8-1-1".toList = false) :=
  have huniq : ∀ (k : Nat) (row2 : Fila), k ≠ 0 → ledgerEscenario.filas[k]? = some row2 →
      ¬ (mismaCedula (cedulaDeFila entornoUTC
            (mapearIndicesColumnas entornoUTC ledgerEscenario.encabezado) row2)
          "8-1-1".toList = true ∧
         filaAbierta (mapearIndicesColumnas entornoUTC ledgerEscenario.encabezado) row2 = true) := by
    intro k row2 hk hk2
    match k, hk, hk2 with
    | 0, hk, _ => exact absurd rfl hk
    | 1, _, hk2 =>
      have hr : row2 = filaCerrada "8-2-2" "Luis" 9 10 := by
        have h1 : ledgerEscenario.filas[1]? = some (filaCerrada "8-2-2" "Luis" 9 10) := rfl
        rw [h1] at hk2
        exact (Option.some.inj hk2).symm
      rw [hr]
      decide
    | k + 2, _, hk2 =>
      have h2 : ledgerEscenario.filas[k + 2]? = none := rfl
      rw [h2] at hk2
      cases hk2
  ⟨rfl, by decide, rfl, by decide,
    real_quita_de_ocupacion entornoUTC (mundoCon ledgerEscenario) ledgerEscenario
      ["8-1-1".toList] none (some (hora 17)) none "8-1-1".toList 0
      (filaEntrada "8-1-1" "Ana" 8) 5 rfl (by decide) (by decide) rfl (by decide) (by decide)
      huniq⟩

/-! ## Lemmas on the pattern matcher -/

theorem retroceder_none (f : Nat → Option Str) (min n : Nat) (hmin : min ≤ n)
    (h : ∀ k, min ≤ k → k ≤ n → f k = none) : retroceder f min n = none := by
  induction n with
  | zero =>
    unfold retroceder
    exact h 0 hmin (Nat.le_refl 0)
  | succ k ih =>
    unfold retroceder
    rw [h (k + 1) hmin (Nat.le_refl _)]
    dsimp only
    split_ifs with hk
    · exact ih hk (fun j h1 h2 => h j h1 (Nat.le_succ_of_le h2))
    · rfl

theorem retroceder_cima (f : Nat → Option Str) (min n : Nat) (r : Str) (h : f n = some r) :
    retroceder f min n = some r := by
  cases n with
  | zero => unfold retroceder; exact h
  | succ k => unfold retroceder; rw [h]

theorem literal_resto (ps : List (Char → Bool)) (prev : Option Char) (s : Str)
    (prev2 : Option Char) (s2 : Str) (h : literal ps prev s = some (prev2, s2)) :
    ∀ c ∈ s2, c ∈ s := by
  induction ps generalizing prev s with
  | nil =>
    unfold literal at h
    cases h
    exact fun c hc => hc
  | cons p ps ih =>
    cases s with
    | nil => unfold literal at h; cases h
    | cons x xs =>
      unfold literal at h
      split_ifs at h
      exact fun c hc => List.mem_cons_of_mem _ (ih _ _ h c hc)

theorem tramo_cero (p : Char → Bool) (max : Option Nat) (q : Char → Bool) (s : Str)
    (hs : ∀ c ∈ s, q c = true) (hp : ∀ c, q c = true → p c = false) : tramo p max s = 0 := by
  cases s with
  | nil => cases max with
    | none => rfl
    | some m => cases m <;> rfl
  | cons x xs =>
    have hx : p x = false := hp x (hs x (List.mem_cons_self _ _))
    cases max with
    | none => simp [tramo, hx]
    | some m => cases m <;> simp [tramo, hx]

theorem coincidir_sinSalida (q : Char → Bool) (ns : List Nodo) (hns : sinSalida q ns)
    (prev : Option Char) (s : Str) (dentro : Bool) (acc : Str)
    (hs : ∀ c ∈ s, q c = true) : coincidir ns prev s dentro acc = none := by
  induction ns generalizing prev s dentro acc with
  | nil => exact absurd hns (by simp [sinSalida])
  | cons n ns ih =>
    cases n with
    | clase p =>
      cases s with
      | nil => simp [coincidir]
      | cons x xs =>
        simp only [coincidir]
        by_cases hx : p x = true
        · rw [if_pos hx]
          rcases hns with h | h
          · rw [h x (hs x (List.mem_cons_self _ _))] at hx
            cases hx
          · exact ih h _ _ _ _ (fun c hc => hs c (List.mem_cons_of_mem _ hc))
        · rw [if_neg hx]
    | rep p min max =>
      simp only [coincidir]
      by_cases hlt : tramo p max s < min
      · rw [if_pos hlt]
      · rw [if_neg hlt]
        rcases hns with h | h
        · rw [tramo_cero p max q s hs h.2] at hlt
          exact absurd h.1 hlt
        · apply retroceder_none _ _ _ (Nat.le_of_not_lt hlt)
          intro k _ _
          exact ih h _ _ _ _ (fun c hc => hs c (List.mem_of_mem_drop hc))
    | opcional ps =>
      have h : sinSalida q ns := hns
      simp only [coincidir]
      split
      · rename_i prev2 s2 hl
        rw [ih h _ _ _ _ (fun c hc => hs c (literal_resto ps prev s prev2 s2 hl c hc))]
        exact ih h _ _ _ _ hs
      · exact ih h _ _ _ _ hs
    | borde =>
      have h : sinSalida q ns := hns
      simp only [coincidir]
      by_cases hb : esBorde prev s = true
      · rw [if_pos hb]
        exact ih h _ _ _ _ hs
      · rw [if_neg hb]
    | abre =>
      have h : sinSalida q ns := hns
      simp only [coincidir]
      exact ih h _ _ _ _ hs
    | cierra =>
      have h : sinSalida q ns := hns
      simp only [coincidir]
      exact ih h _ _ _ _ hs

theorem buscarDesde_none (ns : List Nodo) (q : Str → Prop)
    (hq : ∀ c s, q (c :: s) → q s)
    (h : ∀ prev s, q s → coincidir ns prev s false [] = none)
    (prev : Option Char) (s : Str) (hs : q s) : buscarDesde ns prev s = none := by
  induction s generalizing prev with
  | nil =>
    unfold buscarDesde
    exact h prev [] hs
  | cons c cs ih =>
    unfold buscarDesde
    rw [h prev (c :: cs) hs]
    exact ih _ (hq c cs hs)

theorem buscar_sinSalida (q : Char → Bool) (ns : List Nodo) (hns : sinSalida q ns) (s : Str)
    (hs : ∀ c ∈ s, q c = true) : buscar ns s = none :=
  buscarDesde_none ns (fun s => ∀ c ∈ s, q c = true)
    (fun _ _ h c hc => h c (List.mem_cons_of_mem _ hc))
    (fun prev s h => coincidir_sinSalida q ns hns prev s false [] h) none s hs

/-! ## Digit strings under the patterns -/

theorem digito_rango (c : Char) (h : esDigito c = true) : 48 ≤ c.toNat ∧ c.toNat ≤ 57 := by
  simpa [esDigito] using h

theorem digito_no_es (c l : Char) (h : esDigito c = true) (hl : esDigito l = false) :
    (c == l) = false := by
  cases heq : (c == l) with
  | false => rfl
  | true =>
    have : c = l := by simpa using heq
    rw [this, hl] at h
    cases h

theorem digito_no_letraCI (l c : Char) (hl : 90 ≤ l.toNat) (h : esDigito c = true) :
    letraCI l c = false := by
  obtain ⟨h1, h2⟩ := digito_rango c h
  unfold letraCI
  have ha : (c == l) = false := by
    cases heq : (c == l) with
    | false => rfl
    | true =>
      have : c = l := by simpa using heq
      rw [this] at h2
      omega
  have hb : (c.toNat + 32 == l.toNat) = false := by
    cases heq : (c.toNat + 32 == l.toNat) with
    | false => rfl
    | true =>
      have : c.toNat + 32 = l.toNat := by simpa using heq
      omega
  rw [ha, hb]
  rfl

theorem digito_no_letra (c : Char) (h : esDigito c = true) : esLetra c = false := by
  obtain ⟨h1, h2⟩ := digito_rango c h
  simp only [esLetra, esMayuscula, esMinuscula, Bool.or_eq_false_iff, Bool.and_eq_false_iff,
    decide_eq_false_iff_not]
  omega

theorem digito_no_espacio (c : Char) (h : esDigito c = true) : esEspacio c = false := by
  obtain ⟨h1, h2⟩ := digito_rango c h
  unfold esEspacio
  simp only [Bool.or_eq_false_iff, Bool.and_eq_false_iff, decide_eq_false_iff_not,
    beq_eq_false_iff_ne, ne_eq]
  omega

theorem digito_es_palabra (c : Char) (h : esDigito c = true) : esPalabra c = true := by
  simp [esPalabra, h]

theorem digito_es_alfaGuion (c : Char) (h : esDigito c = true) : esAlfaGuion c = true := by
  simp [esAlfaGuion, h]

theorem digitos_sin_QR : sinSalida esDigito patronQR :=
  Or.inl (fun c h => digito_no_letraCI 't' c (by decide) h)

theorem digitos_sin_cedula : sinSalida esDigito patronCedula :=
  Or.inl (fun c h => digito_no_letraCI 'c' c (by decide) h)

theorem digitos_sin_ID : sinSalida esDigito patronID :=
  Or.inl (fun c h => digito_no_letraCI 'i' c (by decide) h)

theorem digitos_sin_DNI : sinSalida esDigito patronDNI :=
  Or.inl (fun c h => digito_no_letraCI 'd' c (by decide) h)

theorem digitos_sin_doc : sinSalida esDigito patronDoc :=
  Or.inl (fun c h => digito_no_letraCI 'd' c (by decide) h)

theorem digitos_sin_VE : sinSalida esDigito patronVE :=
  Or.inl (fun c h => by
    unfold esVE
    rw [digito_no_letraCI 'v' c (by decide) h, digito_no_letraCI 'e' c (by decide) h]
    rfl)

theorem digitos_sin_panama : sinSalida esDigito patronPanama :=
  Or.inr (Or.inl (fun c h => digito_no_es c '-' h (by decide)))

theorem digitos_sin_guiones : sinSalida esDigito patronGuiones :=
  Or.inr (Or.inr (Or.inl (fun c h => digito_no_es c '-' h (by decide))))

theorem digitos_sin_alfanumerico : sinSalida esDigito patronAlfanumerico :=
  Or.inl ⟨by decide, fun c h => digito_no_letra c h⟩

theorem tramo_todo (p : Char → Bool) (s : Str) (hs : ∀ c ∈ s, p c = true) (m : Nat) :
    tramo p (some m) s = Nat.min m s.length := by
  induction s generalizing m with
  | nil => cases m <;> simp [tramo]
  | cons x xs ih =>
    cases m with
    | zero => simp [tramo]
    | succ m =>
      have hx : p x = true := hs x (List.mem_cons_self _ _)
      simp only [tramo, hx, if_true, Option.map_some', Nat.add_sub_cancel, List.length_cons]
      rw [ih (fun c hc => hs c (List.mem_cons_of_mem _ hc)) m]
      simp only [Nat.min_def]
      split_ifs <;> omega

theorem tramo_todo_corto (p : Char → Bool) (s : Str) (hs : ∀ c ∈ s, p c = true) (m : Nat)
    (h : s.length ≤ m) : tramo p (some m) s = s.length := by
  rw [tramo_todo p s hs m]
  exact Nat.min_eq_right h

theorem tramo_todo_largo (p : Char → Bool) (s : Str) (hs : ∀ c ∈ s, p c = true) (m : Nat)
    (h : m ≤ s.length) : tramo p (some m) s = m := by
  rw [tramo_todo p s hs m]
  exact Nat.min_eq_left h

theorem tramo_le (p : Char → Bool) (max : Option Nat) (s : Str) :
    tramo p max s ≤ s.length := by
  induction s generalizing max with
  | nil =>
    cases max with
    | none => simp [tramo]
    | some m => cases m <;> simp [tramo]
  | cons x xs ih =>
    cases max with
    | none =>
      simp only [tramo, List.length_cons]
      split_ifs
      · exact Nat.succ_le_succ (ih _)
      · exact Nat.zero_le _
    | some m =>
      cases m with
      | zero => simp [tramo]
      | succ m =>
        simp only [tramo, List.length_cons]
        split_ifs
        · exact Nat.succ_le_succ (ih _)
        · exact Nat.zero_le _

theorem previoTras_palabra (prev : Option Char) (t : Str) (hne : t ≠ [])
    (ht : ∀ c ∈ t, esPalabra c = true) :
    ∃ z, previoTras prev t = some z ∧ esPalabra z = true := by
  unfold previoTras
  rw [List.getLast?_eq_getLast _ hne]
  exact ⟨_, rfl, ht _ (List.getLast_mem hne)⟩

theorem marco_coincide (p : Char → Bool) (min max : Nat) (y : Str)
    (hy : ∀ c ∈ y, p c = true) (hpal : ∀ c ∈ y, esPalabra c = true)
    (h1 : min ≤ y.length) (h2 : y.length ≤ max) (hne : y ≠ []) :
    buscar [.borde, .abre, .rep p min (some max), .cierra, .borde] y = some y := by
  have hco : coincidir [.borde, .abre, .rep p min (some max), .cierra, .borde] none y false [] =
      some y := by
    obtain ⟨x, xs, rfl⟩ := List.exists_cons_of_ne_nil hne
    have hb : esBorde none (x :: xs) = true := by
      simp [esBorde, hpal x (List.mem_cons_self _ _)]
    simp only [coincidir, hb, if_true]
    rw [tramo_todo_corto p (x :: xs) hy max h2, if_neg (by omega)]
    apply retroceder_cima
    obtain ⟨z, hz, hzp⟩ := previoTras_palabra none (x :: xs) hne hpal
    have hb2 : esBorde (some z) [] = true := by simp [esBorde, hzp]
    simp only [List.take_length, List.drop_length, hz, coincidir, hb2, if_true,
      List.append_nil, List.reverse_reverse]
  unfold buscar
  cases y with
  | nil => exact absurd rfl hne
  | cons x xs =>
    unfold buscarDesde
    rw [hco]

theorem marco_corto (p : Char → Bool) (min : Nat) (max : Option Nat) (y : Str)
    (h : y.length < min) :
    buscar [.borde, .abre, .rep p min max, .cierra, .borde] y = none := by
  apply buscarDesde_none _ (fun s => s.length < min)
  · intro c s hs
    exact Nat.lt_of_succ_lt (by simpa using hs)
  · intro prev s hs
    simp only [coincidir]
    have ht : tramo p max s < min := Nat.lt_of_le_of_lt (tramo_le p max s) hs
    split_ifs <;> rfl
  · exact h

theorem numerico_desde_digito (d : Char) (hd : esDigito d = true) (s : Str)
    (hs : ∀ c ∈ s, esDigito c = true) : buscarDesde patronNumerico (some d) s = none := by
  induction s generalizing d with
  | nil =>
    simp [buscarDesde, patronNumerico, coincidir, tramo]
  | cons x xs ih =>
    have hx := hs x (List.mem_cons_self _ _)
    have hb : esBorde (some d) (x :: xs) = false := by
      simp [esBorde, digito_es_palabra d hd, digito_es_palabra x hx]
    unfold buscarDesde
    have hco : coincidir patronNumerico (some d) (x :: xs) false [] = none := by
      simp [patronNumerico, coincidir, hb]
    rw [hco]
    exact ih x hx (fun c hc => hs c (List.mem_cons_of_mem _ hc))

theorem numerico_largo (y : Str) (hy : ∀ c ∈ y, esDigito c = true) (hl : 15 < y.length) :
    buscar patronNumerico y = none := by
  cases y with
  | nil => simp at hl
  | cons x xs =>
    have hx := hy x (List.mem_cons_self _ _)
    have hb : esBorde none (x :: xs) = true := by simp [esBorde, digito_es_palabra x hx]
    have hco : coincidir patronNumerico none (x :: xs) false [] = none := by
      simp only [patronNumerico, coincidir, hb, if_true]
      rw [tramo_todo_largo esDigito (x :: xs) hy 15 (by omega), if_neg (by omega)]
      apply retroceder_none _ _ _ (by omega)
      intro k hk1 hk2
      have htake : (x :: xs).take k ≠ [] := by
        intro h0
        have := congrArg List.length h0
        simp only [List.length_take, List.length_nil] at this
        omega
      obtain ⟨z, hz, hzp⟩ := previoTras_palabra none ((x :: xs).take k) htake
        (fun c hc => digito_es_palabra c (hy c (List.mem_of_mem_take hc)))
      have hdrop : ∃ w ws, (x :: xs).drop k = w :: ws := by
        cases hd : (x :: xs).drop k with
        | nil =>
          have := congrArg List.length hd
          simp only [List.length_drop, List.length_nil] at this
          omega
        | cons w ws => exact ⟨w, ws, rfl⟩
      obtain ⟨w, ws, hdw⟩ := hdrop
      have hwp : esPalabra w = true := by
        apply digito_es_palabra
        apply hy
        apply List.mem_of_mem_drop (n := k)
        rw [hdw]
        exact List.mem_cons_self _ _
      have hb2 : esBorde (some z) (w :: ws) = false := by simp [esBorde, hzp, hwp]
      simp only [hz, hdw, coincidir, hb2]
      rfl
    unfold buscar buscarDesde
    rw [hco]
    exact numerico_desde_digito x hx xs (fun c hc => hy c (List.mem_cons_of_mem _ hc))

theorem digito_casos (c : Char) (h : esDigito c = true) :
    c = '0' ∨ c = '1' ∨ c = '2' ∨ c = '3' ∨ c = '4' ∨ c = '5' ∨ c = '6' ∨ c = '7' ∨
      c = '8' ∨ c = '9' := by
  obtain ⟨h1, h2⟩ := digito_rango c h
  have hc : c = Char.ofNat c.toNat := (Char.ofNat_toNat c).symm
  have hn : c.toNat = 48 ∨ c.toNat = 49 ∨ c.toNat = 50 ∨ c.toNat = 51 ∨ c.toNat = 52 ∨
      c.toNat = 53 ∨ c.toNat = 54 ∨ c.toNat = 55 ∨ c.toNat = 56 ∨ c.toNat = 57 := by omega
  rcases hn with h | h | h | h | h | h | h | h | h | h <;> rw [h] at hc <;> simp [hc]

theorem pValor_digito (f : Nat) (c : Char) (r : Str) (hc : esDigito c = true) :
    pValor (f + 1) (c :: r) = pNumero (c :: r) := by
  rcases digito_casos c hc with h | h | h | h | h | h | h | h | h | h <;> subst h <;>
    simp [pValor, saltar, esBlancoJson, esDigito]

theorem pNumero_num (s : Str) (v : Json) (r : Str) (h : pNumero s = some (v, r)) :
    ∃ n, v = .num n := by
  unfold pNumero at h
  dsimp only at h
  split_ifs at h
  all_goals try (split at h)
  all_goals first
    | (cases h; exact ⟨_, rfl⟩)
    | cases h

theorem json_digitos (y : Str) (hne : y ≠ []) (hy : ∀ c ∈ y, esDigito c = true) :
    (match intentoJson y with
      | .ok r => r
      | .error _ => none) = none := by
  obtain ⟨c, r, rfl⟩ := List.exists_cons_of_ne_nil hne
  have hp : jsonParse (c :: r) = none ∨ ∃ n, jsonParse (c :: r) = some (.num n) := by
    unfold jsonParse
    rw [List.length_cons, pValor_digito _ c r (hy c (List.mem_cons_self _ _))]
    cases hn : pNumero (c :: r) with
    | none => exact Or.inl rfl
    | some vr =>
      obtain ⟨v, r2⟩ := vr
      obtain ⟨n, rfl⟩ := pNumero_num (c :: r) v r2 hn
      dsimp only
      split_ifs
      · exact Or.inr ⟨n, rfl⟩
      · exact Or.inl rfl
  unfold intentoJson
  rcases hp with h | ⟨n, h⟩ <;> rw [h]

theorem dropWhile_nada {α : Type} (p : α → Bool) (s : List α) (h : ∀ c ∈ s, p c = false) :
    s.dropWhile p = s := by
  cases s with
  | nil => rfl
  | cons x xs => simp [List.dropWhile, h x (List.mem_cons_self _ _)]

theorem trim_sin_espacios (s : Str) (h : ∀ c ∈ s, esEspacio c = false) : trim s = s := by
  unfold trim
  rw [dropWhile_nada esEspacio s h,
    dropWhile_nada esEspacio s.reverse (fun c hc => h c (List.mem_reverse.mp hc)),
    List.reverse_reverse]

theorem sinEspacios_nada (s : Str) (h : ∀ c ∈ s, esEspacio c = false) : sinEspacios s = s := by
  unfold sinEspacios
  rw [List.filter_eq_self]
  intro c hc
  simp [h c hc]

theorem digitos_formaRazonable (y : Str) (hy : ∀ c ∈ y, esDigito c = true)
    (h3 : 3 ≤ y.length) (h20 : y.length ≤ 20) : formaRazonable y = true := by
  unfold formaRazonable
  simp only [Bool.and_eq_true, List.all_eq_true, decide_eq_true_eq]
  exact ⟨⟨fun c hc => digito_es_alfaGuion c (hy c hc), h3⟩, h20⟩

theorem extraer_digitos (y : Str) (hy : ∀ c ∈ y, esDigito c = true)
    (h3 : 3 ≤ y.length) (h20 : y.length ≤ 20) :
    extraerPorPatron patronesCedula y = if 5 ≤ y.length then some y else none := by
  have hne : y ≠ [] := by
    intro h0
    rw [h0] at h3
    simp at h3
  have hpal : ∀ c ∈ y, esPalabra c = true := fun c hc => digito_es_palabra c (hy c hc)
  have hesp : sinEspacios y = y := sinEspacios_nada y (fun c hc => digito_no_espacio c (hy c hc))
  have hforma := digitos_formaRazonable y hy h3 h20
  have hnum : buscar patronNumerico y =
      (if 7 ≤ y.length ∧ y.length ≤ 15 then some y else none) := by
    split_ifs with h
    · exact marco_coincide esDigito 7 15 y hy hpal h.1 h.2 hne
    · by_cases h7 : y.length < 7
      · exact marco_corto esDigito 7 (some 15) y h7
      · exact numerico_largo y hy (by omega)
  have hgen : buscar patronGenerico y = (if 5 ≤ y.length then some y else none) := by
    split_ifs with h
    · exact marco_coincide esAlfaGuion 5 20 y (fun c hc => digito_es_alfaGuion c (hy c hc))
        hpal h h20 hne
    · exact marco_corto esAlfaGuion 5 (some 20) y (by omega)
  simp only [patronesCedula, extraerPorPatron, buscar_sinSalida esDigito _ digitos_sin_QR y hy,
    buscar_sinSalida esDigito _ digitos_sin_cedula y hy,
    buscar_sinSalida esDigito _ digitos_sin_ID y hy,
    buscar_sinSalida esDigito _ digitos_sin_DNI y hy,
    buscar_sinSalida esDigito _ digitos_sin_doc y hy,
    buscar_sinSalida esDigito _ digitos_sin_VE y hy,
    buscar_sinSalida esDigito _ digitos_sin_panama y hy,
    buscar_sinSalida esDigito _ digitos_sin_guiones y hy,
    buscar_sinSalida esDigito _ digitos_sin_alfanumerico y hy, hnum, hgen]
  by_cases h7 : 7 ≤ y.length ∧ y.length ≤ 15
  · have h5 : 5 ≤ y.length := by omega
    simp [h7, h5, hesp, hforma, hne]
  · by_cases h5 : 5 ≤ y.length
    · simp [h7, h5, hesp, hforma, hne]
    · simp [h7, h5]

theorem digitos_punto_fijo (y : Str) (hy : ∀ c ∈ y, esDigito c = true)
    (h3 : 3 ≤ y.length) (h20 : y.length ≤ 20) : normalizarCedula y = y := by
  have hne : y ≠ [] := by
    intro h0
    rw [h0] at h3
    simp at h3
  have hesp : ∀ c ∈ y, esEspacio c = false := fun c hc => digito_no_espacio c (hy c hc)
  have htrim : trim y = y := trim_sin_espacios y hesp
  have hpasos : pasosTexto y = y := by
    unfold pasosTexto
    rw [extraer_digitos y hy h3 h20]
    split_ifs with h5
    · rfl
    · simp only [sinEspacios_nada y hesp, digitos_formaRazonable y hy h3 h20, if_true]
  unfold normalizarCedula cuerpoNormalizar
  rw [if_neg hne]
  simp only [htrim, json_digitos y hne hy, hpasos]

/-! ## C9: idempotence of normalizarCedula -/

/-- C9, counterexample. The labelled text `ID: ID-123` normalises to `ID-123`, which the
pattern `/\bID[:=\s-]*([A-Z0-9\-]{3,20})/i` reads again as a label followed by `123`: a
second normalisation gives `123`. -/
theorem normalizarCedula_no_idempotente :
    normalizarCedula "ID: ID-123".toList = "ID-123".toList ∧
    normalizarCedula (normalizarCedula "ID: ID-123".toList) = "123".toList ∧
    normalizarCedula (normalizarCedula "ID: ID-123".toList) ≠
      normalizarCedula "ID: ID-123".toList := by
  decide

/-! ## C11: the JSON step of normalizarCedula -/

theorem probarCampos_valido (campos : List (Str × Dato)) :
    valorDevuelto (probarCampos campos campoPosibles) = primerCampoValido campos := by
  unfold primerCampoValido camposVerdaderos
  generalize campoPosibles = l
  induction l with
  | nil => rfl
  | cons campo resto ih =>
    unfold probarCampos
    rw [List.filterMap_cons]
    cases hp : propiedad campos campo with
    | none => simpa using ih
    | some d =>
      dsimp only
      cases hv : d.veraz with
      | false =>
        simp only [Bool.false_eq_true, if_false]
        exact ih
      | true =>
        simp only [if_true, List.find?_cons]
        cases ht : d.texto with
        | none =>
          have hd : decideCampo d = true := by
            unfold decideCampo
            rw [ht]
          simp only [hd, ht]
          rfl
        | some valor =>
          by_cases hf : formaCampo (trim valor) = true
          · have hd : decideCampo d = true := by
              unfold decideCampo
              rw [ht]
              exact hf
            simp only [hd, ht, hf, if_true]
            rfl
          · have hd : decideCampo d = false := by
              unfold decideCampo
              rw [ht]
              simpa using hf
            simp only [hd, hf]
            exact ih

theorem normalizarCedula_objeto (x : Str) (campos : List (Str × Dato))
    (hx : jsonParse (trim x) = some (.obj campos)) :
    normalizarCedula x =
      match valorDevuelto (probarCampos campos campoPosibles) with
      | some v => v
      | none => pasosTexto (trim x) := by
  have hne : x ≠ [] := by
    intro h0
    have hvacio : jsonParse (trim []) = none := by decide
    rw [h0, hvacio] at hx
    cases hx
  have hj : intentoJson (trim x) = probarCampos campos campoPosibles := by
    unfold intentoJson
    rw [hx]
  unfold normalizarCedula cuerpoNormalizar
  rw [if_neg hne]
  simp only [hj]
  cases hp : probarCampos campos campoPosibles with
  | error e => rfl
  | ok r => cases r <;> rfl

/-- C11, counterexample. The text `{"cedula":false,"id":"12345"}` parses as an object
whose first candidate field `cedula` is present with the value `false`, and `false`
matches `[\w-]{3,20}`; the code skips the field because the value is falsy and returns
the field `id`. -/
theorem normalizarCedula_salta_campo_falso :
    jsonParse (trim "\x7b\"cedula\":false,\"id\":\"12345\"\x7d".toList) =
      some (.obj [("cedula".toList, ⟨false, some "false".toList⟩),
                  ("id".toList, ⟨true, some "12345".toList⟩)]) ∧
    primerCampoPresente [("cedula".toList, ⟨false, some "false".toList⟩),
                         ("id".toList, ⟨true, some "12345".toList⟩)] = some "false".toList ∧
    normalizarCedula "\x7b\"cedula\":false,\"id\":\"12345\"\x7d".toList = "12345".toList := by
  decide

/-- C11, amended. For every input that parses (after trimming) as a JSON object, step 1
of `normalizarCedula` goes through the candidate fields in order and looks only at those
whose value is truthy (not `false`, `null`, `0` or `""`). The first of them whose trimmed
text matches `[\w-]{3,20}`, or whose value has no text (`String(...)` throws for an object
with an own property `toString` and for an array with such an element), decides: in the
first case its trimmed text is returned, whatever the text patterns would extract; in the
second case, and when no field decides, the text steps run on the trimmed input. In
particular `{"cedula":"9-234-567"}` gives `9-234-567`, and
`{"cedula":{"toString":1},"id":"12345"}` gives `cedula`, which the generic pattern
extracts, not the field `id`. -/
theorem normalizarCedula_campo_json (x : Str) (campos : List (Str × Dato))
    (hx : jsonParse (trim x) = some (.obj campos)) :
    (∀ v, primerCampoValido campos = some v → normalizarCedula x = v) ∧
    (primerCampoValido campos = none → normalizarCedula x = pasosTexto (trim x)) ∧
    normalizarCedula "\x7b\"cedula\":\"9-234-567\"\x7d".toList = "9-234-567".toList ∧
    normalizarCedula "\x7b\"cedula\": \"9-234-567\"\x7d".toList = "9-234-567".toList ∧
    normalizarCedula "\x7b\"cedula\":\x7b\"toString\":1\x7d,\"id\":\"12345\"\x7d".toList =
      "cedula".toList ∧
    normalizarCedula "\x7b\"cedula\":[\x7b\"toString\":1\x7d],\"id\":\"12345\"\x7d".toList =
      "cedula".toList ∧
    normalizarCedula "\x7b\"cedula\":\x7b\"a\":1\x7d,\"id\":\"12345\"\x7d".toList =
      "12345".toList := by
  have h := normalizarCedula_objeto x campos hx
  rw [probarCampos_valido] at h
  refine ⟨?_, ?_, by decide, by decide, by decide, by decide, by decide⟩
  · intro v hv
    rw [h, hv]
  · intro hv
    rw [h, hv]

/-- C11, amended, at concrete inputs: an object whose first candidate field is falsy and
whose field `id` qualifies, and an object whose first candidate field has no text. -/
theorem normalizarCedula_campo_json_witness :
    jsonParse (trim "\x7b\"cedula\":false,\"id\":\"12345\"\x7d".toList) =
      some (.obj [("cedula".toList, ⟨false, some "false".toList⟩),
                  ("id".toList, ⟨true, some "12345".toList⟩)]) ∧
    primerCampoValido [("cedula".toList, ⟨false, some "false".toList⟩),
                       ("id".toList, ⟨true, some "12345".toList⟩)] = some "12345".toList ∧
    normalizarCedula "\x7b\"cedula\":false,\"id\":\"12345\"\x7d".toList = "12345".toList ∧
    jsonParse (trim "\x7b\"cedula\":\x7b\"toString\":1\x7d,\"id\":\"12345\"\x7d".toList) =
      some (.obj [("cedula".toList, ⟨true, none⟩),
                  ("id".toList, ⟨true, some "12345".toList⟩)]) ∧
    primerCampoValido [("cedula".toList, ⟨true, none⟩),
                       ("id".toList, ⟨true, some "12345".toList⟩)] = none :=
  ⟨by decide, by decide,
    (normalizarCedula_campo_json "\x7b\"cedula\":false,\"id\":\"12345\"\x7d".toList
      [("cedula".toList, ⟨false, some "false".toList⟩),
       ("id".toList, ⟨true, some "12345".toList⟩)]
      (by decide)).1 _ (by decide), by decide, by decide⟩

/-! ## C12: the QR label -/

theorem tramo_todo_none (p : Char → Bool) (s : Str) (hs : ∀ c ∈ s, p c = true) :
    tramo p none s = s.length := by
  induction s with
  | nil => rfl
  | cons x xs ih =>
    simp only [tramo, hs x (List.mem_cons_self _ _), if_true, Option.map_none',
      List.length_cons]
    rw [ih (fun c hc => hs c (List.mem_cons_of_mem _ hc))]

theorem tramo_hasta (p : Char → Bool) (a : Str) (d : Char) (resto : Str)
    (ha : ∀ c ∈ a, p c = true) (hd : p d = false) (max : Option Nat)
    (hmax : ∀ m, max = some m → a.length ≤ m) :
    tramo p max (a ++ d :: resto) = a.length := by
  induction a generalizing max with
  | nil =>
    cases max with
    | none => simp [tramo, hd]
    | some m => cases m <;> simp [tramo, hd]
  | cons x xs ih =>
    have hx : p x = true := ha x (List.mem_cons_self _ _)
    cases max with
    | none =>
      simp only [List.cons_append, tramo, hx, if_true, Option.map_none', List.length_cons]
      exact congrArg (· + 1)
        (ih (fun c hc => ha c (List.mem_cons_of_mem _ hc)) none (fun m hm => by cases hm))
    | some m =>
      cases m with
      | zero => exact absurd (hmax 0 rfl) (by simp)
      | succ m =>
        simp only [List.cons_append, tramo, hx, if_true, Option.map_some', Nat.add_sub_cancel,
          List.length_cons]
        exact congrArg (· + 1)
          (ih (fun c hc => ha c (List.mem_cons_of_mem _ hc)) (some m) (fun m2 hm2 => by
            cases hm2
            have := hmax (m + 1) rfl
            simp only [List.length_cons] at this
            omega))

theorem alfaGuion_no_espacio (c : Char) (h : esAlfaGuion c = true) : esEspacio c = false := by
  have hr : (65 ≤ c.toNat ∧ c.toNat ≤ 90) ∨ (97 ≤ c.toNat ∧ c.toNat ≤ 122) ∨
      (48 ≤ c.toNat ∧ c.toNat ≤ 57) ∨ c.toNat = 45 := by
    simp only [esAlfaGuion, esLetra, esMayuscula, esMinuscula, esDigito, Bool.or_eq_true,
      Bool.and_eq_true, decide_eq_true_eq, beq_iff_eq] at h
    rcases h with ((h | h) | h) | h
    · exact Or.inl h
    · exact Or.inr (Or.inl h)
    · exact Or.inr (Or.inr (Or.inl h))
    · rw [h]
      exact Or.inr (Or.inr (Or.inr rfl))
  unfold esEspacio
  simp only [Bool.or_eq_false_iff, Bool.and_eq_false_iff, decide_eq_false_iff_not,
    beq_eq_false_iff_ne, ne_eq]
  omega

theorem alfaGuion_es_palabraGuion (c : Char) (h : esAlfaGuion c = true) :
    esPalabraGuion c = true := by
  simp only [esAlfaGuion, Bool.or_eq_true, beq_iff_eq] at h
  simp only [esPalabraGuion, esPalabra, Bool.or_eq_true, beq_iff_eq]
  rcases h with (h | h) | h
  · exact Or.inl (Or.inl (Or.inl h))
  · exact Or.inl (Or.inl (Or.inr h))
  · exact Or.inr h

theorem trim_extremos (c : Char) (cs : Str) (hc : esEspacio c = false)
    (hl : ∀ z, (c :: cs).getLast? = some z → esEspacio z = false) :
    trim (c :: cs) = c :: cs := by
  unfold trim
  have h1 : (c :: cs).dropWhile esEspacio = c :: cs := by simp [List.dropWhile, hc]
  rw [h1]
  cases hr : (c :: cs).reverse with
  | nil => simp at hr
  | cons z zs =>
    have hz : (c :: cs).getLast? = some z := by
      rw [List.getLast?_eq_head?_reverse, hr]
      rfl
    have h2 : (z :: zs).dropWhile esEspacio = z :: zs := by simp [List.dropWhile, hl z hz]
    rw [h2, ← hr, List.reverse_reverse]

theorem qr_coincide (T : Str) (hT : ∀ c ∈ T, esAlfaGuion c = true) (hne : T ≠ []) :
    buscar patronQR ("Texto - ".toList ++ T) = some T := by
  obtain ⟨t, ts, rfl⟩ := List.exists_cons_of_ne_nil hne
  have ht : esEspacio t = false := alfaGuion_no_espacio t (hT t (List.mem_cons_self _ _))
  have hpg : ∀ c ∈ t :: ts, esPalabraGuion c = true :=
    fun c hc => alfaGuion_es_palabraGuion c (hT c hc)
  have hp : patronQR = [.clase (letraCI 't'), .clase (letraCI 'e'), .clase (letraCI 'x'),
      .clase (letraCI 't'), .clase (letraCI 'o'), .rep esEspacio 0 none, .clase (· == '-'),
      .rep esEspacio 0 none, .abre, .rep esPalabraGuion 1 none, .cierra] := rfl
  have hx : "Texto - ".toList ++ (t :: ts) =
      'T' :: 'e' :: 'x' :: 't' :: 'o' :: ' ' :: '-' :: ' ' :: t :: ts := rfl
  have h4 : ∀ prev, coincidir [.abre, .rep esPalabraGuion 1 none, .cierra] prev (t :: ts) false
      [] = some (t :: ts) := by
    intro prev
    simp only [coincidir]
    rw [tramo_todo_none esPalabraGuion (t :: ts) hpg, if_neg (by simp)]
    apply retroceder_cima
    simp [coincidir]
  have h3 : coincidir [.rep esEspacio 0 none, .abre, .rep esPalabraGuion 1 none, .cierra]
      (some '-') (' ' :: t :: ts) false [] = some (t :: ts) := by
    have htr : tramo esEspacio none (' ' :: t :: ts) = 1 :=
      tramo_hasta esEspacio [' '] t ts (by decide) ht none (fun m hm => by cases hm)
    rw [coincidir, htr]
    simp only [Nat.not_lt_zero, if_false]
    apply retroceder_cima
    simp only [List.take_succ_cons, List.take_zero, List.drop_succ_cons, List.drop_zero,
      Bool.false_eq_true, if_false]
    exact h4 _
  have h1 : coincidir [.rep esEspacio 0 none, .clase (· == '-'), .rep esEspacio 0 none, .abre,
      .rep esPalabraGuion 1 none, .cierra] (some 'o') (' ' :: '-' :: ' ' :: t :: ts) false [] =
      some (t :: ts) := by
    have htr : tramo esEspacio none (' ' :: '-' :: ' ' :: t :: ts) = 1 :=
      tramo_hasta esEspacio [' '] '-' (' ' :: t :: ts) (by decide) (by decide) none
        (fun m hm => by cases hm)
    rw [coincidir, htr]
    simp only [Nat.not_lt_zero, if_false]
    apply retroceder_cima
    simp only [List.take_succ_cons, List.take_zero, List.drop_succ_cons, List.drop_zero,
      Bool.false_eq_true, if_false]
    rw [coincidir]
    simp only [beq_self_eq_true, if_true, Bool.false_eq_true, if_false]
    exact h3
  unfold buscar
  rw [hx, hp, buscarDesde]
  have h0 : coincidir [.clase (letraCI 't'), .clase (letraCI 'e'), .clase (letraCI 'x'),
      .clase (letraCI 't'), .clase (letraCI 'o'), .rep esEspacio 0 none, .clase (· == '-'),
      .rep esEspacio 0 none, .abre, .rep esPalabraGuion 1 none, .cierra] none
      ('T' :: 'e' :: 'x' :: 't' :: 'o' :: ' ' :: '-' :: ' ' :: t :: ts) false [] =
      some (t :: ts) := by
    have e1 : letraCI 't' 'T' = true := by decide
    have e2 : letraCI 'e' 'e' = true := by decide
    have e3 : letraCI 'x' 'x' = true := by decide
    have e4 : letraCI 't' 't' = true := by decide
    have e5 : letraCI 'o' 'o' = true := by decide
    rw [coincidir, if_pos e1, coincidir, if_pos e2, coincidir, if_pos e3, coincidir, if_pos e4,
      coincidir, if_pos e5]
    simp only [Bool.false_eq_true, if_false]
    exact h1
  rw [h0]


theorem extraer_primero (p : List Nodo) (ps : List (List Nodo)) (s r : Str)
    (hb : buscar p s = some r) (hr : r ≠ []) (hf : formaRazonable (sinEspacios r) = true) :
    extraerPorPatron (p :: ps) s = some (sinEspacios r) := by
  unfold extraerPorPatron
  rw [hb]
  simp [hr, hf]

theorem extraer_salta (p : List Nodo) (ps : List (List Nodo)) (s : Str)
    (hb : buscar p s = none) : extraerPorPatron (p :: ps) s = extraerPorPatron ps s := by
  rw [extraerPorPatron, hb]

theorem json_cabeza_T (r : Str) : intentoJson ('T' :: r) = .error .syntaxError := by
  have hp : jsonParse ('T' :: r) = none := by
    unfold jsonParse
    simp [pValor, saltar, esBlancoJson, esDigito]
  unfold intentoJson
  rw [hp]

/-- C12. For every token `T` of 3 to 20 characters drawn from the ASCII letters, the
digits and the hyphen, `normalizarCedula("Texto - " + T) = T`; in particular
`Texto - PE-456-789` gives `PE-456-789`. -/
theorem normalizarCedula_etiqueta_QR (T : Str) (hT : ∀ c ∈ T, esAlfaGuion c = true)
    (h3 : 3 ≤ T.length) (h20 : T.length ≤ 20) :
    normalizarCedula ("Texto - ".toList ++ T) = T ∧
    normalizarCedula "Texto - PE-456-789".toList = "PE-456-789".toList := by
  refine ⟨?_, by decide⟩
  have hne : T ≠ [] := by
    intro h0
    rw [h0] at h3
    simp at h3
  have hx : "Texto - ".toList ++ T = 'T' :: ("exto - ".toList ++ T) := rfl
  have hesp : ∀ c ∈ T, esEspacio c = false := fun c hc => alfaGuion_no_espacio c (hT c hc)
  have htrim : trim ('T' :: ("exto - ".toList ++ T)) = 'T' :: ("exto - ".toList ++ T) := by
    apply trim_extremos _ _ (by decide)
    intro z hz
    have hz2 : T.getLast? = some z := by
      rw [← hx, List.getLast?_append_of_ne_nil _ hne] at hz
      exact hz
    exact hesp z (List.mem_of_getLast?_eq_some hz2)
  have hforma : formaRazonable T = true := by
    unfold formaRazonable
    simp only [Bool.and_eq_true, List.all_eq_true, decide_eq_true_eq]
    exact ⟨⟨hT, h3⟩, h20⟩
  have hpasos : pasosTexto ('T' :: ("exto - ".toList ++ T)) = T := by
    unfold pasosTexto
    have hb := qr_coincide T hT hne
    rw [hx] at hb
    have hf : formaRazonable (sinEspacios T) = true := by rw [sinEspacios_nada T hesp, hforma]
    rw [patronesCedula, extraer_primero _ _ _ T hb hne hf, sinEspacios_nada T hesp]
  rw [hx]
  unfold normalizarCedula cuerpoNormalizar
  rw [if_neg (by simp)]
  simp only [htrim, json_cabeza_T, hpasos]

/-- C12 at a concrete input: the token `PE-456-789`. -/
theorem normalizarCedula_etiqueta_QR_witness :
    (∀ c ∈ "PE-456-789".toList, esAlfaGuion c = true) ∧ 3 ≤ "PE-456-789".toList.length ∧
    "PE-456-789".toList.length ≤ 20 ∧
    normalizarCedula ("Texto - ".toList ++ "PE-456-789".toList) = "PE-456-789".toList :=
  ⟨by decide, by decide, by decide,
    (normalizarCedula_etiqueta_QR "PE-456-789".toList (by decide) (by decide) (by decide)).1⟩

/-! ## C13: hyphenated national-id strings -/

theorem digitoGuion_no_letraCI (l c : Char) (hl : 90 ≤ l.toNat) (h : esDigitoGuion c = true) :
    letraCI l c = false := by
  have hr : (48 ≤ c.toNat ∧ c.toNat ≤ 57) ∨ c.toNat = 45 := by
    simp only [esDigitoGuion, esDigito, Bool.or_eq_true, Bool.and_eq_true, decide_eq_true_eq,
      beq_iff_eq] at h
    rcases h with h | h
    · exact Or.inl h
    · rw [h]
      exact Or.inr rfl
  unfold letraCI
  have ha : (c == l) = false := by
    cases heq : (c == l) with
    | false => rfl
    | true =>
      have : c = l := by simpa using heq
      rw [this] at hr
      omega
  have hb : (c.toNat + 32 == l.toNat) = false := by
    cases heq : (c.toNat + 32 == l.toNat) with
    | false => rfl
    | true =>
      have : c.toNat + 32 = l.toNat := by simpa using heq
      omega
  rw [ha, hb]
  rfl

theorem guiones_sin_QR : sinSalida esDigitoGuion patronQR :=
  Or.inl (fun c h => digitoGuion_no_letraCI 't' c (by decide) h)

theorem guiones_sin_cedula : sinSalida esDigitoGuion patronCedula :=
  Or.inl (fun c h => digitoGuion_no_letraCI 'c' c (by decide) h)

theorem guiones_sin_ID : sinSalida esDigitoGuion patronID :=
  Or.inl (fun c h => digitoGuion_no_letraCI 'i' c (by decide) h)

theorem guiones_sin_DNI : sinSalida esDigitoGuion patronDNI :=
  Or.inl (fun c h => digitoGuion_no_letraCI 'd' c (by decide) h)

theorem guiones_sin_doc : sinSalida esDigitoGuion patronDoc :=
  Or.inl (fun c h => digitoGuion_no_letraCI 'd' c (by decide) h)

theorem guiones_sin_VE : sinSalida esDigitoGuion patronVE :=
  Or.inl (fun c h => by
    unfold esVE
    rw [digitoGuion_no_letraCI 'v' c (by decide) h, digitoGuion_no_letraCI 'e' c (by decide) h]
    rfl)

theorem panama_coincide (a b c : Str) (ha : ∀ x ∈ a, esDigito x = true)
    (hb : ∀ x ∈ b, esDigito x = true) (hc : ∀ x ∈ c, esDigito x = true)
    (ha1 : 1 ≤ a.length) (ha2 : a.length ≤ 2) (hb1 : 3 ≤ b.length) (hb2 : b.length ≤ 4)
    (hc1 : 3 ≤ c.length) (hc2 : c.length ≤ 6) :
    buscar patronPanama (a ++ '-' :: (b ++ '-' :: c)) = some (a ++ '-' :: (b ++ '-' :: c)) := by
  have hg : esDigito '-' = false := by decide
  have hcne : c ≠ [] := by
    intro h0
    rw [h0] at hc1
    simp at hc1
  have hane : a ≠ [] := by
    intro h0
    rw [h0] at ha1
    simp at ha1
  have h3 : ∀ acc, coincidir [.rep esDigito 3 (some 6), .cierra, .borde] (some '-') c true acc =
      some (acc.reverse ++ c) := by
    intro acc
    rw [coincidir, tramo_todo_corto esDigito c hc 6 hc2]
    simp only [if_neg (Nat.not_lt.mpr hc1)]
    apply retroceder_cima
    obtain ⟨z, hz, hzp⟩ := previoTras_palabra (some '-') c hcne
      (fun x hx => digito_es_palabra x (hc x hx))
    have hb2 : esBorde (some z) [] = true := by simp [esBorde, hzp]
    simp only [List.take_length, List.drop_length, hz, coincidir, hb2, if_true,
      List.reverse_append, List.reverse_reverse]
  have h2 : ∀ prev acc, coincidir [.rep esDigito 3 (some 4), .clase (· == '-'),
      .rep esDigito 3 (some 6), .cierra, .borde] prev (b ++ '-' :: c) true acc =
      some (acc.reverse ++ (b ++ '-' :: c)) := by
    intro prev acc
    rw [coincidir, tramo_hasta esDigito b '-' c hb hg (some 4)
      (fun m hm => by cases hm; exact hb2)]
    simp only [if_neg (Nat.not_lt.mpr hb1)]
    apply retroceder_cima
    simp only [List.take_left, List.drop_left, if_true]
    rw [coincidir]
    simp only [beq_self_eq_true, if_true]
    rw [h3]
    simp
  have h1 : coincidir patronPanama none (a ++ '-' :: (b ++ '-' :: c)) false [] =
      some (a ++ '-' :: (b ++ '-' :: c)) := by
    obtain ⟨x, xs, rfl⟩ := List.exists_cons_of_ne_nil hane
    have hbor : esBorde none (x :: xs ++ '-' :: (b ++ '-' :: c)) = true := by
      simp [esBorde, digito_es_palabra x (ha x (List.mem_cons_self _ _))]
    rw [patronPanama, coincidir, if_pos hbor, coincidir, coincidir,
      tramo_hasta esDigito (x :: xs) '-' (b ++ '-' :: c) ha hg (some 2)
        (fun m hm => by cases hm; exact ha2)]
    simp only [if_neg (Nat.not_lt.mpr ha1)]
    apply retroceder_cima
    simp only [List.take_left, List.drop_left, if_true]
    rw [coincidir]
    simp only [beq_self_eq_true, if_true]
    rw [h2]
    simp
  obtain ⟨x, xs, rfl⟩ := List.exists_cons_of_ne_nil hane
  unfold buscar
  rw [List.cons_append, buscarDesde]
  rw [List.cons_append] at h1
  rw [h1]

theorem json_cabeza_digito (c : Char) (r : Str) (hc : esDigito c = true) :
    (∃ e, intentoJson (c :: r) = .error e) ∨ intentoJson (c :: r) = .ok none := by
  have hp : jsonParse (c :: r) = none ∨ ∃ n, jsonParse (c :: r) = some (.num n) := by
    unfold jsonParse
    rw [List.length_cons, pValor_digito _ c r hc]
    cases hn : pNumero (c :: r) with
    | none => exact Or.inl rfl
    | some vr =>
      obtain ⟨v, r2⟩ := vr
      obtain ⟨n, rfl⟩ := pNumero_num (c :: r) v r2 hn
      dsimp only
      split_ifs
      · exact Or.inr ⟨n, rfl⟩
      · exact Or.inl rfl
  unfold intentoJson
  rcases hp with h | ⟨n, h⟩ <;> rw [h]
  · exact Or.inl ⟨_, rfl⟩
  · exact Or.inr rfl

theorem normalizarCedula_sin_json (x : Str) (hne : x ≠ [])
    (hj : (∃ e, intentoJson (trim x) = .error e) ∨ intentoJson (trim x) = .ok none) :
    normalizarCedula x = pasosTexto (trim x) := by
  unfold normalizarCedula cuerpoNormalizar
  rw [if_neg hne]
  rcases hj with ⟨e, h⟩ | h <;> simp only [h]

theorem panama_punto_fijo (a b c : Str) (ha : ∀ x ∈ a, esDigito x = true)
    (hb : ∀ x ∈ b, esDigito x = true) (hc : ∀ x ∈ c, esDigito x = true)
    (ha1 : 1 ≤ a.length) (ha2 : a.length ≤ 2) (hb1 : 3 ≤ b.length) (hb2 : b.length ≤ 4)
    (hc1 : 3 ≤ c.length) (hc2 : c.length ≤ 6) :
    normalizarCedula (a ++ '-' :: (b ++ '-' :: c)) = a ++ '-' :: (b ++ '-' :: c) := by
  have hcne : c ≠ [] := by
    intro h0
    rw [h0] at hc1
    simp at hc1
  have hdg : ∀ x ∈ a ++ '-' :: (b ++ '-' :: c), esDigitoGuion x = true := by
    intro x hx
    simp only [List.mem_append, List.mem_cons] at hx
    rcases hx with h | h | h | h | h
    · simp [esDigitoGuion, ha x h]
    · rw [h]; decide
    · simp [esDigitoGuion, hb x h]
    · rw [h]; decide
    · simp [esDigitoGuion, hc x h]
  have hag : ∀ x ∈ a ++ '-' :: (b ++ '-' :: c), esAlfaGuion x = true := by
    intro x hx
    have := hdg x hx
    simp only [esDigitoGuion, Bool.or_eq_true] at this
    simp only [esAlfaGuion, Bool.or_eq_true]
    rcases this with h | h
    · exact Or.inl (Or.inr h)
    · exact Or.inr h
  have hesp : ∀ x ∈ a ++ '-' :: (b ++ '-' :: c), esEspacio x = false :=
    fun x hx => alfaGuion_no_espacio x (hag x hx)
  have hpan := panama_coincide a b c ha hb hc ha1 ha2 hb1 hb2 hc1 hc2
  have hforma : formaRazonable (a ++ '-' :: (b ++ '-' :: c)) = true := by
    unfold formaRazonable
    simp only [Bool.and_eq_true, List.all_eq_true, decide_eq_true_eq]
    refine ⟨⟨hag, ?_⟩, ?_⟩ <;> simp only [List.length_append, List.length_cons] <;> omega
  obtain ⟨x, xs, rfl⟩ : ∃ x xs, a = x :: xs := by
    cases a with
    | nil => simp at ha1
    | cons x xs => exact ⟨x, xs, rfl⟩
  have hxd : esDigito x = true := ha x (List.mem_cons_self _ _)
  have htrim : trim (x :: xs ++ '-' :: (b ++ '-' :: c)) = x :: xs ++ '-' :: (b ++ '-' :: c) := by
    rw [List.cons_append]
    apply trim_extremos _ _ (digito_no_espacio x hxd)
    intro z hz
    rw [← List.cons_append] at hz
    exact hesp z (List.mem_of_getLast?_eq_some hz)
  have hne : x :: xs ++ '-' :: (b ++ '-' :: c) ≠ [] := by simp
  have hsin : sinEspacios (x :: xs ++ '-' :: (b ++ '-' :: c)) =
      x :: xs ++ '-' :: (b ++ '-' :: c) := sinEspacios_nada _ hesp
  rw [normalizarCedula_sin_json _ hne (by
    rw [htrim, List.cons_append]
    exact json_cabeza_digito x _ hxd), htrim]
  unfold pasosTexto
  rw [patronesCedula,
    extraer_salta _ _ _ (buscar_sinSalida esDigitoGuion _ guiones_sin_QR _ hdg),
    extraer_salta _ _ _ (buscar_sinSalida esDigitoGuion _ guiones_sin_cedula _ hdg),
    extraer_salta _ _ _ (buscar_sinSalida esDigitoGuion _ guiones_sin_ID _ hdg),
    extraer_salta _ _ _ (buscar_sinSalida esDigitoGuion _ guiones_sin_DNI _ hdg),
    extraer_salta _ _ _ (buscar_sinSalida esDigitoGuion _ guiones_sin_doc _ hdg),
    extraer_salta _ _ _ (buscar_sinSalida esDigitoGuion _ guiones_sin_VE _ hdg),
    extraer_primero _ _ _ _ hpan hne (by rw [hsin]; exact hforma), hsin]

/-- C13. Every string of the shape 1 to 2 digits, `-`, 3 to 4 digits, `-`, 3 to 6 digits
is returned unchanged by `normalizarCedula`; in particular `8-123-456`. -/
theorem normalizarCedula_fija_forma_panama (a b c : Str) (ha : ∀ x ∈ a, esDigito x = true)
    (hb : ∀ x ∈ b, esDigito x = true) (hc : ∀ x ∈ c, esDigito x = true)
    (ha1 : 1 ≤ a.length) (ha2 : a.length ≤ 2) (hb1 : 3 ≤ b.length) (hb2 : b.length ≤ 4)
    (hc1 : 3 ≤ c.length) (hc2 : c.length ≤ 6) :
    normalizarCedula (a ++ '-' :: (b ++ '-' :: c)) = a ++ '-' :: (b ++ '-' :: c) ∧
    normalizarCedula "8-123-456".toList = "8-123-456".toList :=
  ⟨panama_punto_fijo a b c ha hb hc ha1 ha2 hb1 hb2 hc1 hc2, by decide⟩

/-- C13 at a concrete input: the string `8-123-456`. -/
theorem normalizarCedula_fija_forma_panama_witness :
    (∀ x ∈ "8".toList, esDigito x = true) ∧ (∀ x ∈ "123".toList, esDigito x = true) ∧
    (∀ x ∈ "456".toList, esDigito x = true) ∧
    normalizarCedula ("8".toList ++ '-' :: ("123".toList ++ '-' :: "456".toList)) =
      "8".toList ++ '-' :: ("123".toList ++ '-' :: "456".toList) :=
  ⟨by decide, by decide, by decide,
    (normalizarCedula_fija_forma_panama "8".toList "123".toList "456".toList (by decide)
      (by decide) (by decide) (by decide) (by decide) (by decide) (by decide) (by decide)
      (by decide)).1⟩

/-! ## C14: rejected requests -/

/-- C14. A request without parameter object, or whose `cedulas` is missing, not an array
or an empty array, is rejected whatever its `tipo`: the result has `success = false`,
`totalEvacuadas = 0` and an empty `personasEvacuadas`, and the state (ledger, notes, audit
logs, guard) is left as it was. -/
theorem unificada_rechaza_peticion_invalida (E : Entorno) (w : Mundo) (tipo operador : Option Str)
    (timestamp : Option Int) (notas : Option Str) :
    ((procesarEvacuacionUnificada E w none).1.success = false ∧
      (procesarEvacuacionUnificada E w none).1.totalEvacuadas = 0 ∧
      (procesarEvacuacionUnificada E w none).1.personasEvacuadas = [] ∧
      (procesarEvacuacionUnificada E w none).2 = w) ∧
    ((procesarEvacuacionUnificada E w
        (some ⟨.ausente, tipo, operador, timestamp, notas⟩)).1.success = false ∧
      (procesarEvacuacionUnificada E w
        (some ⟨.ausente, tipo, operador, timestamp, notas⟩)).1.totalEvacuadas = 0 ∧
      (procesarEvacuacionUnificada E w
        (some ⟨.ausente, tipo, operador, timestamp, notas⟩)).1.personasEvacuadas = [] ∧
      (procesarEvacuacionUnificada E w
        (some ⟨.ausente, tipo, operador, timestamp, notas⟩)).2 = w) ∧
    ((procesarEvacuacionUnificada E w
        (some ⟨.noArreglo, tipo, operador, timestamp, notas⟩)).1.success = false ∧
      (procesarEvacuacionUnificada E w
        (some ⟨.noArreglo, tipo, operador, timestamp, notas⟩)).1.totalEvacuadas = 0 ∧
      (procesarEvacuacionUnificada E w
        (some ⟨.noArreglo, tipo, operador, timestamp, notas⟩)).1.personasEvacuadas = [] ∧
      (procesarEvacuacionUnificada E w
        (some ⟨.noArreglo, tipo, operador, timestamp, notas⟩)).2 = w) ∧
    ((procesarEvacuacionUnificada E w
        (some ⟨.arreglo [], tipo, operador, timestamp, notas⟩)).1.success = false ∧
      (procesarEvacuacionUnificada E w
        (some ⟨.arreglo [], tipo, operador, timestamp, notas⟩)).1.totalEvacuadas = 0 ∧
      (procesarEvacuacionUnificada E w
        (some ⟨.arreglo [], tipo, operador, timestamp, notas⟩)).1.personasEvacuadas = [] ∧
      (procesarEvacuacionUnificada E w
        (some ⟨.arreglo [], tipo, operador, timestamp, notas⟩)).2 = w) :=
  ⟨⟨rfl, rfl, rfl, rfl⟩, ⟨rfl, rfl, rfl, rfl⟩, ⟨rfl, rfl, rfl, rfl⟩, ⟨rfl, rfl, rfl, rfl⟩⟩

/-! ## C15: repeated targets -/

theorem buscarAbierta_isSome (E : Entorno) (ind : Indices) (cedula : Str) (rows : List Fila) :
    (buscarAbierta E ind cedula rows).isSome =
      rows.any (fun r => mismaCedula (cedulaDeFila E ind r) cedula && filaAbierta ind r) := by
  induction rows with
  | nil => rfl
  | cons r rs ih =>
    unfold buscarAbierta
    rw [List.any_cons]
    by_cases h : (mismaCedula (cedulaDeFila E ind r) cedula && filaAbierta ind r) = true
    · rw [if_pos h, h]
      rfl
    · rw [if_neg h, ih]
      simp only [Bool.not_eq_true] at h
      rw [h]
      rfl

theorem buscarAbierta_tieneAbierta (E : Entorno) (h : Hoja) (cedula : Str) :
    (buscarAbierta E (mapearIndicesColumnas E h.encabezado) cedula h.filas.reverse).isSome =
      tieneAbierta E h cedula := by
  rw [buscarAbierta_isSome]
  unfold tieneAbierta
  rw [Bool.eq_iff_iff]
  simp only [List.any_eq_true, List.mem_reverse]

theorem simular_cuenta (E : Entorno) (h : Hoja) (bd : Option Hoja) (timestamp : Int)
    (notas : Str) (cedulas : List Str) (ps : List PersonaEvacuada) :
    (cedulas.foldl (simularUna E h (mapearIndicesColumnas E h.encabezado) bd timestamp notas)
      ps).length = ps.length + (cedulas.filter (tieneAbierta E h)).length := by
  induction cedulas generalizing ps with
  | nil => simp
  | cons c cs ih =>
    rw [List.foldl_cons, ih, List.filter_cons]
    have hb := buscarAbierta_tieneAbierta E h c
    unfold simularUna
    cases hc : buscarAbierta E (mapearIndicesColumnas E h.encabezado) c h.filas.reverse with
    | none =>
      rw [hc] at hb
      rw [← hb]
      simp
    | some ir =>
      rw [hc] at hb
      rw [← hb]
      simp only [Option.isSome_some, if_true, List.length_append, List.length_cons,
        List.length_nil]
      omega

/-- C15, counterexample. In the scenario ledger `8-1-1` has one open row. Named twice,
as the same string or as `8-1-1` and `ID:8-1-1` (same normalised form), it is resolved
twice to the same ledger row and `totalEvacuadas = 2`, in simulated and in real mode. -/
theorem objetivos_repetidos_no_se_unen :
    normalizarCedula "ID:8-1-1".toList = normalizarCedula "8-1-1".toList ∧
    (procesarEvacuacionUnificada entornoUTC (mundoCon ledgerEscenario)
      (some ⟨.arreglo ["8-1-1".toList, "8-1-1".toList], some "simulacro".toList, none,
        some (hora 17), none⟩)).1.totalEvacuadas = 2 ∧
    (procesarEvacuacionUnificada entornoUTC (mundoCon ledgerEscenario)
      (some ⟨.arreglo ["8-1-1".toList, "ID:8-1-1".toList], some "simulacro".toList, none,
        some (hora 17), none⟩)).1.personasEvacuadas.map (·.filaHistorial) = [2, 2] ∧
    (procesarEvacuacionUnificada entornoUTC (mundoCon ledgerEscenario)
      (some ⟨.arreglo ["8-1-1".toList, "8-1-1".toList], some "real".toList, none,
        some (hora 17), none⟩)).1.totalEvacuadas = 2 ∧
    (procesarEvacuacionUnificada entornoUTC (mundoCon ledgerEscenario)
      (some ⟨.arreglo ["8-1-1".toList, "ID:8-1-1".toList], some "real".toList, none,
        some (hora 17), none⟩)).1.personasEvacuadas.map (·.filaHistorial) = [2, 2] := by
  decide

/-- C15, amended. Targets are not collapsed: every occurrence in the target list of a
target that has an open row in the ledger (as read before the loop) contributes one entry
to the resolved list, so in both modes the resolved list has as many entries as the list
has such occurrences, and `totalEvacuadas` is that number. -/
theorem evacuacion_cuenta_cada_ocurrencia (E : Entorno) (h : Hoja) (notas0 : List Nota)
    (bd : Option Hoja) (cedulas : List Str) (timestamp : Int) (sessionId notas : Str) :
    (procesarSimulacroUnificado E h bd cedulas timestamp sessionId
        notas).personasEvacuadas.length = (cedulas.filter (tieneAbierta E h)).length ∧
    (procesarSimulacroUnificado E h bd cedulas timestamp sessionId notas).totalEvacuadas =
      (cedulas.filter (tieneAbierta E h)).length ∧
    (procesarEvacuacionRealUnificada E h notas0 bd cedulas timestamp
        sessionId).1.personasEvacuadas.length = (cedulas.filter (tieneAbierta E h)).length ∧
    (procesarEvacuacionRealUnificada E h notas0 bd cedulas timestamp
        sessionId).1.totalEvacuadas = (cedulas.filter (tieneAbierta E h)).length := by
  have hsim : (cedulas.foldl (simularUna E h (mapearIndicesColumnas E h.encabezado) bd timestamp
      notas) []).length = (cedulas.filter (tieneAbierta E h)).length := by
    rw [simular_cuenta]
    simp
  have hreal := congrArg List.length (scans_mismo_resumen E h
    (mapearIndicesColumnas E h.encabezado) bd timestamp sessionId notas cedulas
    ⟨h, notas0, []⟩ [] rfl)
  simp only [List.length_map] at hreal
  exact ⟨hsim, hsim, hreal.trans hsim, hreal.trans hsim⟩

/-! ## C16: the audit row of a request -/

theorem unificada_forma (E : Entorno) (w : Mundo) (p : Option Parametros) :
    ((procesarEvacuacionUnificada E w p).2 = w ∧
      (procesarEvacuacionUnificada E w p).1.personasEvacuadas = []) ∨
    ∃ (h : Hoja) (tipo : Str) (cs : List Str) (ts : Int) (notas : Str),
      procesarEvacuacionUnificada E w p =
        (resultadoFinal E
          (registrarYNotificar E (despachar E w h tipo cs ts E.uuid notas).2
            (despachar E w h tipo cs ts E.uuid notas).1 ts tipo E.uuid notas)
          (despachar E w h tipo cs ts E.uuid notas).1 tipo,
         registrarYNotificar E (despachar E w h tipo cs ts E.uuid notas).2
            (despachar E w h tipo cs ts E.uuid notas).1 ts tipo E.uuid notas) := by
  cases p with
  | none => exact Or.inl ⟨rfl, rfl⟩
  | some q =>
    cases hc : q.cedulas with
    | ausente =>
      left
      simp only [procesarEvacuacionUnificada, hc]
      exact ⟨trivial, rfl⟩
    | noArreglo =>
      left
      simp only [procesarEvacuacionUnificada, hc]
      exact ⟨trivial, rfl⟩
    | arreglo l =>
      cases l with
      | nil =>
        left
        simp only [procesarEvacuacionUnificada, hc]
        exact ⟨trivial, rfl⟩
      | cons c cs =>
        cases hh : w.historial with
        | none =>
          left
          simp only [procesarEvacuacionUnificada, hc, hh]
          exact ⟨trivial, rfl⟩
        | some h => exact Or.inr ⟨h, _, _, _, _, unificada_exito E w q c cs h hc hh⟩

theorem despachar_marco (E : Entorno) (w : Mundo) (h : Hoja) (tipo : Str) (cs : List Str)
    (ts : Int) (sid notas : Str) :
    (despachar E w h tipo cs ts sid notas).2.logSimulacros = w.logSimulacros ∧
    (despachar E w h tipo cs ts sid notas).2.logEmergencias = w.logEmergencias ∧
    (despachar E w h tipo cs ts sid notas).2.simulacroEnCurso = w.simulacroEnCurso ∧
    (despachar E w h tipo cs ts sid notas).1.success = true := by
  unfold despachar
  split_ifs <;> exact ⟨rfl, rfl, rfl, rfl⟩

theorem filasLog_conRegistro (hoja : Option Hoja) (fila : Fila) :
    filasLog (some (conRegistro hoja fila)) = filasLog hoja ++ [fila] := by
  cases hoja <;> rfl

theorem registrarYNotificar_guardia (E : Entorno) (w : Mundo) (r : Procesamiento)
    (timestamp : Int) (tipo sessionId notas : Str) :
    (registrarYNotificar E w r timestamp tipo sessionId notas).simulacroEnCurso =
      w.simulacroEnCurso := by
  unfold registrarYNotificar registrarLogEvacuacionUnificado
    enviarNotificacionEvacuacionUnificada
  split_ifs <;> rfl

theorem registrarYNotificar_logs (E : Entorno) (w : Mundo) (r : Procesamiento)
    (timestamp : Int) (tipo sessionId notas : Str) (hs : r.success = true)
    (hne : r.personasEvacuadas ≠ []) :
    (tipo = "simulacro".toList →
      filasLog (registrarYNotificar E w r timestamp tipo sessionId notas).logSimulacros =
        filasLog w.logSimulacros ++
          [registroLog E r.personasEvacuadas timestamp tipo sessionId notas] ∧
      (registrarYNotificar E w r timestamp tipo sessionId notas).logEmergencias =
        w.logEmergencias) ∧
    (tipo ≠ "simulacro".toList →
      filasLog (registrarYNotificar E w r timestamp tipo sessionId notas).logEmergencias =
        filasLog w.logEmergencias ++
          [registroLog E r.personasEvacuadas timestamp tipo sessionId notas] ∧
      (registrarYNotificar E w r timestamp tipo sessionId notas).logSimulacros =
        w.logSimulacros) := by
  have hpos : r.success = true ∧ 0 < r.personasEvacuadas.length :=
    ⟨hs, List.length_pos.mpr hne⟩
  unfold registrarYNotificar
  rw [if_pos hpos]
  unfold registrarLogEvacuacionUnificado enviarNotificacionEvacuacionUnificada
  constructor
  · intro ht
    rw [if_pos ht]
    split_ifs <;> exact ⟨filasLog_conRegistro _ _, rfl⟩
  · intro ht
    rw [if_neg ht]
    split_ifs <;> exact ⟨filasLog_conRegistro _ _, rfl⟩

/-- C16. For every request to `procesarEvacuacionUnificada`: when no person is resolved
(a rejected request included) both audit logs are left as they were; when at least one is
resolved, a run with `tipo` `'simulacro'` appends exactly one row to `Log_Simulacros`, with
event kind `SIMULACRO_EVACUACION`, and leaves `Log_Emergencias` as it was, and a run with
any other `tipo` (a real run) appends exactly one row to `Log_Emergencias`, with event kind
`EVACUACIÓN_EMERGENCIA`, and leaves `Log_Simulacros` as it was. The rows that were in the
log stay in front of the new one, unchanged. In the scenario a simulated and a real run
for `8-1-1` each leave one row in their log. -/
theorem unificada_registra_una_fila_de_auditoria (E : Entorno) (w : Mundo)
    (p : Option Parametros) :
    ((procesarEvacuacionUnificada E w p).1.personasEvacuadas = [] →
      (procesarEvacuacionUnificada E w p).2.logSimulacros = w.logSimulacros ∧
      (procesarEvacuacionUnificada E w p).2.logEmergencias = w.logEmergencias) ∧
    ((procesarEvacuacionUnificada E w p).1.personasEvacuadas ≠ [] →
      (procesarEvacuacionUnificada E w p).1.tipo = "simulacro".toList →
      (∃ fila : Fila,
        filasLog (procesarEvacuacionUnificada E w p).2.logSimulacros =
          filasLog w.logSimulacros ++ [fila] ∧
        leer fila (some 2) = .texto "SIMULACRO_EVACUACION".toList) ∧
      (procesarEvacuacionUnificada E w p).2.logEmergencias = w.logEmergencias) ∧
    ((procesarEvacuacionUnificada E w p).1.personasEvacuadas ≠ [] →
      (procesarEvacuacionUnificada E w p).1.tipo ≠ "simulacro".toList →
      (∃ fila : Fila,
        filasLog (procesarEvacuacionUnificada E w p).2.logEmergencias =
          filasLog w.logEmergencias ++ [fila] ∧
        leer fila (some 2) = .texto "EVACUACIÓN_EMERGENCIA".toList) ∧
      (procesarEvacuacionUnificada E w p).2.logSimulacros = w.logSimulacros) ∧
    (filasLog (procesarEvacuacionUnificada entornoUTC (mundoCon ledgerEscenario)
        (some ⟨.arreglo ["8-1-1".toList], some "simulacro".toList, none, some (hora 17),
          none⟩)).2.logSimulacros).length = 1 ∧
    (filasLog (procesarEvacuacionUnificada entornoUTC (mundoCon ledgerEscenario)
        (some ⟨.arreglo ["8-1-1".toList], some "real".toList, none, some (hora 17),
          none⟩)).2.logEmergencias).length = 1 := by
  refine ⟨?_, ?_, ?_, by decide, by decide⟩
  · intro hv
    rcases unificada_forma E w p with ⟨h2, _⟩ | ⟨h, tipo, cs, ts, notas, heq⟩
    · rw [h2]
      exact ⟨rfl, rfl⟩
    · rw [heq] at hv ⊢
      have hv2 : (despachar E w h tipo cs ts E.uuid notas).1.personasEvacuadas = [] := hv
      have hm := despachar_marco E w h tipo cs ts E.uuid notas
      simp only [registrarYNotificar_vacio _ _ _ _ _ _ _ hv2]
      exact ⟨hm.1, hm.2.1⟩
  · intro hne ht
    rcases unificada_forma E w p with ⟨_, h1⟩ | ⟨h, tipo, cs, ts, notas, heq⟩
    · exact absurd h1 hne
    · rw [heq] at hne ht ⊢
      have hne2 : (despachar E w h tipo cs ts E.uuid notas).1.personasEvacuadas ≠ [] := hne
      have ht2 : tipo = "simulacro".toList := ht
      have hm := despachar_marco E w h tipo cs ts E.uuid notas
      have hl := (registrarYNotificar_logs E (despachar E w h tipo cs ts E.uuid notas).2
        (despachar E w h tipo cs ts E.uuid notas).1 ts tipo E.uuid notas hm.2.2.2 hne2).1 ht2
      refine ⟨⟨registroLog E (despachar E w h tipo cs ts E.uuid notas).1.personasEvacuadas ts
        tipo E.uuid notas, ?_, ?_⟩, ?_⟩
      · exact hl.1.trans (by rw [hm.1])
      · simp only [registroLog, leer, ht2, if_true]
        rfl
      · exact hl.2.trans hm.2.1
  · intro hne ht
    rcases unificada_forma E w p with ⟨_, h1⟩ | ⟨h, tipo, cs, ts, notas, heq⟩
    · exact absurd h1 hne
    · rw [heq] at hne ht ⊢
      have hne2 : (despachar E w h tipo cs ts E.uuid notas).1.personasEvacuadas ≠ [] := hne
      have ht2 : tipo ≠ "simulacro".toList := ht
      have hm := despachar_marco E w h tipo cs ts E.uuid notas
      have hl := (registrarYNotificar_logs E (despachar E w h tipo cs ts E.uuid notas).2
        (despachar E w h tipo cs ts E.uuid notas).1 ts tipo E.uuid notas hm.2.2.2 hne2).2 ht2
      refine ⟨⟨registroLog E (despachar E w h tipo cs ts E.uuid notas).1.personasEvacuadas ts
        tipo E.uuid notas, ?_, ?_⟩, ?_⟩
      · exact hl.1.trans (by rw [hm.2.1])
      · simp only [registroLog, leer, ht2, if_false]
        rfl
      · exact hl.2.trans hm.1

/-! ## C18, C19: the guard around a simulation -/

theorem unificada_guardia (E : Entorno) (w : Mundo) (p : Option Parametros) :
    (procesarEvacuacionUnificada E w p).2.simulacroEnCurso = w.simulacroEnCurso := by
  rcases unificada_forma E w p with ⟨h2, _⟩ | ⟨h, tipo, cs, ts, notas, heq⟩
  · rw [h2]
  · rw [heq]
    exact (registrarYNotificar_guardia E _ _ ts tipo E.uuid notas).trans
      (despachar_marco E w h tipo cs ts E.uuid notas).2.2.1

/-- C18. The function `procesarSimulacroEvacuacion` is its `try`/`finally` frame around the
unified call. The frame hands its body the state with the guard set to true, and whatever
the body does (it returns a success, returns a failure, or throws) the guard is false in
the state the call leaves. Inside, `procesarEvacuacionUnificada` and its steps `despachar`
and `registrarYNotificar` leave the guard as they find it, so it is true during the whole
processing. -/
theorem simulacro_guardia_puesta_y_quitada (E : Entorno) (w : Mundo) (cedulas : ArgCedulas)
    (notas : Str) (cuerpo : Mundo → Except Str Resultado × Mundo) (p : Option Parametros)
    (h : Hoja) (tipo : Str) (cs : List Str) (ts : Int) (sid : Str) (r : Procesamiento) :
    procesarSimulacroEvacuacion E w cedulas notas =
      conProteccionSimulacro E (fun w1 =>
        (.ok (procesarEvacuacionUnificada E w1
            (some ⟨cedulas, some "simulacro".toList, none, none, some notas⟩)).1,
          (procesarEvacuacionUnificada E w1
            (some ⟨cedulas, some "simulacro".toList, none, none, some notas⟩)).2)) w ∧
    (procesarSimulacroEvacuacion E w cedulas notas).2.simulacroEnCurso = false ∧
    (conProteccionSimulacro E cuerpo w).2.simulacroEnCurso = false ∧
    (conProteccionSimulacro E cuerpo w).2 =
      { (cuerpo { w with simulacroEnCurso := true }).2 with simulacroEnCurso := false } ∧
    (procesarEvacuacionUnificada E { w with simulacroEnCurso := true }
      p).2.simulacroEnCurso = true ∧
    (despachar E { w with simulacroEnCurso := true } h tipo cs ts sid
      notas).2.simulacroEnCurso = true ∧
    (registrarYNotificar E { w with simulacroEnCurso := true } r ts tipo sid
      notas).simulacroEnCurso = true :=
  ⟨rfl, rfl, rfl, rfl, unificada_guardia E _ p,
    (despachar_marco E _ h tipo cs ts sid notas).2.2.1,
    registrarYNotificar_guardia E _ r ts tipo sid notas⟩

/-- C19. The unified entry point does not set the guard: on a request with `tipo`
`'simulacro'` the dispatch runs `procesarSimulacroUnificado` in the state it was called in,
and the call leaves the guard as it found it; `procesarEvacuacionConTipo` is the same call.
In the scenario, with the guard false, both direct calls run the simulated path (one
person resolved, event `SIMULACRO`) and the guard is false throughout. -/
theorem simulacro_directo_sin_guardia (E : Entorno) (w : Mundo) (h : Hoja) (cs : List Str)
    (ts : Int) (sid notas : Str) (p : Option Parametros) :
    despachar E w h "simulacro".toList cs ts sid notas =
      (procesarSimulacroUnificado E h w.baseDatos cs ts sid notas, w) ∧
    (procesarEvacuacionUnificada E w p).2.simulacroEnCurso = w.simulacroEnCurso ∧
    procesarEvacuacionConTipo E w p = procesarEvacuacionUnificada E w p ∧
    (mundoCon ledgerEscenario).simulacroEnCurso = false ∧
    (despachar entornoUTC (mundoCon ledgerEscenario) ledgerEscenario "simulacro".toList
      ["8-1-1".toList] (hora 17) "sesion-1".toList []).2.simulacroEnCurso = false ∧
    (procesarEvacuacionConTipo entornoUTC (mundoCon ledgerEscenario)
      (some ⟨.arreglo ["8-1-1".toList], some "simulacro".toList, none, some (hora 17),
        none⟩)).1.tipoEvento = some "SIMULACRO".toList ∧
    (procesarEvacuacionUnificada entornoUTC (mundoCon ledgerEscenario)
      (some ⟨.arreglo ["8-1-1".toList], some "simulacro".toList, none, some (hora 17),
        none⟩)).1.totalEvacuadas = 1 ∧
    (procesarEvacuacionUnificada entornoUTC (mundoCon ledgerEscenario)
      (some ⟨.arreglo ["8-1-1".toList], some "simulacro".toList, none, some (hora 17),
        none⟩)).2.simulacroEnCurso = false :=
  ⟨rfl, unificada_guardia E w p, rfl, rfl, rfl, by decide, by decide, by decide⟩

/-! ## C20: registrarEnHistorial under the guard -/

/-- C20. While the guard is true `registrarEnHistorial` returns the blocked value
(`bloqueadoPorSimulacro = true`, `sinEntradaPrevia = false`) and the sheet it was given is
left as it was, with no row appended and no cell written, for `'entrada'`, for `'salida'`
and for any other `tipo`. -/
theorem registrarEnHistorial_bloqueado (E : Entorno) (w : Mundo) (historialSheet : Hoja)
    (fecha : Int) (resultado : ResultadoAcceso) (tipo : Str)
    (hg : w.simulacroEnCurso = true) :
    (registrarEnHistorial E w historialSheet fecha resultado tipo).2 = historialSheet ∧
    (registrarEnHistorial E w historialSheet fecha resultado tipo).1.bloqueadoPorSimulacro =
      true ∧
    (registrarEnHistorial E w historialSheet fecha resultado tipo).1.sinEntradaPrevia =
      false ∧
    (registrarEnHistorial E w historialSheet fecha resultado "entrada".toList).2 =
      historialSheet ∧
    (registrarEnHistorial E w historialSheet fecha resultado "salida".toList).2 =
      historialSheet := by
  unfold registrarEnHistorial
  simp only [hg, if_true]
  exact ⟨trivial, trivial, trivial, trivial, trivial⟩

/-- Instance of C20: in the scenario with the guard set, the exit of `8-1-1` is refused
and the ledger stays as it was. -/
theorem registrarEnHistorial_bloqueado_witness :
    ({ mundoCon ledgerEscenario with simulacroEnCurso := true } : Mundo).simulacroEnCurso =
      true ∧
    (registrarEnHistorial entornoUTC { mundoCon ledgerEscenario with simulacroEnCurso := true }
      ledgerEscenario (hora 17) ⟨"8-1-1".toList, "Ana".toList, "Acceso Permitido".toList,
        "ACME".toList⟩ "salida".toList).2 = ledgerEscenario :=
  ⟨rfl, (registrarEnHistorial_bloqueado entornoUTC
    { mundoCon ledgerEscenario with simulacroEnCurso := true } ledgerEscenario (hora 17)
    ⟨"8-1-1".toList, "Ana".toList, "Acceso Permitido".toList, "ACME".toList⟩
    "salida".toList rfl).1⟩

/-! ## C17: count and detail of the audit row -/

theorem contiene_nil (s : Str) : contiene [] s = true := by
  cases s <;> rfl

theorem empiezaCon_prefijo (t post : Str) : empiezaCon t (t ++ post) = true := by
  show (t == List.take t.length (t ++ post)) = true
  rw [List.take_left]
  exact beq_self_eq_true t

theorem contiene_prefijo (t post : Str) : contiene t (t ++ post) = true := by
  cases h : t ++ post with
  | nil =>
    have ht : t = [] := (List.append_eq_nil.mp h).1
    rw [ht]
    rfl
  | cons c cs =>
    unfold contiene
    rw [← h, empiezaCon_prefijo]
    rfl

theorem contiene_tras (t pre s : Str) (h : contiene t s = true) :
    contiene t (pre ++ s) = true := by
  induction pre with
  | nil => exact h
  | cons c cs ih =>
    rw [List.cons_append]
    unfold contiene
    rw [ih, Bool.or_true]

theorem unir_mem (f : PersonaEvacuada → Str) (l : List PersonaEvacuada) (x : PersonaEvacuada)
    (hx : x ∈ l) : ∃ pre post : Str, unirPuntoComa (l.map f) = pre ++ (f x ++ post) := by
  induction l with
  | nil => cases hx
  | cons a l ih =>
    cases l with
    | nil =>
      rw [List.mem_singleton] at hx
      exact ⟨[], [], by rw [hx]; simp [unirPuntoComa]⟩
    | cons b bs =>
      rcases List.mem_cons.mp hx with hxa | hxl
      · exact ⟨[], "; ".toList ++ unirPuntoComa ((b :: bs).map f), by
          rw [hxa]; simp [unirPuntoComa]⟩
      · obtain ⟨pre, post, he⟩ := ih hxl
        exact ⟨f a ++ "; ".toList ++ pre, post, by
          show f a ++ "; ".toList ++ unirPuntoComa (List.map f (b :: bs)) = _
          rw [he]
          simp⟩

theorem unir_no_vacio (l : List PersonaEvacuada) (hne : l ≠ []) :
    unirPuntoComa (l.map cedulaNombreLog) ≠ [] := by
  cases l with
  | nil => exact absurd rfl hne
  | cons a l =>
    obtain ⟨pre, post, he⟩ := unir_mem cedulaNombreLog (a :: l) a (List.mem_cons_self a l)
    rw [he]
    unfold cedulaNombreLog
    simp

theorem detallesLog_lista (l : List PersonaEvacuada) (hne : l ≠ []) :
    detallesLog l = unirPuntoComa (l.map cedulaNombreLog) := by
  unfold detallesLog
  rw [if_neg hne]
  exact if_neg (unir_no_vacio l hne)

/-- C17, counterexample. A resolved person with an empty cédula is written `SIN_CEDULA-Ana`
in the detail, not `-Ana`. It arises from the entry point: in a ledger whose open row has
an empty cédula cell, the target `""` resolves that row and the audit row holds
`SIN_CEDULA-Ana`. -/
theorem detalle_con_cedula_vacia :
    leer (registroLog entornoUTC [personaDe "" "Ana"] (hora 17) "simulacro".toList
      "sesion-1".toList []) (some 5) = .texto "SIN_CEDULA-Ana".toList ∧
    unirPuntoComa ([personaDe "" "Ana"].map cedulaNombre) = "-Ana".toList ∧
    (procesarEvacuacionUnificada entornoUTC (mundoCon ledgerSinCedula)
      (some ⟨.arreglo [[]], some "simulacro".toList, none, some (hora 17),
        none⟩)).1.personasEvacuadas.map (fun p => (p.cedula, p.nombre)) =
      [([], "Ana".toList)] ∧
    (filasLog (procesarEvacuacionUnificada entornoUTC (mundoCon ledgerSinCedula)
      (some ⟨.arreglo [[]], some "simulacro".toList, none, some (hora 17),
        none⟩)).2.logSimulacros).map (fun fila => leer fila (some 5)) =
      [.texto "SIN_CEDULA-Ana".toList] := by
  decide

/-- C17, amended. For every non-empty list of resolved persons
`registrarLogEvacuacionUnificado` appends one row to the log of the run's kind; its count
cell is the length of the list and its detail cell is the texts of the persons in list
order joined by `"; "`, where the text of a person is `{cédula}-{name}` with an empty
cédula written `SIN_CEDULA` and an empty name written `SIN_NOMBRE`. When no person has an
empty cédula or name this is the join of the `{cédula}-{name}`, and in every case the
detail contains the cédula of every person. -/
theorem log_cuenta_y_detalle (E : Entorno) (w : Mundo) (personas : List PersonaEvacuada)
    (timestamp : Int) (tipo sessionId notas : Str) (hne : personas ≠ []) :
    (tipo = "simulacro".toList →
      filasLog (registrarLogEvacuacionUnificado E w personas timestamp tipo sessionId
        notas).logSimulacros =
      filasLog w.logSimulacros ++ [registroLog E personas timestamp tipo sessionId notas]) ∧
    (tipo ≠ "simulacro".toList →
      filasLog (registrarLogEvacuacionUnificado E w personas timestamp tipo sessionId
        notas).logEmergencias =
      filasLog w.logEmergencias ++ [registroLog E personas timestamp tipo sessionId notas]) ∧
    leer (registroLog E personas timestamp tipo sessionId notas) (some 4) =
      .numero (.finito false personas.length 0) ∧
    leer (registroLog E personas timestamp tipo sessionId notas) (some 5) =
      .texto (unirPuntoComa (personas.map cedulaNombreLog)) ∧
    ((∀ p ∈ personas, p.cedula ≠ [] ∧ p.nombre ≠ []) →
      unirPuntoComa (personas.map cedulaNombreLog) =
        unirPuntoComa (personas.map cedulaNombre)) ∧
    (∀ p ∈ personas,
      contiene p.cedula (unirPuntoComa (personas.map cedulaNombreLog)) = true) := by
  refine ⟨?_, ?_, rfl, ?_, ?_, ?_⟩
  · intro ht
    unfold registrarLogEvacuacionUnificado
    rw [if_pos ht]
    exact filasLog_conRegistro _ _
  · intro ht
    unfold registrarLogEvacuacionUnificado
    rw [if_neg ht]
    exact filasLog_conRegistro _ _
  · show Celda.texto (detallesLog personas) = _
    rw [detallesLog_lista personas hne]
  · intro hall
    congr 1
    apply List.map_congr_left
    intro p hp
    unfold cedulaNombreLog cedulaNombre oPorDefecto
    rw [if_pos (hall p hp).1, if_pos (hall p hp).2]
  · intro p hp
    obtain ⟨pre, post, he⟩ := unir_mem cedulaNombreLog personas p hp
    rw [he]
    apply contiene_tras
    by_cases hc : p.cedula = []
    · rw [hc]
      exact contiene_nil _
    · have hf : cedulaNombreLog p ++ post =
          p.cedula ++ ('-' :: oPorDefecto p.nombre "SIN_NOMBRE" ++ post) := by
        unfold cedulaNombreLog oPorDefecto
        rw [if_pos hc]
        simp
      rw [hf]
      exact contiene_prefijo _ _

/-- Instance of C17: two resolved persons, logged by a simulated run. -/
theorem log_cuenta_y_detalle_witness :
    [personaDe "8-1-1" "Ana", personaDe "8-3-3" "Eva"] ≠ [] ∧
    leer (registroLog entornoUTC [personaDe "8-1-1" "Ana", personaDe "8-3-3" "Eva"] (hora 17)
      "simulacro".toList "sesion-1".toList []) (some 5) =
      .texto (unirPuntoComa ([personaDe "8-1-1" "Ana", personaDe "8-3-3" "Eva"].map
        cedulaNombreLog)) ∧
    unirPuntoComa ([personaDe "8-1-1" "Ana", personaDe "8-3-3" "Eva"].map cedulaNombreLog) =
      "8-1-1-Ana; 8-3-3-Eva".toList :=
  ⟨by decide, (log_cuenta_y_detalle entornoUTC (mundoCon ledgerEscenario)
    [personaDe "8-1-1" "Ana", personaDe "8-3-3" "Eva"] (hora 17) "simulacro".toList
    "sesion-1".toList [] (by decide)).2.2.2.1, by decide⟩

/-! ## C21: the real path and the guard -/

theorem unificada_sin_leer_guardia (E : Entorno) (w : Mundo) (p : Option Parametros) (g : Bool) :
    (procesarEvacuacionUnificada E { w with simulacroEnCurso := g } p).1 =
      (procesarEvacuacionUnificada E w p).1 ∧
    (procesarEvacuacionUnificada E { w with simulacroEnCurso := g } p).2 =
      { (procesarEvacuacionUnificada E w p).2 with simulacroEnCurso := g } := by
  obtain ⟨hist, bd, ls, le, lerr, nh, nn, g0⟩ := w
  cases p with
  | none => exact ⟨rfl, rfl⟩
  | some q =>
    cases hc : q.cedulas with
    | ausente =>
      simp only [procesarEvacuacionUnificada, hc]
      exact ⟨rfl, trivial⟩
    | noArreglo =>
      simp only [procesarEvacuacionUnificada, hc]
      exact ⟨rfl, trivial⟩
    | arreglo l =>
      cases l with
      | nil =>
        simp only [procesarEvacuacionUnificada, hc]
        exact ⟨rfl, trivial⟩
      | cons c cs =>
        cases hist with
        | none =>
          simp only [procesarEvacuacionUnificada, hc]
          exact ⟨rfl, trivial⟩
        | some h =>
          rw [unificada_exito E _ q c cs h hc rfl, unificada_exito E _ q c cs h hc rfl]
          simp only [despachar, registrarYNotificar, registrarLogEvacuacionUnificado,
            enviarNotificacionEvacuacionUnificada, resultadoFinal]
          split_ifs <;> exact ⟨rfl, rfl⟩

/-- C21, counterexample. With the guard true, a real evacuation of `8-1-1` through
`procesarEvacuacionUnificada` is not refused: it succeeds with one person evacuated and the
open row of `8-1-1` in the ledger receives the exit time 17:00 and the duration. -/
theorem real_escribe_con_guardia :
    (mundoEnSimulacro ledgerEscenario).simulacroEnCurso = true ∧
    (procesarEvacuacionUnificada entornoUTC (mundoEnSimulacro ledgerEscenario)
      (peticionReal ["8-1-1"])).1.success = true ∧
    (procesarEvacuacionUnificada entornoUTC (mundoEnSimulacro ledgerEscenario)
      (peticionReal ["8-1-1"])).1.totalEvacuadas = 1 ∧
    (procesarEvacuacionUnificada entornoUTC (mundoEnSimulacro ledgerEscenario)
      (peticionReal ["8-1-1"])).2.historial = some ledgerEscenarioCerrado ∧
    ledgerEscenarioCerrado ≠ ledgerEscenario := by
  decide

/-- C21, amended. The unified evacuation, and with it the real scan, never reads the
guard: for every state and request the result, the ledger, its notes and the audit logs
are the same whether `SIMULACRO_EN_CURSO` is true or false when it is called, and the guard
is left as it was. -/
theorem real_no_consulta_guardia (E : Entorno) (w : Mundo) (p : Option Parametros) :
    (procesarEvacuacionUnificada E { w with simulacroEnCurso := true } p).1 =
      (procesarEvacuacionUnificada E { w with simulacroEnCurso := false } p).1 ∧
    (procesarEvacuacionUnificada E { w with simulacroEnCurso := true } p).2.historial =
      (procesarEvacuacionUnificada E { w with simulacroEnCurso := false } p).2.historial ∧
    (procesarEvacuacionUnificada E { w with simulacroEnCurso := true } p).2.notasHistorial =
      (procesarEvacuacionUnificada E { w with simulacroEnCurso := false } p).2.notasHistorial ∧
    (procesarEvacuacionUnificada E { w with simulacroEnCurso := true } p).2.logEmergencias =
      (procesarEvacuacionUnificada E { w with simulacroEnCurso := false } p).2.logEmergencias ∧
    (procesarEvacuacionUnificada E { w with simulacroEnCurso := true } p).2.logSimulacros =
      (procesarEvacuacionUnificada E { w with simulacroEnCurso := false } p).2.logSimulacros ∧
    (procesarEvacuacionUnificada E { w with simulacroEnCurso := true }
      p).2.simulacroEnCurso = true := by
  have ht := unificada_sin_leer_guardia E w p true
  have hf := unificada_sin_leer_guardia E w p false
  refine ⟨ht.1.trans hf.1.symm, ?_, ?_, ?_, ?_, ?_⟩
  · rw [ht.2, hf.2]
  · rw [ht.2, hf.2]
  · rw [ht.2, hf.2]
  · rw [ht.2, hf.2]
  · rw [ht.2]

/-! ## C24: occupancy without ledger data -/

/-- C24, counterexample. Without the sheet `Historial`, and with a sheet that has only the
header row or no row at all, `getEvacuacionDataForClient` returns `success = true`. -/
theorem ocupacion_sin_historial_es_exito :
    (getEvacuacionDataForClient entornoUTC none).success = true ∧
    (getEvacuacionDataForClient entornoUTC (some ⟨encabezadoHistorial, []⟩)).success = true ∧
    (getEvacuacionDataForClient entornoUTC (some ⟨[], []⟩)).success = true := by
  decide

/-- C24, amended. When the sheet `Historial` is absent, or has no row below the header
(an empty sheet included), `getEvacuacionDataForClient` returns its guaranteed answer:
`success = true`, an empty `personasDentro`, `totalDentro = 0` and the message
`Hoja Historial no encontrada` or `Historial vacío - edificio vacío`. -/
theorem ocupacion_sin_datos (E : Entorno) (encabezado : Fila) :
    getEvacuacionDataForClient E none =
      ⟨true, "Hoja Historial no encontrada".toList, 0, []⟩ ∧
    getEvacuacionDataForClient E (some ⟨encabezado, []⟩) =
      ⟨true, "Historial vacío - edificio vacío".toList, 0, []⟩ :=
  ⟨rfl, rfl⟩

/-! ## C28: the dispatch on tipo -/

/-- C28. The dispatch of `procesarEvacuacionUnificada` runs the simulated scan, which
leaves the state as it is, exactly for `tipo` equal to `simulacro`; for every other text it
runs the real scan and stores the sheet and the notes that scan leaves, and a request that
is processed with `tipo` absent is processed as `real`. In the scenario the requests with `tipo` absent, `real`, `SIMULACRO` and
`simulated` all write the exit time 17:00 into the open row of `8-1-1`, and `simulacro`
leaves the ledger as it was. -/
theorem unificada_simulacro_solo_exacto (E : Entorno) (w : Mundo) (h : Hoja) (tipo : Str)
    (cs : List Str) (ts : Int) (sid notas : Str) (p : Parametros) :
    despachar E w h "simulacro".toList cs ts sid notas =
      (procesarSimulacroUnificado E h w.baseDatos cs ts sid notas, w) ∧
    (tipo ≠ "simulacro".toList →
      despachar E w h tipo cs ts sid notas =
        ((procesarEvacuacionRealUnificada E h w.notasHistorial w.baseDatos cs ts sid).1,
          { w with
            historial :=
              some (procesarEvacuacionRealUnificada E h w.notasHistorial w.baseDatos cs ts
                sid).2.1
            notasHistorial :=
              (procesarEvacuacionRealUnificada E h w.notasHistorial w.baseDatos cs ts
                sid).2.2 })) ∧
    (∀ (c : Str) (cs2 : List Str) (h2 : Hoja), p.cedulas = .arreglo (c :: cs2) →
      w.historial = some h2 →
      procesarEvacuacionUnificada E w (some { p with tipo := none }) =
        procesarEvacuacionUnificada E w (some { p with tipo := some "real".toList })) ∧
    (procesarEvacuacionUnificada entornoUTC (mundoCon ledgerEscenario)
      (peticionTipo none)).2.historial = some ledgerEscenarioCerrado ∧
    (procesarEvacuacionUnificada entornoUTC (mundoCon ledgerEscenario)
      (peticionTipo (some "real"))).2.historial = some ledgerEscenarioCerrado ∧
    (procesarEvacuacionUnificada entornoUTC (mundoCon ledgerEscenario)
      (peticionTipo (some "SIMULACRO"))).2.historial = some ledgerEscenarioCerrado ∧
    (procesarEvacuacionUnificada entornoUTC (mundoCon ledgerEscenario)
      (peticionTipo (some "simulated"))).2.historial = some ledgerEscenarioCerrado ∧
    (procesarEvacuacionUnificada entornoUTC (mundoCon ledgerEscenario)
      (peticionTipo (some "simulacro"))).2.historial = some ledgerEscenario := by
  refine ⟨rfl, ?_, ?_, by decide, by decide, by decide, by decide, by decide⟩
  · intro ht
    unfold despachar
    rw [if_neg ht]
  · intro c cs2 h2 hc hh
    rw [unificada_exito E w { p with tipo := none } c cs2 h2 hc hh,
      unificada_exito E w { p with tipo := some "real".toList } c cs2 h2 hc hh]
    rfl

/-! ## C29: a resolved person is reported inside -/

theorem ocupacion_de_hoja (E : Entorno) (h : Hoja) :
    (getEvacuacionDataForClient E (some h)).personasDentro =
      escanearDentro E (mapearIndicesColumnas E h.encabezado) h.filas ∧
    (getEvacuacionDataForClient E (some h)).totalDentro =
      (escanearDentro E (mapearIndicesColumnas E h.encabezado) h.filas).length := by
  unfold getEvacuacionDataForClient
  by_cases hf : h.filas = []
  · simp only [hf, if_true]
    exact ⟨rfl, rfl⟩
  · simp only [hf, if_false]
    exact ⟨trivial, trivial⟩

theorem simular_personas (E : Entorno) (data : Hoja) (ind : Indices) (bd : Option Hoja)
    (timestamp : Int) (notas : Str) (cedulas : List Str) (ps : List PersonaEvacuada)
    (p : PersonaEvacuada)
    (hp : p ∈ cedulas.foldl (simularUna E data ind bd timestamp notas) ps) :
    p ∈ ps ∨ ∃ row ∈ data.filas, filaAbierta ind row = true ∧
      p.cedula = cedulaDeFila E ind row := by
  induction cedulas generalizing ps with
  | nil => exact Or.inl hp
  | cons c cs ih =>
    rw [List.foldl_cons] at hp
    rcases ih _ hp with h1 | h1
    · unfold simularUna at h1
      cases hb : buscarAbierta E ind c data.filas.reverse with
      | none =>
        rw [hb] at h1
        exact Or.inl h1
      | some ir =>
        obtain ⟨i, row⟩ := ir
        rw [hb] at h1
        have hs := buscarAbierta_some E ind c data.filas.reverse i row hb
        rw [List.reverse_reverse] at hs
        rcases List.mem_append.mp h1 with h2 | h2
        · exact Or.inl h2
        · rw [List.mem_singleton] at h2
          exact Or.inr ⟨row, List.getElem?_mem hs.2.1, hs.2.2.2, by rw [h2]⟩
    · exact Or.inr h1

/-- C29. Every person in the resolved list of a simulated or of a real evacuation whose
cédula is not blank has a record with the same trimmed cédula in `personasDentro` of
`getEvacuacionDataForClient` on the ledger as it was before the operation. In the scenario
the person resolved for `8-1-1` is the one reported inside. -/
theorem evacuado_estaba_dentro (E : Entorno) (h : Hoja) (notas0 : List Nota)
    (bd : Option Hoja) (cedulas : List Str) (timestamp : Int) (sessionId notas : Str) :
    (∀ p ∈ (procesarSimulacroUnificado E h bd cedulas timestamp sessionId
        notas).personasEvacuadas, p.cedula ≠ [] →
      ∃ q ∈ (getEvacuacionDataForClient E (some h)).personasDentro, q.cedula = p.cedula) ∧
    (∀ p ∈ (procesarEvacuacionRealUnificada E h notas0 bd cedulas timestamp
        sessionId).1.personasEvacuadas, p.cedula ≠ [] →
      ∃ q ∈ (getEvacuacionDataForClient E (some h)).personasDentro, q.cedula = p.cedula) ∧
    (procesarEvacuacionRealUnificada entornoUTC ledgerEscenario [] none ["8-1-1".toList]
      (hora 17) "sesion-1".toList).1.personasEvacuadas.map (·.cedula) =
      (getEvacuacionDataForClient entornoUTC (some ledgerEscenario)).personasDentro.map
        (·.cedula) := by
  have hsim : ∀ p ∈ cedulas.foldl (simularUna E h (mapearIndicesColumnas E h.encabezado) bd
      timestamp notas) [], p.cedula ≠ [] →
      ∃ q ∈ (getEvacuacionDataForClient E (some h)).personasDentro, q.cedula = p.cedula := by
    intro p hp hne
    rcases simular_personas E h _ bd timestamp notas cedulas [] p hp with h1 | ⟨row, hr, ha, hc⟩
    · cases h1
    · rw [(ocupacion_de_hoja E h).1]
      unfold escanearDentro
      obtain ⟨q, hq, hqc⟩ := foldl_pasoDentro_registra E (mapearIndicesColumnas E h.encabezado)
        h.filas.reverse [] row (List.mem_reverse.mpr hr) (by rw [← hc]; exact hne) ha
      exact ⟨q, hq, by rw [hqc, hc]⟩
  refine ⟨hsim, ?_, by decide⟩
  intro p hp hne
  have hres := scans_mismo_resumen E h (mapearIndicesColumnas E h.encabezado) bd timestamp
    sessionId notas cedulas ⟨h, notas0, []⟩ [] rfl
  have hmem : resumen p ∈ (cedulas.foldl (simularUna E h (mapearIndicesColumnas E h.encabezado)
      bd timestamp notas) []).map resumen := by
    rw [← hres]
    exact List.mem_map_of_mem resumen hp
  obtain ⟨p2, hp2, hr2⟩ := List.mem_map.mp hmem
  have hced : p2.cedula = p.cedula := congrArg (·.1) hr2
  obtain ⟨q, hq, hqc⟩ := hsim p2 hp2 (by rw [hced]; exact hne)
  exact ⟨q, hq, hqc.trans hced⟩

/-! ## C27: rows with an exit and occupancy -/

theorem pasoDentro_cerrada (E : Entorno) (ind : Indices) (mapa : List PersonaDentro)
    (fila : Fila) (h : filaAbierta ind fila = false) : pasoDentro E ind mapa fila = mapa := by
  unfold pasoDentro
  simp only [h, Bool.false_eq_true, if_false]
  split_ifs <;> rfl

theorem foldl_pasoDentro_filter (E : Entorno) (ind : Indices) (q : Fila → Bool)
    (hq : ∀ r, q r = false → filaAbierta ind r = false) (rows : List Fila)
    (mapa : List PersonaDentro) :
    (rows.filter q).foldl (pasoDentro E ind) mapa = rows.foldl (pasoDentro E ind) mapa := by
  induction rows generalizing mapa with
  | nil => rfl
  | cons r rs ih =>
    rw [List.filter_cons]
    cases hr : q r with
    | true =>
      simp only [if_true, List.foldl_cons]
      exact ih _
    | false =>
      simp only [Bool.false_eq_true, if_false, List.foldl_cons]
      rw [pasoDentro_cerrada E ind mapa r (hq r hr)]
      exact ih _

theorem foldl_pasoDentro_unaPorCedula (E : Entorno) (ind : Indices) (rows : List Fila)
    (mapa : List PersonaDentro) :
    rows.foldl (pasoDentro E ind) mapa =
      ((rows.filter (fun r => decide (cedulaDeFila E ind r ≠ []) && filaAbierta ind r)).map
        (registroDentro E ind)).foldl
        (fun vistos p => if vistos.any (fun q => q.cedula == p.cedula) then vistos
          else vistos ++ [p]) mapa := by
  induction rows generalizing mapa with
  | nil => rfl
  | cons r rs ih =>
    rw [List.foldl_cons, List.filter_cons, ih]
    unfold pasoDentro
    by_cases hc : cedulaDeFila E ind r = []
    · simp [hc]
    · by_cases ha : filaAbierta ind r = true
      · simp only [hc, ha, if_false, ne_eq, not_false_eq_true, decide_True, Bool.and_self,
          if_true, List.map_cons, List.foldl_cons, registroDentro_cedula]
      · simp only [Bool.not_eq_true] at ha
        simp [hc, ha]

/-- C27. The occupancy list is, of the rows with a non-blank cédula, an entry and an empty
exit taken from the most recent one backwards, the first one of each trimmed cédula text;
and the ledger without the rows that carry an exit gives the same `personasDentro` and the
same `totalDentro`. -/
theorem ocupacion_ignora_filas_con_salida (E : Entorno) (h : Hoja) :
    (getEvacuacionDataForClient E (some h)).personasDentro =
      abiertasRecientes E (mapearIndicesColumnas E h.encabezado) h.filas ∧
    (getEvacuacionDataForClient E (some (sinFilasConSalida E h))).personasDentro =
      (getEvacuacionDataForClient E (some h)).personasDentro ∧
    (getEvacuacionDataForClient E (some (sinFilasConSalida E h))).totalDentro =
      (getEvacuacionDataForClient E (some h)).totalDentro := by
  have hsin : escanearDentro E (mapearIndicesColumnas E h.encabezado)
      (sinFilasConSalida E h).filas =
      escanearDentro E (mapearIndicesColumnas E h.encabezado) h.filas := by
    unfold escanearDentro sinFilasConSalida
    rw [← List.filter_reverse]
    apply foldl_pasoDentro_filter
    intro r hr
    unfold filaAbierta
    simp only [Bool.not_eq_false'] at hr
    rw [hr]
    simp
  have h1 := ocupacion_de_hoja E h
  have h2 := ocupacion_de_hoja E (sinFilasConSalida E h)
  have henc : (sinFilasConSalida E h).encabezado = h.encabezado := rfl
  rw [henc, hsin] at h2
  refine ⟨?_, h2.1.trans h1.1.symm, h2.2.trans h1.2.symm⟩
  rw [h1.1]
  unfold escanearDentro abiertasRecientes unaPorCedula
  exact foldl_pasoDentro_unaPorCedula E _ h.filas.reverse []

/-! ## C23: the exit branch of registrarEnHistorial -/

theorem buscarEntradaAbierta_fijos (E : Entorno) (cedula : Str) (rows : List Fila) :
    buscarEntradaAbierta E cedula rows = buscarAbierta E indicesFijos cedula rows := by
  induction rows with
  | nil => rfl
  | cons r rs ih =>
    unfold buscarEntradaAbierta buscarAbierta
    rw [ih]
    simp only [cedulaDeFila, filaAbierta, leerSi, indicesFijos, Bool.and_assoc]

theorem buscarAbierta_cota (E : Entorno) (ind : Indices) (cedula : Str) (rows : List Fila)
    (i : Nat) (row : Fila) (h : buscarAbierta E ind cedula rows = some (i, row)) :
    i ≤ rows.length := by
  induction rows with
  | nil => cases h
  | cons r rs ih =>
    unfold buscarAbierta at h
    split_ifs at h with hc
    · cases h
      simp
    · have := ih h
      simp only [List.length_cons]
      omega

theorem buscarAbierta_posterior (E : Entorno) (ind : Indices) (cedula : Str) (rows : List Fila)
    (i : Nat) (row : Fila) (h : buscarAbierta E ind cedula rows = some (i, row)) :
    ∀ k row2, i - 1 < k → rows.reverse[k]? = some row2 →
      ¬ (mismaCedula (cedulaDeFila E ind row2) cedula = true ∧ filaAbierta ind row2 = true) := by
  induction rows with
  | nil => cases h
  | cons r rs ih =>
    intro k row2 hk hrow
    rw [List.reverse_cons] at hrow
    unfold buscarAbierta at h
    split_ifs at h with hc
    · cases h
      simp only [Nat.add_sub_cancel] at hk
      rw [List.getElem?_append_right (by simp; omega)] at hrow
      simp only [List.length_reverse] at hrow
      have hk2 : k - rs.length = 0 ∨ 0 < k - rs.length := by omega
      rcases hk2 with h0 | h0
      · omega
      · rw [List.getElem?_eq_none (by simp; omega)] at hrow
        cases hrow
    · have hcota := buscarAbierta_cota E ind cedula rs i row h
      by_cases hlt : k < rs.length
      · rw [List.getElem?_append_left (by simp; exact hlt)] at hrow
        exact ih h k row2 hk hrow
      · rw [List.getElem?_append_right (by simp; omega)] at hrow
        simp only [List.length_reverse] at hrow
        by_cases h0 : k - rs.length = 0
        · rw [h0] at hrow
          simp only [List.getElem?_cons_zero, Option.some.injEq] at hrow
          rw [← hrow]
          intro hcond
          apply hc
          rw [hcond.1, hcond.2]
          rfl
        · rw [List.getElem?_eq_none (by simp; omega)] at hrow
          cases hrow

theorem modificar_modificar {α : Type} (f g : α → α) (i : Nat) (l : List α) :
    modificar g i (modificar f i l) = modificar (fun x => g (f x)) i l := by
  induction l generalizing i with
  | nil => cases i <;> rfl
  | cons x xs ih =>
    cases i with
    | zero => rfl
    | succ n =>
      show x :: modificar g n (modificar f n xs) = x :: modificar (fun x => g (f x)) n xs
      rw [ih]

theorem registrar_salida_sin_abierta (E : Entorno) (w : Mundo) (h : Hoja) (fecha : Int)
    (resultado : ResultadoAcceso) (hg : w.simulacroEnCurso = false)
    (hb : buscarAbierta E indicesFijos resultado.cedula h.filas.reverse = none) :
    registrarEnHistorial E w h fecha resultado "salida".toList =
      ({ sinEntradaPrevia := true, bloqueadoPorSimulacro := false, mensaje := none
         duracion := none }, ⟨h.encabezado, h.filas ++ [filaSinEntrada fecha resultado]⟩) := by
  unfold registrarEnHistorial
  rw [buscarEntradaAbierta_fijos, hb]
  simp only [hg, Bool.false_eq_true, if_false]
  rw [if_neg (by decide), if_pos trivial]
  rfl

theorem registrar_salida_con_abierta (E : Entorno) (w : Mundo) (h : Hoja) (fecha : Int)
    (resultado : ResultadoAcceso) (hg : w.simulacroEnCurso = false) (i : Nat) (row : Fila)
    (hb : buscarAbierta E indicesFijos resultado.cedula h.filas.reverse = some (i, row)) :
    (registrarEnHistorial E w h fecha resultado "salida".toList).1.sinEntradaPrevia = false ∧
    (registrarEnHistorial E w h fecha resultado "salida".toList).2 =
      ⟨h.encabezado, modificar (cerrarFila fecha resultado row) (i - 1) h.filas⟩ := by
  have hi := (buscarAbierta_some E indicesFijos resultado.cedula h.filas.reverse i row hb).1
  unfold registrarEnHistorial
  rw [buscarEntradaAbierta_fijos, hb]
  simp only [hg, Bool.false_eq_true, if_false]
  rw [if_neg (by decide), if_pos trivial]
  have hset : ∀ (g : Hoja) (col : Nat) (v : Celda), g.setValue (i + 1) col v =
      ⟨g.encabezado, modificar (fun r => ponerCelda r (col - 1) v) (i - 1) g.filas⟩ := by
    intro g col v
    have := setValue_filas g i col v hi
    cases hgv : g.setValue (i + 1) col v with
    | mk e f =>
      rw [hgv] at this
      simp only at this
      rw [this.1, this.2]
  unfold cerrarFila
  cases hl : leer row (some 4) with
  | fecha entrada =>
    simp only [hset, modificar_modificar]
    exact ⟨trivial, trivial⟩
  | texto s =>
    simp only [hset, modificar_modificar]
    exact ⟨trivial, trivial⟩
  | numero n =>
    simp only [hset, modificar_modificar]
    exact ⟨trivial, trivial⟩
  | booleano b =>
    simp only [hset, modificar_modificar]
    exact ⟨trivial, trivial⟩

theorem buscarAbierta_none_inv (E : Entorno) (ind : Indices) (cedula : Str) (rows : List Fila)
    (h : buscarAbierta E ind cedula rows = none) :
    ∀ r ∈ rows, ¬ (mismaCedula (cedulaDeFila E ind r) cedula = true ∧
      filaAbierta ind r = true) := by
  intro r hr hcond
  have hs := buscarAbierta_isSome E ind cedula rows
  rw [h] at hs
  have hany : rows.any (fun r => mismaCedula (cedulaDeFila E ind r) cedula &&
      filaAbierta ind r) = true :=
    List.any_eq_true.mpr ⟨r, hr, by rw [hcond.1, hcond.2]; rfl⟩
  rw [hany] at hs
  cases hs

theorem leer_cerrarFila (fecha : Int) (resultado : ResultadoAcceso) (row cur : Fila) :
    leer (cerrarFila fecha resultado row cur) (some 5) = .fecha fecha ∧
    ∀ j, j ≠ 5 → j ≠ 6 → j ≠ 7 →
      leer (cerrarFila fecha resultado row cur) (some j) = leer cur (some j) := by
  unfold cerrarFila
  cases leer row (some 4) with
  | fecha entrada =>
    refine ⟨?_, ?_⟩
    · rw [leer_ponerCelda_otro _ 6 5 _ (by decide), leer_ponerCelda_otro _ 7 5 _ (by decide),
        leer_ponerCelda_mismo]
    · intro j h5 h6 h7
      rw [leer_ponerCelda_otro _ 6 j _ h6, leer_ponerCelda_otro _ 7 j _ h7,
        leer_ponerCelda_otro _ 5 j _ h5]
  | texto s =>
    refine ⟨?_, ?_⟩
    · show leer (ponerCelda (ponerCelda cur 5 _) 7 _) (some 5) = _
      rw [leer_ponerCelda_otro _ 7 5 _ (by decide), leer_ponerCelda_mismo]
    · intro j h5 h6 h7
      show leer (ponerCelda (ponerCelda cur 5 _) 7 _) (some j) = _
      rw [leer_ponerCelda_otro _ 7 j _ h7, leer_ponerCelda_otro _ 5 j _ h5]
  | numero n =>
    refine ⟨?_, ?_⟩
    · show leer (ponerCelda (ponerCelda cur 5 _) 7 _) (some 5) = _
      rw [leer_ponerCelda_otro _ 7 5 _ (by decide), leer_ponerCelda_mismo]
    · intro j h5 h6 h7
      show leer (ponerCelda (ponerCelda cur 5 _) 7 _) (some j) = _
      rw [leer_ponerCelda_otro _ 7 j _ h7, leer_ponerCelda_otro _ 5 j _ h5]
  | booleano b =>
    refine ⟨?_, ?_⟩
    · show leer (ponerCelda (ponerCelda cur 5 _) 7 _) (some 5) = _
      rw [leer_ponerCelda_otro _ 7 5 _ (by decide), leer_ponerCelda_mismo]
    · intro j h5 h6 h7
      show leer (ponerCelda (ponerCelda cur 5 _) 7 _) (some j) = _
      rw [leer_ponerCelda_otro _ 7 j _ h7, leer_ponerCelda_otro _ 5 j _ h5]

/-- C23. With the guard inactive, `registrarEnHistorial` with `tipo` `'salida'` returns
`sinEntradaPrevia = true` exactly when no row of the ledger belongs to the identity (equal
cédula or equal normalised cédula in column 2) with an entry in column 5 and an empty exit
in column 6. In that case the ledger gains exactly one row, with empty entry, the event
time as exit and `Sin entrada` as duration. Otherwise the number of rows stays, the most
recent open row of the identity receives the event time in its exit cell, only its cells
of columns 6, 7 and 8 can change, and every other row stays as it was. Columns 2, 5 and 6
are the cédula, entry and exit columns of the standard layout. -/
theorem salida_huerfana_sii (E : Entorno) (w : Mundo) (h : Hoja) (fecha : Int)
    (resultado : ResultadoAcceso) (hg : w.simulacroEnCurso = false) :
    ((registrarEnHistorial E w h fecha resultado "salida".toList).1.sinEntradaPrevia = true ↔
      ∀ r ∈ h.filas, ¬ (mismaCedula (cedulaDeFila E indicesFijos r) resultado.cedula = true ∧
        filaAbierta indicesFijos r = true)) ∧
    ((registrarEnHistorial E w h fecha resultado "salida".toList).1.sinEntradaPrevia = true →
      (registrarEnHistorial E w h fecha resultado "salida".toList).2 =
        ⟨h.encabezado, h.filas ++ [filaSinEntrada fecha resultado]⟩) ∧
    ((registrarEnHistorial E w h fecha resultado "salida".toList).1.sinEntradaPrevia = false →
      (registrarEnHistorial E w h fecha resultado "salida".toList).2.encabezado =
        h.encabezado ∧
      (registrarEnHistorial E w h fecha resultado "salida".toList).2.filas.length =
        h.filas.length ∧
      ∃ (k : Nat) (row cur : Fila), h.filas[k]? = some row ∧
        mismaCedula (cedulaDeFila E indicesFijos row) resultado.cedula = true ∧
        filaAbierta indicesFijos row = true ∧
        (∀ k2 row2, k < k2 → h.filas[k2]? = some row2 →
          ¬ (mismaCedula (cedulaDeFila E indicesFijos row2) resultado.cedula = true ∧
            filaAbierta indicesFijos row2 = true)) ∧
        (registrarEnHistorial E w h fecha resultado "salida".toList).2.filas[k]? = some cur ∧
        leer cur (some 5) = .fecha fecha ∧
        (∀ j, j ≠ 5 → j ≠ 6 → j ≠ 7 → leer cur (some j) = leer row (some j)) ∧
        ∀ k2, k2 ≠ k →
          (registrarEnHistorial E w h fecha resultado "salida".toList).2.filas[k2]? =
            h.filas[k2]?) ∧
    (leer (filaSinEntrada fecha resultado) (some 4) = vacia ∧
      leer (filaSinEntrada fecha resultado) (some 5) = .fecha fecha ∧
      leer (filaSinEntrada fecha resultado) (some 6) = .texto "Sin entrada".toList) ∧
    ∀ E2 : Entorno, mapearIndicesColumnas E2 encabezadoHistorial = indicesFijos := by
  refine ⟨?_, ?_, ?_, ⟨rfl, rfl, rfl⟩, fun _ => rfl⟩
  · cases hb : buscarAbierta E indicesFijos resultado.cedula h.filas.reverse with
    | none =>
      rw [registrar_salida_sin_abierta E w h fecha resultado hg hb]
      refine ⟨fun _ r hr => ?_, fun _ => rfl⟩
      exact buscarAbierta_none_inv E indicesFijos resultado.cedula h.filas.reverse hb r
        (List.mem_reverse.mpr hr)
    | some ir =>
      obtain ⟨i, row⟩ := ir
      have hs := buscarAbierta_some E indicesFijos resultado.cedula h.filas.reverse i row hb
      rw [List.reverse_reverse] at hs
      rw [(registrar_salida_con_abierta E w h fecha resultado hg i row hb).1]
      refine ⟨fun hf => (by cases hf), fun hall => ?_⟩
      exact absurd ⟨hs.2.2.1, hs.2.2.2⟩ (hall row (List.getElem?_mem hs.2.1))
  · intro hsin
    cases hb : buscarAbierta E indicesFijos resultado.cedula h.filas.reverse with
    | none => rw [registrar_salida_sin_abierta E w h fecha resultado hg hb]
    | some ir =>
      obtain ⟨i, row⟩ := ir
      rw [(registrar_salida_con_abierta E w h fecha resultado hg i row hb).1] at hsin
      cases hsin
  · intro hsin
    cases hb : buscarAbierta E indicesFijos resultado.cedula h.filas.reverse with
    | none =>
      rw [registrar_salida_sin_abierta E w h fecha resultado hg hb] at hsin
      cases hsin
    | some ir =>
      obtain ⟨i, row⟩ := ir
      have hs := buscarAbierta_some E indicesFijos resultado.cedula h.filas.reverse i row hb
      have hpost := buscarAbierta_posterior E indicesFijos resultado.cedula h.filas.reverse i
        row hb
      rw [List.reverse_reverse] at hs hpost
      rw [(registrar_salida_con_abierta E w h fecha resultado hg i row hb).2]
      refine ⟨rfl, modificar_length _ _ _, i - 1, row, cerrarFila fecha resultado row row,
        hs.2.1, hs.2.2.1, hs.2.2.2, hpost, ?_, (leer_cerrarFila fecha resultado row row).1,
        (leer_cerrarFila fecha resultado row row).2, ?_⟩
      · show (modificar (cerrarFila fecha resultado row) (i - 1) h.filas)[i - 1]? = _
        rw [modificar_getElem?, if_pos rfl, hs.2.1]
        rfl
      · intro k2 hk2
        show (modificar (cerrarFila fecha resultado row) (i - 1) h.filas)[k2]? = _
        rw [modificar_getElem?, if_neg hk2]

/-- Instance of C23: in the scenario an exit of `8-3-3`, who has no row, is an orphan exit
and appends its row, and an exit of `8-1-1`, who is inside, is not. -/
theorem salida_huerfana_sii_witness :
    (mundoCon ledgerEscenario).simulacroEnCurso = false ∧
    (registrarEnHistorial entornoUTC (mundoCon ledgerEscenario) ledgerEscenario (hora 17)
      accesoEva "salida".toList).2 =
      ⟨ledgerEscenario.encabezado,
        ledgerEscenario.filas ++ [filaSinEntrada (hora 17) accesoEva]⟩ ∧
    (registrarEnHistorial entornoUTC (mundoCon ledgerEscenario) ledgerEscenario (hora 17)
      accesoAna "salida".toList).2 = ledgerEscenarioCerrado :=
  ⟨rfl, (salida_huerfana_sii entornoUTC (mundoCon ledgerEscenario) ledgerEscenario (hora 17)
    accesoEva rfl).2.1 (by decide), by decide⟩

/-! ## C30: an entry followed by an exit -/

theorem dropWhile_cabeza {α : Type} (p : α → Bool) (s : List α) (x : α) (xs : List α)
    (h : s.dropWhile p = x :: xs) : p x = false := by
  induction s with
  | nil => cases h
  | cons y ys ih =>
    rw [List.dropWhile_cons] at h
    split_ifs at h with hy
    · exact ih h
    · cases h
      simpa using hy

theorem dropWhile_ultimo {α : Type} (p : α → Bool) (s : List α) (z : α)
    (h : (s.dropWhile p).getLast? = some z) : s.getLast? = some z := by
  induction s with
  | nil => exact h
  | cons y ys ih =>
    rw [List.dropWhile_cons] at h
    split_ifs at h with hy
    · have h2 := ih h
      cases ys with
      | nil => cases h2
      | cons a as => rw [List.getLast?_cons_cons]; exact h2
    · exact h

theorem trim_idem (s : Str) : trim (trim s) = trim s := by
  cases ht : trim s with
  | nil => rfl
  | cons c cs =>
    apply trim_extremos
    · -- the head of the trimmed text is the head of `s.dropWhile esEspacio`
      unfold trim at ht
      have hrev : ((s.dropWhile esEspacio).reverse.dropWhile esEspacio).getLast? = some c := by
        rw [← List.head?_reverse, ht]
        rfl
      have h2 := dropWhile_ultimo esEspacio _ c hrev
      rw [List.getLast?_reverse] at h2
      cases hd : s.dropWhile esEspacio with
      | nil => rw [hd] at h2; cases h2
      | cons x xs =>
        rw [hd] at h2
        simp only [List.head?_cons, Option.some.injEq] at h2
        rw [← h2]
        exact dropWhile_cabeza esEspacio s x xs hd
    · intro z hz
      unfold trim at ht
      rw [← ht, List.getLast?_reverse] at hz
      cases hd : (s.dropWhile esEspacio).reverse.dropWhile esEspacio with
      | nil => rw [hd] at hz; cases hz
      | cons x xs =>
        rw [hd] at hz
        simp only [List.head?_cons, Option.some.injEq] at hz
        rw [← hz]
        exact dropWhile_cabeza esEspacio _ x xs hd

theorem normalizar_trim (c : Str) : normalizarCedula (trim c) = normalizarCedula c := by
  by_cases ht : trim c = []
  · rw [ht]
    by_cases hc : c = []
    · rw [hc]
    · have h1 : normalizarCedula [] = [] := by decide
      rw [h1]
      unfold normalizarCedula cuerpoNormalizar
      rw [if_neg hc]
      simp only [ht]
      decide
  · have hc : c ≠ [] := by
      intro h
      rw [h] at ht
      exact ht rfl
    unfold normalizarCedula cuerpoNormalizar
    rw [if_neg ht, if_neg hc]
    simp only [trim_idem]

theorem mismaCedula_trim (c : Str) : mismaCedula (trim c) c = true := by
  unfold mismaCedula claveCedula
  rw [normalizar_trim]
  simp

theorem modificar_final {α : Type} (f : α → α) (l : List α) (x : α) :
    modificar f l.length (l ++ [x]) = l ++ [f x] := by
  induction l with
  | nil => rfl
  | cons y ys ih =>
    show y :: modificar f ys.length (ys ++ [x]) = y :: (ys ++ [f x])
    rw [ih]

theorem registrar_entrada (E : Entorno) (w : Mundo) (h : Hoja) (fecha : Int)
    (resultado : ResultadoAcceso) (hg : w.simulacroEnCurso = false) :
    registrarEnHistorial E w h fecha resultado "entrada".toList =
      ({ sinEntradaPrevia := false, bloqueadoPorSimulacro := false, mensaje := none
         duracion := none }, ⟨h.encabezado, h.filas ++ [filaDeEntrada fecha resultado]⟩) := by
  unfold registrarEnHistorial
  simp only [hg, Bool.false_eq_true, if_false, if_true]
  rfl

theorem entrada_luego_salida (E : Entorno) (w : Mundo) (h : Hoja) (f1 f2 : Int)
    (r1 r2 : ResultadoAcceso) (hg : w.simulacroEnCurso = false) (hc : r2.cedula = r1.cedula) :
    (registrarEnHistorial E w (registrarEnHistorial E w h f1 r1 "entrada".toList).2 f2 r2
      "salida".toList).1.sinEntradaPrevia = false ∧
    (registrarEnHistorial E w (registrarEnHistorial E w h f1 r1 "entrada".toList).2 f2 r2
      "salida".toList).2 =
      ⟨h.encabezado, h.filas ++ [[.fecha f1, .texto r1.cedula, .texto r1.nombre,
        .texto r1.estadoAcceso, .fecha f1, .fecha f2, .texto (duracionTexto (f2 - f1)),
        .texto r2.empresa]]⟩ := by
  rw [registrar_entrada E w h f1 r1 hg]
  have hb : buscarAbierta E indicesFijos r2.cedula
      (h.filas ++ [filaDeEntrada f1 r1]).reverse =
      some (h.filas.length + 1, filaDeEntrada f1 r1) := by
    rw [List.reverse_append]
    show buscarAbierta E indicesFijos r2.cedula (filaDeEntrada f1 r1 :: h.filas.reverse) = _
    unfold buscarAbierta
    have hced : cedulaDeFila E indicesFijos (filaDeEntrada f1 r1) = trim r1.cedula := by
      show trim ((Celda.texto r1.cedula).textoO E) = _
      unfold Celda.textoO Celda.veraz Celda.aTexto
      by_cases hv : r1.cedula = []
      · simp [hv]
      · simp [hv]
    have hab : filaAbierta indicesFijos (filaDeEntrada f1 r1) = true := rfl
    rw [hced, hab, hc, mismaCedula_trim]
    simp
  have hr := registrar_salida_con_abierta E w
    ⟨h.encabezado, h.filas ++ [filaDeEntrada f1 r1]⟩ f2 r2 hg _ _ hb
  refine ⟨hr.1, ?_⟩
  rw [hr.2]
  simp only [Nat.add_sub_cancel, modificar_final]
  rfl

/-- C30. With the guard inactive, an entry registered for a cédula and then an exit
registered for the same cédula with `registrarEnHistorial` leave the ledger with exactly
one more row than before: the exit is not an orphan exit (`sinEntradaPrevia = false`), it
closes the row the entry appended, which ends with both times and the duration, and the
earlier rows and the header are as before. When the exit column of the ledger is column 6,
as in the standard layout, `getEvacuacionDataForClient` returns the same `personasDentro`
after the pair as before it. -/
theorem entrada_y_salida_ida_y_vuelta (E : Entorno) (w : Mundo) (h : Hoja) (f1 f2 : Int)
    (r1 r2 : ResultadoAcceso) (hg : w.simulacroEnCurso = false) (hc : r2.cedula = r1.cedula)
    (hsal : (mapearIndicesColumnas E h.encabezado).salida = some 5) :
    (registrarEnHistorial E w h f1 r1 "entrada".toList).2 =
      ⟨h.encabezado, h.filas ++ [[.fecha f1, .texto r1.cedula, .texto r1.nombre,
        .texto r1.estadoAcceso, .fecha f1, vacia, vacia, .texto r1.empresa]]⟩ ∧
    (registrarEnHistorial E w (registrarEnHistorial E w h f1 r1 "entrada".toList).2 f2 r2
      "salida".toList).1.sinEntradaPrevia = false ∧
    (registrarEnHistorial E w (registrarEnHistorial E w h f1 r1 "entrada".toList).2 f2 r2
      "salida".toList).2 =
      ⟨h.encabezado, h.filas ++ [[.fecha f1, .texto r1.cedula, .texto r1.nombre,
        .texto r1.estadoAcceso, .fecha f1, .fecha f2, .texto (duracionTexto (f2 - f1)),
        .texto r2.empresa]]⟩ ∧
    (getEvacuacionDataForClient E (some (registrarEnHistorial E w
      (registrarEnHistorial E w h f1 r1 "entrada".toList).2 f2 r2
      "salida".toList).2)).personasDentro =
      (getEvacuacionDataForClient E (some h)).personasDentro := by
  have hes := entrada_luego_salida E w h f1 f2 r1 r2 hg hc
  refine ⟨by rw [registrar_entrada E w h f1 r1 hg]; rfl, hes.1, hes.2, ?_⟩
  rw [hes.2, (ocupacion_de_hoja E h).1, (ocupacion_de_hoja E _).1]
  show escanearDentro E (mapearIndicesColumnas E h.encabezado) (h.filas ++ [_]) = _
  unfold escanearDentro
  rw [List.reverse_append, List.reverse_singleton, List.singleton_append, List.foldl_cons,
    pasoDentro_cerrada]
  unfold filaAbierta
  rw [hsal]
  have hv : (leerSi [Celda.fecha f1, Celda.texto r1.cedula, Celda.texto r1.nombre,
      Celda.texto r1.estadoAcceso, Celda.fecha f1, Celda.fecha f2,
      Celda.texto (duracionTexto (f2 - f1)), Celda.texto r2.empresa] (some 5)).veraz = true :=
    rfl
  rw [hv]
  simp

/-- Instance of C30: in the scenario, Eva enters at 12:00 and leaves at 13:00; the ledger
gains her closed row and the occupancy is the one before. -/
theorem entrada_y_salida_ida_y_vuelta_witness :
    (mundoCon ledgerEscenario).simulacroEnCurso = false ∧
    (mapearIndicesColumnas entornoUTC ledgerEscenario.encabezado).salida = some 5 ∧
    (getEvacuacionDataForClient entornoUTC (some (registrarEnHistorial entornoUTC
      (mundoCon ledgerEscenario)
      (registrarEnHistorial entornoUTC (mundoCon ledgerEscenario) ledgerEscenario (hora 12)
        accesoEva "entrada".toList).2 (hora 13) accesoEva
      "salida".toList).2)).personasDentro =
      (getEvacuacionDataForClient entornoUTC (some ledgerEscenario)).personasDentro :=
  ⟨rfl, rfl, (entrada_y_salida_ida_y_vuelta entornoUTC (mundoCon ledgerEscenario)
    ledgerEscenario (hora 12) (hora 13) accesoEva accesoEva rfl rfl rfl).2.2.2⟩

/-! ## C25: the frame of the real scan -/

theorem evacuarUna_escribe (E : Entorno) (data : Hoja) (ind : Indices) (bd : Option Hoja)
    (timestamp : Int) (sessionId : Str) (a : Avance) (cedula : Str) (i : Nat) (row : Fila)
    (hne : ∀ js jd, ind.salida = some js → ind.duracion = some jd → js ≠ jd)
    (hb : buscarAbierta E ind cedula data.filas.reverse = some (i, row)) :
    ∃ f : Fila → Fila,
      (evacuarUna E data ind bd timestamp sessionId a cedula).hoja.encabezado =
        a.hoja.encabezado ∧
      (evacuarUna E data ind bd timestamp sessionId a cedula).hoja.filas =
        modificar f (i - 1) a.hoja.filas ∧
      (∃ p, (evacuarUna E data ind bd timestamp sessionId a cedula).personas =
        a.personas ++ [p] ∧ p.filaHistorial = i + 1) ∧
      ∀ cur : Fila,
        (∀ j : Nat, some j ≠ ind.salida → some j ≠ ind.duracion →
          leer (f cur) (some j) = leer cur (some j)) ∧
        (∀ js, ind.salida = some js → leer (f cur) (some js) = .fecha timestamp) := by
  have hi := (buscarAbierta_some E ind cedula _ i row hb).1
  have hper : ∃ p, (evacuarUna E data ind bd timestamp sessionId a cedula).personas =
      a.personas ++ [p] ∧ p.filaHistorial = i + 1 := by
    unfold evacuarUna
    simp only [hb]
    exact ⟨_, rfl, rfl⟩
  cases hs : ind.salida with
  | some js =>
    have hh := evacuarUna_hoja E data ind bd timestamp sessionId a cedula js i row hs hb
    refine ⟨escribir ind timestamp js row, hh.1, hh.2, hper, fun cur => ⟨?_, ?_⟩⟩
    · intro j hj1 hj2
      have hjs : j ≠ js := fun h => hj1 (by rw [h])
      unfold escribir
      cases he : leerSi row ind.entrada with
      | fecha e =>
        cases hd : ind.duracion with
        | none => exact leer_ponerCelda_otro _ _ _ _ hjs
        | some jd =>
          have hjd : j ≠ jd := fun h => hj2 (by rw [h, hd])
          show leer (ponerCelda (ponerCelda cur js _) jd _) (some j) = _
          rw [leer_ponerCelda_otro _ _ _ _ hjd, leer_ponerCelda_otro _ _ _ _ hjs]
      | texto s => exact leer_ponerCelda_otro _ _ _ _ hjs
      | numero n => exact leer_ponerCelda_otro _ _ _ _ hjs
      | booleano b => exact leer_ponerCelda_otro _ _ _ _ hjs
    · intro js2 hjs2
      cases hjs2
      exact (escribir_escrita ind timestamp js row cur (fun jd hd => hne js jd hs hd)).1
  | none =>
    have hfil : ∃ f : Fila → Fila,
        (evacuarUna E data ind bd timestamp sessionId a cedula).hoja.encabezado =
          a.hoja.encabezado ∧
        (evacuarUna E data ind bd timestamp sessionId a cedula).hoja.filas =
          modificar f (i - 1) a.hoja.filas ∧
        ∀ cur : Fila, ∀ j : Nat, some j ≠ ind.duracion →
          leer (f cur) (some j) = leer cur (some j) := by
      have hid : ∀ l : List Fila, l = modificar (fun r => r) (i - 1) l := by
        intro l
        apply List.ext_getElem?
        intro k
        rw [modificar_getElem?]
        split_ifs
        · cases l[k]? <;> rfl
        · rfl
      unfold evacuarUna
      simp only [hb, hs]
      cases he : leerSi row ind.entrada with
      | fecha e =>
        cases hd : ind.duracion with
        | none => exact ⟨fun r => r, rfl, hid _, fun _ _ _ => rfl⟩
        | some jd =>
          refine ⟨fun r => ponerCelda r jd (.texto (duracionTexto (timestamp - e))),
            (setValue_filas _ i _ _ hi).1, (setValue_filas _ i _ _ hi).2, ?_⟩
          intro cur j hj
          exact leer_ponerCelda_otro _ _ _ _ (fun h => hj (by rw [h]))
      | texto s => exact ⟨fun r => r, rfl, hid _, fun _ _ _ => rfl⟩
      | numero n => exact ⟨fun r => r, rfl, hid _, fun _ _ _ => rfl⟩
      | booleano b => exact ⟨fun r => r, rfl, hid _, fun _ _ _ => rfl⟩
    obtain ⟨f, h1, h2, h3⟩ := hfil
    exact ⟨f, h1, h2, hper, fun cur => ⟨fun j _ hj2 => h3 cur j hj2, fun js hjs => by cases hjs⟩⟩

theorem evacuarUna_marco (E : Entorno) (data : Hoja) (ind : Indices) (bd : Option Hoja)
    (timestamp : Int) (sessionId : Str)
    (hne : ∀ js jd, ind.salida = some js → ind.duracion = some jd → js ≠ jd)
    (a : Avance) (cedula : Str) (hinv : Marco ind timestamp data a) :
    Marco ind timestamp data (evacuarUna E data ind bd timestamp sessionId a cedula) := by
  cases hb : buscarAbierta E ind cedula data.filas.reverse with
  | none =>
    have : evacuarUna E data ind bd timestamp sessionId a cedula = a := by
      unfold evacuarUna
      simp only [hb]
    rw [this]
    exact hinv
  | some ir =>
    obtain ⟨i, row⟩ := ir
    have hs := buscarAbierta_some E ind cedula data.filas.reverse i row hb
    have hcota := buscarAbierta_cota E ind cedula data.filas.reverse i row hb
    rw [List.reverse_reverse] at hs
    rw [List.length_reverse] at hcota
    obtain ⟨f, henc, hfil, ⟨p0, hper, hp0⟩, hf⟩ :=
      evacuarUna_escribe E data ind bd timestamp sessionId a cedula i row hne hb
    obtain ⟨h1, h2, h3, h4⟩ := hinv
    refine ⟨henc.trans h1, by rw [hfil, modificar_length]; exact h2, ?_, ?_⟩
    · intro p hp
      rw [hper] at hp
      rcases List.mem_append.mp hp with hp | hp
      · exact h3 p hp
      · rw [List.mem_singleton] at hp
        rw [hp, hp0]
        omega
    · intro k orig cur horig hcur
      rw [hfil, modificar_getElem?] at hcur
      by_cases hk : k = i - 1
      · rw [if_pos hk] at hcur
        cases hc0 : a.hoja.filas[k]? with
        | none => rw [hc0] at hcur; cases hcur
        | some cur0 =>
          rw [hc0] at hcur
          simp only [Option.map_some', Option.some.injEq] at hcur
          have horow : orig = row := by
            rw [hk, hs.2.1] at horig
            exact (Option.some.inj horig).symm
          obtain ⟨⟨ha1, ha2⟩, _, _⟩ := h4 k orig cur0 horig hc0
          refine ⟨⟨?_, ?_⟩, ?_, ?_⟩
          · intro j hj1 hj2
            rw [← hcur, (hf cur0).1 j hj1 hj2]
            exact ha1 j hj1 hj2
          · cases hsal : ind.salida with
            | none => exact Or.inl rfl
            | some js =>
              right
              rw [← hcur]
              exact (hf cur0).2 js hsal
          · intro hall
            exact absurd (by omega) (hall p0 (by rw [hper]; simp))
          · intro _
            refine ⟨by rw [horow]; exact hs.2.2.2, ?_⟩
            intro js hsal
            rw [← hcur]
            exact (hf cur0).2 js hsal
      · rw [if_neg hk] at hcur
        obtain ⟨ha, hb1, hb2⟩ := h4 k orig cur horig hcur
        refine ⟨ha, ?_, ?_⟩
        · intro hall
          exact hb1 (fun p hp => hall p (by rw [hper]; exact List.mem_append_left _ hp))
        · rintro ⟨p, hp, hpk⟩
          rw [hper] at hp
          rcases List.mem_append.mp hp with hp | hp
          · exact hb2 ⟨p, hp, hpk⟩
          · rw [List.mem_singleton] at hp
            rw [hp, hp0] at hpk
            exact absurd (by omega) hk

theorem foldl_evacuar_marco (E : Entorno) (data : Hoja) (ind : Indices) (bd : Option Hoja)
    (timestamp : Int) (sessionId : Str)
    (hne : ∀ js jd, ind.salida = some js → ind.duracion = some jd → js ≠ jd)
    (cedulas : List Str) (a : Avance) (hinv : Marco ind timestamp data a) :
    Marco ind timestamp data
      (cedulas.foldl (evacuarUna E data ind bd timestamp sessionId) a) := by
  induction cedulas generalizing a with
  | nil => exact hinv
  | cons c cs ih =>
    exact ih _ (evacuarUna_marco E data ind bd timestamp sessionId hne a c hinv)

theorem marco_inicial (ind : Indices) (timestamp : Int) (data : Hoja) (notas : List Nota) :
    Marco ind timestamp data ⟨data, notas, []⟩ := by
  refine ⟨rfl, rfl, fun p hp => (by cases hp), ?_⟩
  intro k orig cur horig hcur
  have hoc : cur = orig := by
    have : some cur = some orig := hcur.symm.trans horig
    exact Option.some.inj this
  refine ⟨⟨fun j _ _ => by rw [hoc], Or.inl (by rw [hoc])⟩, fun _ => hoc, ?_⟩
  rintro ⟨p, hp, _⟩
  cases hp

theorem real_marco (E : Entorno) (h : Hoja) (notas0 : List Nota) (bd : Option Hoja)
    (cedulas : List Str) (timestamp : Int) (sessionId : Str) :
    Marco (mapearIndicesColumnas E h.encabezado) timestamp h
      ⟨(procesarEvacuacionRealUnificada E h notas0 bd cedulas timestamp sessionId).2.1,
        (procesarEvacuacionRealUnificada E h notas0 bd cedulas timestamp sessionId).2.2,
        (procesarEvacuacionRealUnificada E h notas0 bd cedulas timestamp
          sessionId).1.personasEvacuadas⟩ :=
  foldl_evacuar_marco E h _ bd timestamp sessionId
    (fun js jd hs hd => salida_ne_duracion E h.encabezado js jd hs hd) cedulas _
    (marco_inicial _ timestamp h notas0)

/-- C25, counterexample. A target named twice is listed twice with the same ledger row, so
the resolved entries do not have one distinct row each; and in a ledger without exit column
the resolved row is listed while nothing is written to it. -/
theorem real_repite_o_no_escribe :
    (procesarEvacuacionRealUnificada entornoUTC ledgerEscenario [] none
      ["8-1-1".toList, "8-1-1".toList] (hora 17) "sesion-1".toList).1.personasEvacuadas.map
        (·.filaHistorial) = [2, 2] ∧
    (procesarEvacuacionRealUnificada entornoUTC ledgerSinSalida [] none ["8-1-1".toList]
      (hora 17) "sesion-1".toList).1.personasEvacuadas.map (·.filaHistorial) = [2] ∧
    (procesarEvacuacionRealUnificada entornoUTC ledgerSinSalida [] none ["8-1-1".toList]
      (hora 17) "sesion-1".toList).2.1 = ledgerSinSalida := by
  decide

/-- C25, amended. A real evacuation leaves the header and the number of rows of the
ledger as they were. Every `filaHistorial` of the resolved list is the number of a data
row. A row whose number is not in the resolved list is unchanged; a row whose number is
listed keeps every cell outside the exit and duration columns, was open before, and, when
the ledger has an exit column, holds the evacuation time in its exit cell, which was empty
before. A row can be listed more than once. -/
theorem real_solo_toca_filas_resueltas (E : Entorno) (h : Hoja) (notas0 : List Nota)
    (bd : Option Hoja) (cedulas : List Str) (timestamp : Int) (sessionId : Str) :
    (procesarEvacuacionRealUnificada E h notas0 bd cedulas timestamp sessionId).2.1.encabezado =
      h.encabezado ∧
    (procesarEvacuacionRealUnificada E h notas0 bd cedulas timestamp
      sessionId).2.1.filas.length = h.filas.length ∧
    (∀ p ∈ (procesarEvacuacionRealUnificada E h notas0 bd cedulas timestamp
        sessionId).1.personasEvacuadas,
      2 ≤ p.filaHistorial ∧ p.filaHistorial ≤ h.filas.length + 1) ∧
    ∀ (k : Nat) (orig cur : Fila), h.filas[k]? = some orig →
      (procesarEvacuacionRealUnificada E h notas0 bd cedulas timestamp
        sessionId).2.1.filas[k]? = some cur →
      (k + 2 ∉ (procesarEvacuacionRealUnificada E h notas0 bd cedulas timestamp
          sessionId).1.personasEvacuadas.map (·.filaHistorial) → cur = orig) ∧
      (∀ j : Nat, some j ≠ (mapearIndicesColumnas E h.encabezado).salida →
        some j ≠ (mapearIndicesColumnas E h.encabezado).duracion →
        leer cur (some j) = leer orig (some j)) ∧
      (k + 2 ∈ (procesarEvacuacionRealUnificada E h notas0 bd cedulas timestamp
          sessionId).1.personasEvacuadas.map (·.filaHistorial) →
        filaAbierta (mapearIndicesColumnas E h.encabezado) orig = true ∧
        ∀ js, (mapearIndicesColumnas E h.encabezado).salida = some js →
          leer cur (some js) = .fecha timestamp ∧ (leer orig (some js)).veraz = false) := by
  obtain ⟨h1, h2, h3, h4⟩ := real_marco E h notas0 bd cedulas timestamp sessionId
  refine ⟨h1, h2, h3, ?_⟩
  intro k orig cur horig hcur
  obtain ⟨⟨ha, _⟩, hb, hc⟩ := h4 k orig cur horig hcur
  refine ⟨?_, ha, ?_⟩
  · intro hno
    apply hb
    intro p hp hpk
    exact hno (List.mem_map.mpr ⟨p, hp, hpk⟩)
  · intro hsi
    obtain ⟨p, hp, hpk⟩ := List.mem_map.mp hsi
    obtain ⟨hab, hsal⟩ := hc ⟨p, hp, hpk⟩
    refine ⟨hab, fun js hjs => ⟨hsal js hjs, ?_⟩⟩
    unfold filaAbierta leerSi at hab
    rw [hjs] at hab
    simp only [Bool.and_eq_true, Bool.not_eq_true'] at hab
    exact hab.2

/-! ## C22: the ledger invariant -/

theorem unaAbierta_de_filas (E : Entorno) (ind : Indices) (l l2 : List Fila)
    (hlen : l2.length = l.length)
    (h : ∀ (k : Nat) (a a2 : Fila), l[k]? = some a → l2[k]? = some a2 →
      filaAbierta ind a2 = true →
      filaAbierta ind a = true ∧ cedulaDeFila E ind a2 = cedulaDeFila E ind a)
    (hinv : unaAbiertaPorIdentidad E ind l) : unaAbiertaPorIdentidad E ind l2 := by
  unfold unaAbiertaPorIdentidad at hinv ⊢
  rw [List.pairwise_iff_getElem] at hinv ⊢
  intro i j hi hj hij hcond
  have hi1 : i < l.length := by omega
  have hj1 : j < l.length := by omega
  have e1 := h i l[i] l2[i] (List.getElem?_eq_getElem hi1) (List.getElem?_eq_getElem hi)
    hcond.1
  have e2 := h j l[j] l2[j] (List.getElem?_eq_getElem hj1) (List.getElem?_eq_getElem hj)
    hcond.2.1
  apply hinv i j hi1 hj1 hij
  refine ⟨e1.1, e2.1, ?_⟩
  rw [← e1.2, ← e2.2]
  exact hcond.2.2

theorem unaAbierta_con_cerrada (E : Entorno) (ind : Indices) (l : List Fila) (r : Fila)
    (hr : filaAbierta ind r = false) (hinv : unaAbiertaPorIdentidad E ind l) :
    unaAbiertaPorIdentidad E ind (l ++ [r]) := by
  unfold unaAbiertaPorIdentidad at hinv ⊢
  rw [List.pairwise_append]
  refine ⟨hinv, List.pairwise_singleton _ _, ?_⟩
  intro a _ b hb hcond
  rw [List.mem_singleton] at hb
  rw [hb, hr] at hcond
  cases hcond.2.1

theorem columnas_leidas (E : Entorno) (headers : Fila) (j : Nat)
    (hj : (mapearIndicesColumnas E headers).cedula = some j ∨
      (mapearIndicesColumnas E headers).entrada = some j) :
    some j ≠ (mapearIndicesColumnas E headers).salida ∧
    some j ≠ (mapearIndicesColumnas E headers).duracion := by
  constructor
  · intro hs
    rcases hj with hj | hj
    · exact findIndex_distintos E headers _ _ (by decide) j j hj hs.symm rfl
    · exact findIndex_distintos E headers _ _ (by decide) j j hj hs.symm rfl
  · intro hs
    rcases hj with hj | hj
    · exact findIndex_distintos E headers _ _ (by decide) j j hj hs.symm rfl
    · exact findIndex_distintos E headers _ _ (by decide) j j hj hs.symm rfl

theorem solo_salida_abierta (E : Entorno) (headers : Fila) (timestamp : Int) (orig cur : Fila)
    (hs : SoloSalidaYDuracion (mapearIndicesColumnas E headers) timestamp orig cur)
    (hab : filaAbierta (mapearIndicesColumnas E headers) cur = true) :
    filaAbierta (mapearIndicesColumnas E headers) orig = true ∧
    cedulaDeFila E (mapearIndicesColumnas E headers) cur =
      cedulaDeFila E (mapearIndicesColumnas E headers) orig := by
  obtain ⟨h1, h2⟩ := hs
  have hced : leer cur (mapearIndicesColumnas E headers).cedula =
      leer orig (mapearIndicesColumnas E headers).cedula := by
    cases hc : (mapearIndicesColumnas E headers).cedula with
    | none => rfl
    | some j =>
      have := columnas_leidas E headers j (Or.inl hc)
      exact h1 j this.1 this.2
  have hent : leer cur (mapearIndicesColumnas E headers).entrada =
      leer orig (mapearIndicesColumnas E headers).entrada := by
    cases hc : (mapearIndicesColumnas E headers).entrada with
    | none => rfl
    | some j =>
      have := columnas_leidas E headers j (Or.inr hc)
      exact h1 j this.1 this.2
  refine ⟨?_, by unfold cedulaDeFila; rw [hced]⟩
  unfold filaAbierta leerSi at hab ⊢
  simp only [Bool.and_eq_true, Bool.not_eq_true'] at hab ⊢
  refine ⟨by rw [← hent]; exact hab.1, ?_⟩
  rcases h2 with h2 | h2
  · rw [← h2]
    exact hab.2
  · rw [h2] at hab
    cases hab.2

/-- C22, counterexample. In the scenario ledger no identity has two open rows. After an
entry is registered for `8-1-1`, who is already inside, `8-1-1` has two open rows. -/
theorem entrada_duplica_abierta :
    unaAbiertaPorIdentidad entornoUTC indicesFijos ledgerEscenario.filas ∧
    ¬ unaAbiertaPorIdentidad entornoUTC indicesFijos
      (registrarEnHistorial entornoUTC (mundoCon ledgerEscenario) ledgerEscenario (hora 12)
        accesoAna "entrada".toList).2.filas := by
  unfold unaAbiertaPorIdentidad
  decide

/-- C22, amended. The invariant that no normalised identity has two rows with an entry
and no exit is preserved by `registrarEnHistorial` with `'salida'`, by the real evacuation
and by the simulated evacuation (which leaves the ledger as it is). An `'entrada'`
appends an open row without looking at the ledger: it preserves the invariant when no open
row of the ledger has the normalised identity of the cédula being registered.
`registrarEnHistorial` is taken with its fixed columns, which are those of the standard
layout; the evacuation with the columns its header gives. -/
theorem operaciones_y_una_abierta (E : Entorno) (w : Mundo) (h : Hoja) (fecha : Int)
    (resultado : ResultadoAcceso) (notas0 : List Nota) (bd : Option Hoja) (cedulas : List Str)
    (timestamp : Int) (sessionId notas : Str) :
    (unaAbiertaPorIdentidad E indicesFijos h.filas →
      unaAbiertaPorIdentidad E indicesFijos
        (registrarEnHistorial E w h fecha resultado "salida".toList).2.filas) ∧
    (unaAbiertaPorIdentidad E indicesFijos h.filas →
      (∀ r ∈ h.filas, filaAbierta indicesFijos r = true →
        claveCedula (cedulaDeFila E indicesFijos r) ≠ claveCedula resultado.cedula) →
      unaAbiertaPorIdentidad E indicesFijos
        (registrarEnHistorial E w h fecha resultado "entrada".toList).2.filas) ∧
    (unaAbiertaPorIdentidad E (mapearIndicesColumnas E h.encabezado) h.filas →
      unaAbiertaPorIdentidad E (mapearIndicesColumnas E h.encabezado)
        (procesarEvacuacionRealUnificada E h notas0 bd cedulas timestamp
          sessionId).2.1.filas) ∧
    (despachar E w h "simulacro".toList cedulas timestamp sessionId notas).2 = w ∧
    ∀ E2 : Entorno, mapearIndicesColumnas E2 encabezadoHistorial = indicesFijos := by
  refine ⟨?_, ?_, ?_, rfl, fun _ => rfl⟩
  · intro hinv
    cases hg : w.simulacroEnCurso with
    | true =>
      have : (registrarEnHistorial E w h fecha resultado "salida".toList).2 = h := by
        unfold registrarEnHistorial
        simp only [hg, if_true]
      rw [this]
      exact hinv
    | false =>
      cases hb : buscarAbierta E indicesFijos resultado.cedula h.filas.reverse with
      | none =>
        rw [registrar_salida_sin_abierta E w h fecha resultado hg hb]
        exact unaAbierta_con_cerrada E indicesFijos h.filas _ rfl hinv
      | some ir =>
        obtain ⟨i, row⟩ := ir
        rw [(registrar_salida_con_abierta E w h fecha resultado hg i row hb).2]
        apply unaAbierta_de_filas E indicesFijos h.filas _ (modificar_length _ _ _) _ hinv
        intro k a a2 ha ha2 hab
        rw [modificar_getElem?] at ha2
        by_cases hk : k = i - 1
        · rw [if_pos hk, ha] at ha2
          simp only [Option.map_some', Option.some.injEq] at ha2
          rw [← ha2] at hab
          unfold filaAbierta leerSi at hab
          have h5 : indicesFijos.salida = some 5 := rfl
          rw [h5, (leer_cerrarFila fecha resultado row a).1] at hab
          simp [Celda.veraz] at hab
        · rw [if_neg hk, ha] at ha2
          cases ha2
          exact ⟨hab, rfl⟩
  · intro hinv hsin
    cases hg : w.simulacroEnCurso with
    | true =>
      have : (registrarEnHistorial E w h fecha resultado "entrada".toList).2 = h := by
        unfold registrarEnHistorial
        simp only [hg, if_true]
      rw [this]
      exact hinv
    | false =>
      rw [registrar_entrada E w h fecha resultado hg]
      unfold unaAbiertaPorIdentidad at hinv ⊢
      rw [List.pairwise_append]
      refine ⟨hinv, List.pairwise_singleton _ _, ?_⟩
      intro a ha b hb hcond
      rw [List.mem_singleton] at hb
      apply hsin a ha hcond.1
      rw [hcond.2.2, hb]
      have hced : cedulaDeFila E indicesFijos (filaDeEntrada fecha resultado) =
          trim resultado.cedula := by
        show trim ((Celda.texto resultado.cedula).textoO E) = _
        unfold Celda.textoO Celda.veraz Celda.aTexto
        by_cases hv : resultado.cedula = []
        · simp [hv]
        · simp [hv]
      rw [hced]
      unfold claveCedula
      rw [normalizar_trim]
  · intro hinv
    obtain ⟨_, h2, _, h4⟩ := real_marco E h notas0 bd cedulas timestamp sessionId
    apply unaAbierta_de_filas E _ h.filas _ h2 _ hinv
    intro k a a2 ha ha2 hab
    exact solo_salida_abierta E h.encabezado timestamp a a2 (h4 k a a2 ha ha2).1 hab

/-! ## C26: columns are found by header name in the scans -/

theorem indice_none {α : Type} (p : α → Bool) (l : List α) (h : indice p l = none) :
    ∀ x ∈ l, p x = false := by
  induction l with
  | nil => intro x hx; cases hx
  | cons y ys ih =>
    unfold indice at h
    split_ifs at h with hy
    have hn : indice p ys = none := by
      cases hi : indice p ys with
      | none => rfl
      | some j => rw [hi] at h; cases h
    intro x hx
    rcases List.mem_cons.mp hx with hx | hx
    · rw [hx]
      simpa using hy
    · exact ih hn x hx

theorem leer_permutarFila (σ : List Nat) (r : Fila) (j2 j : Nat) (h : σ[j2]? = some j) :
    leer (permutarFila σ r) (some j2) = leer r (some j) := by
  unfold leer permutarFila
  simp only
  rw [List.getD_eq_getElem?_getD, List.getElem?_map, h]
  rfl

theorem getElem?_permutarFila (σ : List Nat) (r : Fila) (k : Nat) :
    (permutarFila σ r)[k]? = (σ[k]?).map (fun j => r.getD j vacia) := by
  unfold permutarFila
  rw [List.getElem?_map]

theorem indice_permutado (E : Entorno) (σ : List Nat) (headers : Fila) (nombre : String)
    (hσ : σ.Perm (List.range headers.length)) (hd : EncabezadosDistintos E headers) :
    Corresponde σ
      (indice (fun h => h.veraz && trim (aMinusculas (h.aTexto E)) == nombre.toList)
        (permutarFila σ headers))
      (indice (fun h => h.veraz && trim (aMinusculas (h.aTexto E)) == nombre.toList)
        headers) := by
  have hvacia : (fun h : Celda => h.veraz && trim (aMinusculas (h.aTexto E)) == nombre.toList)
      vacia = false := rfl
  -- a cell of the rearranged header that has the name is a cell of the header
  have hde : ∀ (j2 : Nat) (y : Celda), (permutarFila σ headers)[j2]? = some y →
      (y.veraz && trim (aMinusculas (y.aTexto E)) == nombre.toList) = true →
      ∃ j, σ[j2]? = some j ∧ headers[j]? = some y := by
    intro j2 y hy hp
    rw [getElem?_permutarFila] at hy
    cases hs : σ[j2]? with
    | none => rw [hs] at hy; cases hy
    | some j =>
      rw [hs] at hy
      simp only [Option.map_some', Option.some.injEq] at hy
      refine ⟨j, rfl, ?_⟩
      by_cases hj : j < headers.length
      · rw [List.getElem?_eq_getElem hj, ← hy, List.getD_eq_getElem?_getD,
          List.getElem?_eq_getElem hj]
        rfl
      · rw [List.getD_eq_getElem?_getD, List.getElem?_eq_none (by omega)] at hy
        rw [← hy] at hp
        have hp2 : (fun h : Celda => h.veraz &&
            trim (aMinusculas (h.aTexto E)) == nombre.toList) vacia = true := hp
        rw [hvacia] at hp2
        cases hp2
  cases h1 : indice (fun h => h.veraz && trim (aMinusculas (h.aTexto E)) == nombre.toList)
      headers with
  | none =>
    left
    refine ⟨?_, rfl⟩
    cases h2 : indice (fun h => h.veraz && trim (aMinusculas (h.aTexto E)) == nombre.toList)
        (permutarFila σ headers) with
    | none => rfl
    | some j2 =>
      obtain ⟨y, hy, hp⟩ := indice_some _ _ j2 h2
      obtain ⟨j, _, hj⟩ := hde j2 y hy hp
      have := indice_none _ _ h1 y (List.getElem?_mem hj)
      rw [this] at hp
      cases hp
  | some j =>
    right
    obtain ⟨x, hx, hpx⟩ := indice_some _ _ j h1
    have hjlt : j < headers.length := by
      by_contra hc
      rw [List.getElem?_eq_none (by omega)] at hx
      cases hx
    have hjσ : j ∈ σ := (hσ.mem_iff).mpr (List.mem_range.mpr hjlt)
    obtain ⟨j1, hj1⟩ := List.mem_iff_getElem?.mp hjσ
    have hx2 : (permutarFila σ headers)[j1]? = some x := by
      rw [getElem?_permutarFila, hj1]
      simp only [Option.map_some', Option.some.injEq]
      rw [List.getD_eq_getElem?_getD, hx]
      rfl
    cases h2 : indice (fun h => h.veraz && trim (aMinusculas (h.aTexto E)) == nombre.toList)
        (permutarFila σ headers) with
    | none =>
      have := indice_none _ _ h2 x (List.getElem?_mem hx2)
      rw [this] at hpx
      cases hpx
    | some j2 =>
      obtain ⟨y, hy, hpy⟩ := indice_some _ _ j2 h2
      obtain ⟨j3, hj3, hy3⟩ := hde j2 y hy hpy
      refine ⟨j2, j, rfl, rfl, ?_⟩
      have hj3lt : j3 < headers.length := by
        by_contra hc
        rw [List.getElem?_eq_none (by omega)] at hy3
        cases hy3
      have heq : j3 = j := by
        unfold EncabezadosDistintos at hd
        rw [List.pairwise_iff_getElem] at hd
        simp only [Bool.and_eq_true, beq_iff_eq] at hpx hpy
        have hxe : headers[j] = x := by
          have := List.getElem?_eq_getElem hjlt
          rw [hx] at this
          exact (Option.some.inj this).symm
        have hye : headers[j3] = y := by
          have := List.getElem?_eq_getElem hj3lt
          rw [hy3] at this
          exact (Option.some.inj this).symm
        rcases Nat.lt_trichotomy j3 j with hlt | heq | hgt
        · exact absurd ⟨by rw [hye]; exact hpy.1, by rw [hxe]; exact hpx.1, by
            unfold nombreColumna; rw [hye, hxe, hpy.2, hpx.2]⟩ (hd j3 j hj3lt hjlt hlt)
        · exact heq
        · exact absurd ⟨by rw [hxe]; exact hpx.1, by rw [hye]; exact hpy.1, by
            unfold nombreColumna; rw [hye, hxe, hpy.2, hpx.2]⟩ (hd j j3 hjlt hj3lt hgt)
      rw [hj3, heq]

theorem findIndex_permutado (E : Entorno) (σ : List Nat) (headers : Fila)
    (hσ : σ.Perm (List.range headers.length)) (hd : EncabezadosDistintos E headers)
    (nombres : List String) :
    Corresponde σ (findIndex E (permutarFila σ headers) nombres)
      (findIndex E headers nombres) := by
  induction nombres with
  | nil => exact Or.inl ⟨rfl, rfl⟩
  | cons n ns ih =>
    unfold findIndex
    rcases indice_permutado E σ headers n hσ hd with ⟨h2, h1⟩ | ⟨j2, j, h2, h1, hj⟩
    · rw [h2, h1]
      exact ih
    · rw [h2, h1]
      exact Or.inr ⟨j2, j, rfl, rfl, hj⟩

theorem corresponde_leer (σ : List Nat) (o2 o : Option Nat) (h : Corresponde σ o2 o)
    (r : Fila) : leer (permutarFila σ r) o2 = leer r o := by
  rcases h with ⟨h2, h1⟩ | ⟨j2, j, h2, h1, hj⟩
  · rw [h2, h1]
    rfl
  · rw [h2, h1]
    exact leer_permutarFila σ r j2 j hj

theorem indices_permutados (E : Entorno) (σ : List Nat) (headers : Fila)
    (hσ : σ.Perm (List.range headers.length)) (hd : EncabezadosDistintos E headers) :
    IndicesCorresponden σ (mapearIndicesColumnas E (permutarFila σ headers))
      (mapearIndicesColumnas E headers) :=
  ⟨findIndex_permutado E σ headers hσ hd _, findIndex_permutado E σ headers hσ hd _,
    findIndex_permutado E σ headers hσ hd _, findIndex_permutado E σ headers hσ hd _,
    findIndex_permutado E σ headers hσ hd _, findIndex_permutado E σ headers hσ hd _⟩

theorem cedulaDeFila_permutada (E : Entorno) (σ : List Nat) (ind2 ind : Indices)
    (hc : IndicesCorresponden σ ind2 ind) (r : Fila) :
    cedulaDeFila E ind2 (permutarFila σ r) = cedulaDeFila E ind r := by
  unfold cedulaDeFila
  rw [corresponde_leer σ _ _ hc.1]

theorem filaAbierta_permutada (σ : List Nat) (ind2 ind : Indices)
    (hc : IndicesCorresponden σ ind2 ind) (r : Fila) :
    filaAbierta ind2 (permutarFila σ r) = filaAbierta ind r := by
  unfold filaAbierta leerSi
  rw [corresponde_leer σ _ _ hc.2.2.2.1, corresponde_leer σ _ _ hc.2.2.2.2.1]

theorem registroDentro_permutado (E : Entorno) (σ : List Nat) (ind2 ind : Indices)
    (hc : IndicesCorresponden σ ind2 ind) (r : Fila) :
    registroDentro E ind2 (permutarFila σ r) = registroDentro E ind r := by
  unfold registroDentro leerSi
  rw [cedulaDeFila_permutada E σ ind2 ind hc, corresponde_leer σ _ _ hc.2.1,
    corresponde_leer σ _ _ hc.2.2.1, corresponde_leer σ _ _ hc.2.2.2.1]

theorem nombreEmpresa_permutado (E : Entorno) (σ : List Nat) (ind2 ind : Indices)
    (hc : IndicesCorresponden σ ind2 ind) (bd : Option Hoja) (r : Fila) :
    nombreEmpresa E ind2 bd (permutarFila σ r) = nombreEmpresa E ind bd r := by
  unfold nombreEmpresa
  rw [cedulaDeFila_permutada E σ ind2 ind hc, corresponde_leer σ _ _ hc.2.1,
    corresponde_leer σ _ _ hc.2.2.1]

theorem pasoDentro_permutado (E : Entorno) (σ : List Nat) (ind2 ind : Indices)
    (hc : IndicesCorresponden σ ind2 ind) (mapa : List PersonaDentro) (r : Fila) :
    pasoDentro E ind2 mapa (permutarFila σ r) = pasoDentro E ind mapa r := by
  unfold pasoDentro
  rw [cedulaDeFila_permutada E σ ind2 ind hc, filaAbierta_permutada σ ind2 ind hc,
    registroDentro_permutado E σ ind2 ind hc]

theorem escanearDentro_permutado (E : Entorno) (σ : List Nat) (ind2 ind : Indices)
    (hc : IndicesCorresponden σ ind2 ind) (filas : List Fila) :
    escanearDentro E ind2 (filas.map (permutarFila σ)) = escanearDentro E ind filas := by
  unfold escanearDentro
  rw [← List.map_reverse, List.foldl_map]
  congr 1
  funext mapa r
  exact pasoDentro_permutado E σ ind2 ind hc mapa r

theorem buscarAbierta_permutada (E : Entorno) (σ : List Nat) (ind2 ind : Indices)
    (hc : IndicesCorresponden σ ind2 ind) (cedula : Str) (rows : List Fila) :
    buscarAbierta E ind2 cedula (rows.map (permutarFila σ)) =
      (buscarAbierta E ind cedula rows).map (fun ir => (ir.1, permutarFila σ ir.2)) := by
  induction rows with
  | nil => rfl
  | cons r rs ih =>
    rw [List.map_cons]
    unfold buscarAbierta
    rw [cedulaDeFila_permutada E σ ind2 ind hc, filaAbierta_permutada σ ind2 ind hc, ih,
      List.length_map]
    split_ifs <;> rfl

theorem simularUna_permutada (E : Entorno) (σ : List Nat) (data : Hoja) (ind2 ind : Indices)
    (hc : IndicesCorresponden σ ind2 ind) (bd : Option Hoja) (timestamp : Int) (notas : Str)
    (ps : List PersonaEvacuada) (cedula : Str) :
    simularUna E (permutarHoja σ data) ind2 bd timestamp notas ps cedula =
      simularUna E data ind bd timestamp notas ps cedula := by
  unfold simularUna
  have hrev : (permutarHoja σ data).filas.reverse = data.filas.reverse.map (permutarFila σ) := by
    unfold permutarHoja
    rw [List.map_reverse]
  rw [hrev, buscarAbierta_permutada E σ ind2 ind hc]
  cases buscarAbierta E ind cedula data.filas.reverse with
  | none => rfl
  | some ir =>
    obtain ⟨i, row⟩ := ir
    simp only [Option.map_some', leerSi, cedulaDeFila_permutada E σ ind2 ind hc,
      nombreEmpresa_permutado E σ ind2 ind hc, corresponde_leer σ _ _ hc.2.2.2.1]

theorem ponerCelda_permutada (σ : List Nat) (hn : σ.Nodup) (cur : Fila) (js2 js : Nat)
    (v : Celda) (hjs : σ[js2]? = some js) :
    permutarFila σ (ponerCelda cur js v) = ponerCelda (permutarFila σ cur) js2 v := by
  have hlt : js2 < σ.length := by
    by_contra hc
    rw [List.getElem?_eq_none (by omega)] at hjs
    cases hjs
  have hlen : (permutarFila σ cur).length = σ.length := by
    unfold permutarFila
    rw [List.length_map]
  apply List.ext_getElem?
  intro k
  have hr : (ponerCelda (permutarFila σ cur) js2 v)[k]? =
      if js2 = k then some v else (permutarFila σ cur)[k]? := by
    unfold ponerCelda
    rw [if_pos (by rw [hlen]; exact hlt), List.getElem?_set, hlen, if_pos hlt]
  rw [hr, getElem?_permutarFila, getElem?_permutarFila]
  by_cases hk : js2 = k
  · rw [if_pos hk, ← hk, hjs]
    exact congrArg some (leer_ponerCelda_mismo cur js v)
  · rw [if_neg hk]
    cases hs : σ[k]? with
    | none => rfl
    | some j =>
      have hj : j ≠ js := by
        intro h
        apply hk
        exact List.getElem?_inj hlt hn (by rw [hjs, hs, h])
      exact congrArg some (leer_ponerCelda_otro cur js j v hj)

theorem modificar_map {α β : Type} (f : α → α) (f2 : β → β) (g : α → β)
    (h : ∀ x, g (f x) = f2 (g x)) (i : Nat) (l : List α) :
    (modificar f i l).map g = modificar f2 i (l.map g) := by
  induction l generalizing i with
  | nil => cases i <;> rfl
  | cons x xs ih =>
    cases i with
    | zero =>
      show g (f x) :: xs.map g = f2 (g x) :: xs.map g
      rw [h]
    | succ n =>
      show g x :: (modificar f n xs).map g = g x :: modificar f2 n (xs.map g)
      rw [ih]

theorem setValue_igual (g : Hoja) (i col : Nat) (v : Celda) (hi : 1 ≤ i) :
    g.setValue (i + 1) col v =
      ⟨g.encabezado, modificar (fun r => ponerCelda r (col - 1) v) (i - 1) g.filas⟩ := by
  have := setValue_filas g i col v hi
  cases hgv : g.setValue (i + 1) col v with
  | mk e f =>
    rw [hgv] at this
    simp only at this
    rw [this.1, this.2]

theorem setValue_permutada (σ : List Nat) (hn : σ.Nodup) (g : Hoja) (i js2 js : Nat)
    (v : Celda) (hi : 1 ≤ i) (hjs : σ[js2]? = some js) :
    (permutarHoja σ g).setValue (i + 1) (js2 + 1) v =
      permutarHoja σ (g.setValue (i + 1) (js + 1) v) := by
  rw [setValue_igual _ i _ v hi, setValue_igual _ i _ v hi]
  unfold permutarHoja
  simp only [Nat.add_sub_cancel]
  rw [modificar_map (fun r => ponerCelda r js v) (fun r => ponerCelda r js2 v) (permutarFila σ)
    (fun x => ponerCelda_permutada σ hn x js2 js v hjs)]

theorem evacuarUna_permutada (E : Entorno) (σ : List Nat) (hn : σ.Nodup) (data : Hoja)
    (ind2 ind : Indices) (hc : IndicesCorresponden σ ind2 ind) (bd : Option Hoja)
    (timestamp : Int) (sessionId : Str) (a2 a : Avance) (cedula : Str)
    (hh : a2.hoja = permutarHoja σ a.hoja) (hp : a2.personas = a.personas) :
    (evacuarUna E (permutarHoja σ data) ind2 bd timestamp sessionId a2 cedula).hoja =
      permutarHoja σ (evacuarUna E data ind bd timestamp sessionId a cedula).hoja ∧
    (evacuarUna E (permutarHoja σ data) ind2 bd timestamp sessionId a2 cedula).personas =
      (evacuarUna E data ind bd timestamp sessionId a cedula).personas := by
  have hrev : (permutarHoja σ data).filas.reverse = data.filas.reverse.map (permutarFila σ) := by
    unfold permutarHoja
    rw [List.map_reverse]
  have hb2 := buscarAbierta_permutada E σ ind2 ind hc cedula data.filas.reverse
  rw [← hrev] at hb2
  cases hb : buscarAbierta E ind cedula data.filas.reverse with
  | none =>
    rw [hb] at hb2
    unfold evacuarUna
    simp only [hb, hb2, Option.map_none']
    exact ⟨hh, hp⟩
  | some ir =>
    obtain ⟨i, row⟩ := ir
    have hi := (buscarAbierta_some E ind cedula _ i row hb).1
    rw [hb] at hb2
    simp only [Option.map_some'] at hb2
    have hent : leerSi (permutarFila σ row) ind2.entrada = leerSi row ind.entrada :=
      corresponde_leer σ _ _ hc.2.2.2.1 row
    unfold evacuarUna
    simp only [hb, hb2, hent, hh, hp, cedulaDeFila_permutada E σ ind2 ind hc,
      nombreEmpresa_permutado E σ ind2 ind hc]
    refine ⟨?_, trivial⟩
    rcases hc.2.2.2.2.1 with ⟨hs2, hs1⟩ | ⟨js2, js, hs2, hs1, hjs⟩
    · simp only [hs2, hs1]
      cases he : leerSi row ind.entrada with
      | fecha e =>
        rcases hc.2.2.2.2.2 with ⟨hd2, hd1⟩ | ⟨jd2, jd, hd2, hd1, hjd⟩
        · simp only [hd2, hd1]
        · simp only [hd2, hd1]
          exact setValue_permutada σ hn _ i jd2 jd _ hi hjd
      | texto s => rfl
      | numero n => rfl
      | booleano b => rfl
    · simp only [hs2, hs1]
      cases he : leerSi row ind.entrada with
      | fecha e =>
        rcases hc.2.2.2.2.2 with ⟨hd2, hd1⟩ | ⟨jd2, jd, hd2, hd1, hjd⟩
        · simp only [hd2, hd1]
          exact setValue_permutada σ hn _ i js2 js _ hi hjs
        · simp only [hd2, hd1]
          rw [setValue_permutada σ hn _ i js2 js _ hi hjs,
            setValue_permutada σ hn _ i jd2 jd _ hi hjd]
      | texto s => exact setValue_permutada σ hn _ i js2 js _ hi hjs
      | numero n => exact setValue_permutada σ hn _ i js2 js _ hi hjs
      | booleano b => exact setValue_permutada σ hn _ i js2 js _ hi hjs

theorem foldl_evacuar_permutada (E : Entorno) (σ : List Nat) (hn : σ.Nodup) (data : Hoja)
    (ind2 ind : Indices) (hc : IndicesCorresponden σ ind2 ind) (bd : Option Hoja)
    (timestamp : Int) (sessionId : Str) (cedulas : List Str) (a2 a : Avance)
    (hh : a2.hoja = permutarHoja σ a.hoja) (hp : a2.personas = a.personas) :
    (cedulas.foldl (evacuarUna E (permutarHoja σ data) ind2 bd timestamp sessionId) a2).hoja =
      permutarHoja σ (cedulas.foldl (evacuarUna E data ind bd timestamp sessionId) a).hoja ∧
    (cedulas.foldl (evacuarUna E (permutarHoja σ data) ind2 bd timestamp sessionId)
        a2).personas =
      (cedulas.foldl (evacuarUna E data ind bd timestamp sessionId) a).personas := by
  induction cedulas generalizing a2 a with
  | nil => exact ⟨hh, hp⟩
  | cons c cs ih =>
    have hstep := evacuarUna_permutada E σ hn data ind2 ind hc bd timestamp sessionId a2 a c
      hh hp
    exact ih _ _ hstep.1 hstep.2

/-- C26, counterexample. The columns of the scenario ledger have distinct names. With the
first two columns exchanged together with their headers, `registrarEnHistorial` treats the
exit of `8-1-1`, who is inside, as an orphan exit: it reads the cédula at position 2
whatever the header says. In the standard layout the same exit is not an orphan exit. -/
theorem registrarEnHistorial_usa_posiciones :
    EncabezadosDistintos entornoUTC ledgerEscenario.encabezado ∧
    (registrarEnHistorial entornoUTC (mundoCon ledgerEscenario) ledgerEscenario (hora 17)
      accesoAna "salida".toList).1.sinEntradaPrevia = false ∧
    (registrarEnHistorial entornoUTC (mundoCon ledgerEscenario)
      (permutarHoja intercambio ledgerEscenario) (hora 17) accesoAna
      "salida".toList).1.sinEntradaPrevia = true := by
  unfold EncabezadosDistintos
  decide

/-- C26, amended. The occupancy scan and the simulated and real evacuation scans find the
cédula, name, company, entry, exit and duration columns by header name: when the columns
of a ledger whose header names are distinct are rearranged together with their headers,
`getEvacuacionDataForClient` returns the same answer, the simulated scan the same result,
the real scan the same result (the same persons and ledger row numbers), and the ledger
the real scan leaves is the rearranged ledger it leaves without the rearrangement.
`registrarEnHistorial` is not covered: it works on fixed positions. -/
theorem escaneos_por_nombre_de_columna (E : Entorno) (σ : List Nat) (h : Hoja)
    (notas0 : List Nota) (bd : Option Hoja) (cedulas : List Str) (timestamp : Int)
    (sessionId notas : Str) (hσ : σ.Perm (List.range h.encabezado.length))
    (hd : EncabezadosDistintos E h.encabezado) :
    getEvacuacionDataForClient E (some (permutarHoja σ h)) =
      getEvacuacionDataForClient E (some h) ∧
    procesarSimulacroUnificado E (permutarHoja σ h) bd cedulas timestamp sessionId notas =
      procesarSimulacroUnificado E h bd cedulas timestamp sessionId notas ∧
    (procesarEvacuacionRealUnificada E (permutarHoja σ h) notas0 bd cedulas timestamp
      sessionId).1 =
      (procesarEvacuacionRealUnificada E h notas0 bd cedulas timestamp sessionId).1 ∧
    (procesarEvacuacionRealUnificada E (permutarHoja σ h) notas0 bd cedulas timestamp
      sessionId).2.1 =
      permutarHoja σ
        (procesarEvacuacionRealUnificada E h notas0 bd cedulas timestamp sessionId).2.1 := by
  have hn : σ.Nodup := (hσ.nodup_iff).mpr (List.nodup_range _)
  have hc := indices_permutados E σ h.encabezado hσ hd
  have henc : (permutarHoja σ h).encabezado = permutarFila σ h.encabezado := rfl
  have hfil : (permutarHoja σ h).filas = h.filas.map (permutarFila σ) := rfl
  refine ⟨?_, ?_, ?_, ?_⟩
  · unfold getEvacuacionDataForClient
    simp only [henc, hfil, List.map_eq_nil_iff, escanearDentro_permutado E σ _ _ hc]
  · unfold procesarSimulacroUnificado
    have hfun : simularUna E (permutarHoja σ h)
        (mapearIndicesColumnas E (permutarHoja σ h).encabezado) bd timestamp notas =
        simularUna E h (mapearIndicesColumnas E h.encabezado) bd timestamp notas := by
      funext ps c
      exact simularUna_permutada E σ h _ _ hc bd timestamp notas ps c
    simp only [hfun]
  · have hf := foldl_evacuar_permutada E σ hn h _ _ hc bd timestamp sessionId cedulas
      ⟨permutarHoja σ h, notas0, []⟩ ⟨h, notas0, []⟩ rfl rfl
    unfold procesarEvacuacionRealUnificada
    simp only [henc, hf.2]
  · have hf := foldl_evacuar_permutada E σ hn h _ _ hc bd timestamp sessionId cedulas
      ⟨permutarHoja σ h, notas0, []⟩ ⟨h, notas0, []⟩ rfl rfl
    unfold procesarEvacuacionRealUnificada
    exact hf.1

/-- Instance of C26: the scenario ledger with its first two columns exchanged gives the
occupancy of the scenario ledger. -/
theorem escaneos_por_nombre_de_columna_witness :
    intercambio.Perm (List.range ledgerEscenario.encabezado.length) ∧
    EncabezadosDistintos entornoUTC ledgerEscenario.encabezado ∧
    getEvacuacionDataForClient entornoUTC (some (permutarHoja intercambio ledgerEscenario)) =
      getEvacuacionDataForClient entornoUTC (some ledgerEscenario) :=
  ⟨by decide, by unfold EncabezadosDistintos; decide,
    (escaneos_por_nombre_de_columna entornoUTC intercambio ledgerEscenario [] none
      ["8-1-1".toList] (hora 17) "sesion-1".toList [] (by decide)
      (by unfold EncabezadosDistintos; decide)).1⟩

/-! ## C9: where a second pass changes nothing -/

theorem pElementos_arr (f : Nat) (s : Str) (acc : List (Option Str)) (v : Json) (r : Str)
    (h : pElementos f s acc = some (v, r)) : ∃ t, v = .arr t := by
  induction f generalizing s acc with
  | zero => simp [pElementos] at h
  | succ n ih =>
    rw [pElementos] at h
    split at h
    · cases h
    · split at h
      · exact ih _ _ h
      · cases h
        exact ⟨_, rfl⟩
      · cases h

theorem pValor_sin_objeto (f : Nat) (s : Str) (v : Json) (r : Str)
    (h : pValor f s = some (v, r)) (hs : ∀ r0, saltar s ≠ '\x7b' :: r0) :
    ∀ campos, v ≠ .obj campos := by
  intro campos hv
  cases f with
  | zero => simp [pValor] at h
  | succ n =>
    rw [pValor] at h
    split at h
    · rename_i r1 heq
      exact hs _ heq
    · split at h
      · cases h
        cases hv
      · obtain ⟨t, ht⟩ := pElementos_arr _ _ _ _ _ h
        rw [ht] at hv
        cases hv
    · cases hp : pCadena _ [] with
      | none => rw [hp] at h; cases h
      | some tr =>
        rw [hp] at h
        cases h
        cases hv
    · cases h
      cases hv
    · cases h
      cases hv
    · cases h
      cases hv
    · split_ifs at h
      · obtain ⟨n2, hn⟩ := pNumero_num _ _ _ h
        rw [hn] at hv
        cases hv
    · cases h

theorem probarCampos_forma (campos : List (Str × Dato)) (l : List Str) (v : Str)
    (h : probarCampos campos l = .ok (some v)) : formaCampo v = true := by
  induction l with
  | nil => simp [probarCampos] at h
  | cons campo resto ih =>
    unfold probarCampos at h
    cases hp : propiedad campos campo with
    | none =>
      rw [hp] at h
      exact ih h
    | some d =>
      rw [hp] at h
      dsimp only at h
      cases hv : d.veraz with
      | false =>
        simp only [hv, Bool.false_eq_true, if_false] at h
        exact ih h
      | true =>
        simp only [hv, if_true] at h
        cases ht : d.texto with
        | none =>
          rw [ht] at h
          cases h
        | some valor =>
          rw [ht] at h
          dsimp only at h
          split_ifs at h with hf
          · cases h
            exact hf
          · exact ih h

theorem intentoJson_devuelve (y v : Str) (h : valorDevuelto (intentoJson y) = some v) :
    (∃ r0, saltar y = '\x7b' :: r0) ∧ formaCampo v = true := by
  unfold intentoJson at h
  cases hj : jsonParse y with
  | none =>
    rw [hj] at h
    cases h
  | some j =>
    rw [hj] at h
    cases j with
    | nulo => cases h
    | bool b => cases h
    | num n => cases h
    | str t => cases h
    | arr t => cases h
    | obj campos =>
      dsimp only at h
      have hok : probarCampos campos campoPosibles = .ok (some v) := by
        cases hp : probarCampos campos campoPosibles with
        | error e => rw [hp] at h; cases h
        | ok r =>
          rw [hp] at h
          cases r with
          | none => cases h
          | some w =>
            cases h
            rfl
      refine ⟨?_, probarCampos_forma campos campoPosibles v hok⟩
      by_contra hno
      have hs : ∀ r0, saltar y ≠ '\x7b' :: r0 := fun r0 hr => hno ⟨r0, hr⟩
      unfold jsonParse at hj
      cases hp : pValor (2 * y.length + 2) y with
      | none => rw [hp] at hj; cases hj
      | some vr =>
        obtain ⟨v2, r2⟩ := vr
        rw [hp] at hj
        dsimp only at hj
        split_ifs at hj
        cases hj
        exact pValor_sin_objeto _ _ _ _ hp hs campos rfl

theorem extraer_forma (ps : List (List Nodo)) (s c : Str)
    (h : extraerPorPatron ps s = some c) : formaRazonable c = true := by
  induction ps with
  | nil => cases h
  | cons p ps ih =>
    unfold extraerPorPatron at h
    cases hb : buscar p s with
    | none =>
      rw [hb] at h
      exact ih h
    | some resultado =>
      rw [hb] at h
      dsimp only at h
      split_ifs at h with hc
      · cases h
        exact hc.2
      · exact ih h

theorem forma_alfaGuion (y : Str) (h : formaRazonable y = true) :
    (∀ c ∈ y, esAlfaGuion c = true) ∧ 3 ≤ y.length ∧ y.length ≤ 20 := by
  unfold formaRazonable at h
  simp only [Bool.and_eq_true, List.all_eq_true, decide_eq_true_eq] at h
  exact ⟨h.1.1, h.1.2, h.2⟩

theorem forma_sin_espacios (y : Str) (h : formaRazonable y = true) :
    ∀ c ∈ y, esEspacio c = false :=
  fun c hc => alfaGuion_no_espacio c ((forma_alfaGuion y h).1 c hc)

theorem palabraGuion_no_espacio (c : Char) (h : esPalabraGuion c = true) :
    esEspacio c = false := by
  have hr : (65 ≤ c.toNat ∧ c.toNat ≤ 90) ∨ (97 ≤ c.toNat ∧ c.toNat ≤ 122) ∨
      (48 ≤ c.toNat ∧ c.toNat ≤ 57) ∨ c.toNat = 95 ∨ c.toNat = 45 := by
    simp only [esPalabraGuion, esPalabra, esLetra, esMayuscula, esMinuscula, esDigito,
      Bool.or_eq_true, Bool.and_eq_true, decide_eq_true_eq, beq_iff_eq] at h
    rcases h with (((h | h) | h) | h) | h
    · exact Or.inl h
    · exact Or.inr (Or.inl h)
    · exact Or.inr (Or.inr (Or.inl h))
    · rw [h]
      exact Or.inr (Or.inr (Or.inr (Or.inl rfl)))
    · rw [h]
      exact Or.inr (Or.inr (Or.inr (Or.inr rfl)))
  unfold esEspacio
  simp only [Bool.or_eq_false_iff, Bool.and_eq_false_iff, decide_eq_false_iff_not,
    beq_eq_false_iff_ne, ne_eq]
  omega

theorem campo_sin_espacios (y : Str) (h : formaCampo y = true) :
    ∀ c ∈ y, esEspacio c = false := by
  unfold formaCampo at h
  simp only [Bool.and_eq_true, List.all_eq_true, decide_eq_true_eq] at h
  exact fun c hc => palabraGuion_no_espacio c (h.1.1 c hc)

theorem tramosDigitos_forma (s cur : Str) (hcur : ∀ c ∈ cur, esDigito c = true)
    (hlen : cur.length ≤ 15) :
    ∀ d ∈ tramosDigitos s cur, (∀ c ∈ d, esDigito c = true) ∧ 5 ≤ d.length ∧
      d.length ≤ 15 := by
  induction s generalizing cur with
  | nil =>
    intro d hd
    unfold tramosDigitos at hd
    split_ifs at hd with h5
    · rw [List.mem_singleton] at hd
      rw [hd]
      exact ⟨fun c hc => hcur c (List.mem_reverse.mp hc), by simpa using h5,
        by simpa using hlen⟩
    · cases hd
  | cons x xs ih =>
    intro d hd
    unfold tramosDigitos at hd
    split_ifs at hd with hx h15 h5
    · rcases List.mem_cons.mp hd with hd | hd
      · rw [hd]
        exact ⟨fun c hc => hcur c (List.mem_reverse.mp hc), by simp; omega, by simp; omega⟩
      · exact ih [x] (fun c hc => by rw [List.mem_singleton] at hc; rw [hc]; exact hx)
          (by simp) d hd
    · refine ih (x :: cur) ?_ ?_ d hd
      · intro c hc
        rcases List.mem_cons.mp hc with hc | hc
        · rw [hc]; exact hx
        · exact hcur c hc
      · simp only [List.length_cons]
        omega
    · rcases List.mem_cons.mp hd with hd | hd
      · rw [hd]
        exact ⟨fun c hc => hcur c (List.mem_reverse.mp hc), by simpa using h5,
          by simpa using hlen⟩
      · exact ih [] (fun c hc => by cases hc) (by simp) d hd
    · exact ih [] (fun c hc => by cases hc) (by simp) d hd

theorem tramosDigitos_razonable (s d : Str) (hd : d ∈ tramosDigitos s []) :
    formaRazonable d = true := by
  obtain ⟨h1, h2, h3⟩ := tramosDigitos_forma s [] (fun c hc => by cases hc) (by simp) d hd
  exact digitos_formaRazonable d h1 (by omega) (by omega)

theorem trim_cabeza (s : Str) (c : Char) (cs : Str) (ht : trim s = c :: cs) :
    esEspacio c = false := by
  unfold trim at ht
  have hrev : ((s.dropWhile esEspacio).reverse.dropWhile esEspacio).getLast? = some c := by
    rw [← List.head?_reverse, ht]
    rfl
  have h2 := dropWhile_ultimo esEspacio _ c hrev
  rw [List.getLast?_reverse] at h2
  cases hd : s.dropWhile esEspacio with
  | nil => rw [hd] at h2; cases h2
  | cons x xs =>
    rw [hd] at h2
    simp only [List.head?_cons, Option.some.injEq] at h2
    rw [← h2]
    exact dropWhile_cabeza esEspacio s x xs hd

theorem sinEspacios_mem (s : Str) : ∀ c ∈ sinEspacios s, esEspacio c = false := by
  intro c hc
  unfold sinEspacios at hc
  have := (List.mem_filter.mp hc).2
  simpa using this

theorem normalizar_pasos (x : Str) (hne : x ≠ []) :
    normalizarCedula x =
      match valorDevuelto (intentoJson (trim x)) with
      | some v => v
      | none => pasosTexto (trim x) := by
  unfold normalizarCedula cuerpoNormalizar
  rw [if_neg hne]
  cases hj : intentoJson (trim x) with
  | error e => simp only [hj, valorDevuelto]
  | ok r =>
    cases r with
    | none => simp only [hj, valorDevuelto]
    | some v => simp only [hj, valorDevuelto]

theorem pasosTexto_sin_espacios (s : Str) (hs : sinEspacios s = [] → s = []) :
    ∀ c ∈ pasosTexto s, esEspacio c = false := by
  unfold pasosTexto
  cases he : extraerPorPatron patronesCedula s with
  | some r => exact forma_sin_espacios r (extraer_forma _ _ _ he)
  | none =>
    dsimp only
    by_cases hf : formaRazonable (sinEspacios s) = true
    · rw [if_pos hf]
      exact forma_sin_espacios _ hf
    · rw [if_neg hf]
      cases hfil : (tramosDigitos s []).filter (fun num => 8 ≤ num.length ∧ num.length ≤ 12) with
      | cons p ps =>
        have hp : p ∈ tramosDigitos s [] :=
          (List.mem_filter.mp (by rw [hfil]; exact List.mem_cons_self p ps)).1
        exact forma_sin_espacios p (tramosDigitos_razonable s p hp)
      | nil =>
        dsimp only
        cases hnum : tramosDigitos s [] with
        | cons q qs =>
          have hq : q ∈ tramosDigitos s [] := by rw [hnum]; exact List.mem_cons_self q qs
          exact forma_sin_espacios q (tramosDigitos_razonable s q hq)
        | nil =>
          dsimp only
          by_cases hd : sinEspacios s ≠ []
          · rw [if_pos hd]
            exact sinEspacios_mem s
          · rw [if_neg hd]
            have h0 : s = [] := hs (by simpa using hd)
            rw [h0]
            intro c hc
            cases hc

theorem normalizarCedula_sin_espacios (x : Str) :
    ∀ c ∈ normalizarCedula x, esEspacio c = false := by
  by_cases hne : x = []
  · rw [hne]
    have h0 : normalizarCedula [] = [] := by decide
    rw [h0]
    intro c hc
    cases hc
  · rw [normalizar_pasos x hne]
    cases hv : valorDevuelto (intentoJson (trim x)) with
    | some v => exact campo_sin_espacios v (intentoJson_devuelve _ v hv).2
    | none =>
      apply pasosTexto_sin_espacios
      intro hs
      cases ht : trim x with
      | nil => rfl
      | cons c cs =>
        have hc := trim_cabeza x c cs ht
        rw [ht] at hs
        unfold sinEspacios at hs
        rw [List.filter_cons] at hs
        simp [hc] at hs

theorem devuelto_distinto (y v : Str) (h : valorDevuelto (intentoJson y) = some v) :
    v ≠ y := by
  obtain ⟨⟨r0, hr0⟩, hf⟩ := intentoJson_devuelve y v h
  intro hvy
  have hmem : '\x7b' ∈ y := by
    have hsub : saltar y ⊆ y := by
      unfold saltar
      exact List.dropWhile_subset _
    exact hsub (by rw [hr0]; exact List.mem_cons_self _ _)
  unfold formaCampo at hf
  simp only [Bool.and_eq_true, List.all_eq_true, decide_eq_true_eq] at hf
  have := hf.1.1 '\x7b' (by rw [hvy]; exact hmem)
  revert this
  decide

theorem segunda_pasada (y : Str) (hesp : ∀ c ∈ y, esEspacio c = false) :
    normalizarCedula y = y ↔ segundaPasadaNeutra y := by
  by_cases hy : y = []
  · rw [hy]
    exact ⟨fun _ => Or.inl rfl, fun _ => by decide⟩
  · have htrim : trim y = y := trim_sin_espacios y hesp
    have hn := normalizar_pasos y hy
    rw [htrim] at hn
    unfold segundaPasadaNeutra
    cases hv : valorDevuelto (intentoJson y) with
    | some v =>
      rw [hv] at hn
      rw [hn]
      constructor
      · intro h
        exact absurd h (devuelto_distinto y v hv)
      · rintro (h | ⟨h, _⟩)
        · exact absurd h hy
        · cases h
    | none =>
      rw [hv] at hn
      rw [hn]
      have hpas : pasosTexto y = y ↔ (extraerPorPatron patronesCedula y = some y ∨
          (extraerPorPatron patronesCedula y = none ∧
            (formaRazonable y = true ∨ tramosDigitos y [] = []))) := by
        unfold pasosTexto
        cases he : extraerPorPatron patronesCedula y with
        | some r => simp
        | none =>
          dsimp only
          rw [sinEspacios_nada y hesp]
          by_cases hf : formaRazonable y = true
          · rw [if_pos hf]
            simp [hf]
          · rw [if_neg hf]
            cases hfil : (tramosDigitos y []).filter
                (fun num => 8 ≤ num.length ∧ num.length ≤ 12) with
            | cons p ps =>
              have hp : p ∈ tramosDigitos y [] :=
                (List.mem_filter.mp (by rw [hfil]; exact List.mem_cons_self p ps)).1
              have hpr := tramosDigitos_razonable y p hp
              dsimp only
              constructor
              · intro h
                rw [h] at hpr
                exact absurd hpr hf
              · rintro (h | ⟨_, h | h⟩)
                · cases h
                · exact absurd h hf
                · rw [h] at hp
                  cases hp
            | nil =>
              dsimp only
              cases hnum : tramosDigitos y [] with
              | cons q qs =>
                have hq : q ∈ tramosDigitos y [] := by
                  rw [hnum]; exact List.mem_cons_self q qs
                have hqr := tramosDigitos_razonable y q hq
                dsimp only
                constructor
                · intro h
                  rw [h] at hqr
                  exact absurd hqr hf
                · rintro (h | ⟨_, h | h⟩)
                  · cases h
                  · exact absurd h hf
                  · cases h
              | nil =>
                dsimp only
                rw [if_pos hy]
                simp
      rw [hpas]
      constructor
      · intro h
        exact Or.inr ⟨rfl, h⟩
      · rintro (h | ⟨_, h⟩)
        · exact absurd h hy
        · exact h

theorem forma_sin_json (y : Str) (hf : formaRazonable y = true) :
    valorDevuelto (intentoJson y) = none := by
  cases hv : valorDevuelto (intentoJson y) with
  | none => rfl
  | some v =>
    obtain ⟨⟨r0, hr0⟩, _⟩ := intentoJson_devuelve y v hv
    have hmem : '\x7b' ∈ y := by
      have hsub : saltar y ⊆ y := by
        unfold saltar
        exact List.dropWhile_subset _
      exact hsub (by rw [hr0]; exact List.mem_cons_self _ _)
    have hllave := (forma_alfaGuion y hf).1 '\x7b' hmem
    have hno : esAlfaGuion '\x7b' = false := by decide
    rw [hno] at hllave
    cases hllave

/-- C9, amended. For every input, `normalizarCedula(normalizarCedula(x))` equals
`normalizarCedula(x)` exactly when a second pass finds nothing to take out of the
normalised form `y`: `y` is empty, or step 1 returns no field of `y` and either the
pattern loop extracts `y` whole, or it extracts nothing and `y` has the accepted shape or
holds no run of five or more digits. When `y` is made of 3 to 20 letters, digits and
hyphens this says: idempotent exactly when the pattern loop extracts nothing from `y` or
extracts `y` whole. It holds in particular when `y` is a run of 3 to 20 digits and when
`y` has the hyphenated national-id shape, and at `8-123-456`, `PE-456-789` and
`Texto - PE-456-789`; from `ID-123` the pattern loop extracts `123`. -/
theorem normalizarCedula_idempotente_salvo_extraccion (x : Str) :
    (normalizarCedula (normalizarCedula x) = normalizarCedula x ↔
      segundaPasadaNeutra (normalizarCedula x)) ∧
    (formaRazonable (normalizarCedula x) = true →
      (normalizarCedula (normalizarCedula x) = normalizarCedula x ↔
        (extraerPorPatron patronesCedula (normalizarCedula x) = none ∨
          extraerPorPatron patronesCedula (normalizarCedula x) =
            some (normalizarCedula x)))) ∧
    (normalizarCedula x = [] →
      normalizarCedula (normalizarCedula x) = normalizarCedula x) ∧
    ((∀ c ∈ normalizarCedula x, esDigito c = true) → 3 ≤ (normalizarCedula x).length →
      (normalizarCedula x).length ≤ 20 →
      normalizarCedula (normalizarCedula x) = normalizarCedula x) ∧
    (∀ a b c : Str, (∀ d ∈ a, esDigito d = true) → (∀ d ∈ b, esDigito d = true) →
      (∀ d ∈ c, esDigito d = true) → 1 ≤ a.length → a.length ≤ 2 → 3 ≤ b.length →
      b.length ≤ 4 → 3 ≤ c.length → c.length ≤ 6 →
      normalizarCedula x = a ++ '-' :: (b ++ '-' :: c) →
      normalizarCedula (normalizarCedula x) = normalizarCedula x) ∧
    normalizarCedula (normalizarCedula "8-123-456".toList) =
      normalizarCedula "8-123-456".toList ∧
    normalizarCedula (normalizarCedula "PE-456-789".toList) =
      normalizarCedula "PE-456-789".toList ∧
    normalizarCedula (normalizarCedula "Texto - PE-456-789".toList) =
      normalizarCedula "Texto - PE-456-789".toList ∧
    extraerPorPatron patronesCedula (normalizarCedula "ID: ID-123".toList) =
      some "123".toList := by
  have hesp := normalizarCedula_sin_espacios x
  have hiff := segunda_pasada (normalizarCedula x) hesp
  refine ⟨hiff, ?_, ?_, ?_, ?_, by decide, by decide, by decide, by decide⟩
  · intro hf
    rw [hiff]
    unfold segundaPasadaNeutra
    have hne : normalizarCedula x ≠ [] := by
      intro h0
      rw [h0] at hf
      revert hf
      decide
    constructor
    · rintro (h | ⟨_, h | ⟨h, _⟩⟩)
      · exact absurd h hne
      · exact Or.inr h
      · exact Or.inl h
    · rintro (h | h)
      · exact Or.inr ⟨forma_sin_json _ hf, Or.inr ⟨h, Or.inl hf⟩⟩
      · exact Or.inr ⟨forma_sin_json _ hf, Or.inl h⟩
  · intro h0
    rw [h0]
    decide
  · intro hd h3 h20
    exact digitos_punto_fijo _ hd h3 h20
  · intro a b c ha hb hc ha1 ha2 hb1 hb2 hc1 hc2 hx
    rw [hx]
    exact panama_punto_fijo a b c ha hb hc ha1 ha2 hb1 hb2 hc1 hc2

end SurPass
